import Mathlib

/-!
Telegram Desktop, `dropdown.cpp`: recency list, mention filter, dropdown and emoji pan.

A shallow embedding of the algorithmic fragments of
`Telegram/SourceFiles/dropdown.cpp`:

* the recent-emoji update in `EmojiPanInner::mouseReleaseEvent`,
* the candidate filter of `MentionsDropdown::updateFiltered`,
* the show/hide fade state machine and the keyboard navigation of `Dropdown`,
* selection and geometry of the mention list (`MentionsInner`, `MentionsDropdown::recount`),
* hit-testing and hover animations of `EmojiPanInner`.

Qt containers are lists, pointers are natural-number identifiers, and
`float64` values are rationals: the arithmetic of `EmojiPanInner` (sticker hit-testing and
the hover fade) rounds to the nearest binary64 value (`float64.ofRat`), the opacity fade of
`Dropdown` computes on the exact values.
-/

/-! ## Recent emoji -/

/-- An `EmojiPtr` is a pointer to static emoji data; only its identity is used. -/
abbrev EmojiPtr := Nat

/-- Modelled from the spec: the type `RecentEmojiPack` (declared outside this file), the
recency list of items with usage counters: a `QVector` of (emoji, usage counter) pairs.  The
counter is a 16-bit unsigned integer (`ushort`), kept here as a natural number. -/
abbrev RecentEmojiPack := List (EmojiPtr × Nat)

namespace EmojiPanInner

/-- The statement `++i->second` on the 16-bit unsigned counter. -/
def incrCount (c : Nat) : Nat := (c + 1) % 65536

/-- Body of the halving loop for one counter:
`if (j->second > 1) j->second /= 2; else j->second = 1;`. -/
def halveCount (c : Nat) : Nat := if c > 1 then c / 2 else 1

/-- The loop `for (j = recent.begin(); j != e; ++j)` that halves every counter. -/
def halveAll (recent : RecentEmojiPack) : RecentEmojiPack :=
  recent.map (fun p => (p.1, halveCount p.2))

/-- The search loop `for (; i != e; ++i) if (i->first == emoji)`: the index of the
first entry holding `emoji`, or `none` when the loop runs to `e`. -/
def findEmoji (emoji : EmojiPtr) : RecentEmojiPack → Option Nat
  | [] => none
  | p :: rest =>
    if p.1 = emoji then some 0 else (findEmoji emoji rest).map (· + 1)

/-- The loop
`for (; i != recent.begin(); --i) { if ((i - 1)->second > i->second) break; qSwap(*i, *(i - 1)); }`
started with the iterator at index `i`. -/
def bubbleUp (recent : RecentEmojiPack) : Nat → RecentEmojiPack
  | 0 => recent
  | i + 1 =>
    match recent[i]?, recent[i + 1]? with
    | some prev, some cur =>
      if prev.2 > cur.2 then recent
      else bubbleUp ((recent.set i cur).set (i + 1) prev) i
    | _, _ => recent

/-- The loop `while (recent.size() >= cap) recent.pop_back();` where `cap` is
`EmojiPadPerRow * EmojiPadRowsPerPage`.  The first argument bounds the number of
iterations; `none` means the bound was hit or `pop_back` was called on an empty
vector (which the loop does forever when `cap = 0`). -/
def popBackLoop (cap : Nat) : Nat → RecentEmojiPack → Option RecentEmojiPack
  | 0, _ => none
  | fuel + 1, recent =>
    if cap ≤ recent.length then
      if recent = [] then none else popBackLoop cap fuel recent.dropLast
    else some recent

/-- The recent-emoji update of `EmojiPanInner::mouseReleaseEvent` (the block between
`RecentEmojiPack recent(cGetRecentEmojis())` and `cSetRecentEmojis(recent)`):
`recent` is the stored pack, `emoji` the selected emoji, and the result is the pack
written back. `cap` is `EmojiPadPerRow * EmojiPadRowsPerPage`. -/
def mouseReleaseEvent_recent (cap : Nat) (recent : RecentEmojiPack) (emoji : EmojiPtr) :
    Option RecentEmojiPack :=
  match findEmoji emoji recent with
  | some i =>
    match recent[i]? with
    | some p =>
      let c := incrCount p.2
      let r1 := recent.set i (p.1, c)
      let r2 := if c > 0x8000 then halveAll r1 else r1
      some (bubbleUp r2 i)
    | none => none
  | none =>
    match popBackLoop cap (recent.length + 1) recent with
    | some r =>
      let r1 := r ++ [(emoji, 1)]
      some (bubbleUp r1 (r1.length - 1))
    | none => none

/-- The counter adjustment applied to the whole pack once the incremented counter is `c1`:
every counter is halved when `c1 > 0x8000`, otherwise nothing changes. -/
def adjust (c1 : Nat) (c : Nat) : Nat := if c1 > 0x8000 then halveCount c else c

/-- Counters are ordered from front to back without ever increasing. -/
def UsageOrdered (recent : RecentEmojiPack) : Prop :=
  recent.Pairwise (fun a b => b.2 ≤ a.2)

instance (recent : RecentEmojiPack) : Decidable (UsageOrdered recent) := by
  unfold UsageOrdered; infer_instance

end EmojiPanInner

/-! ## Mention and hashtag filter -/

/-- A `QString` as its list of characters. -/
abbrev QString := List Char

/-- A `UserData*`; only the identity of the pointer is used, the pointed-to data is read
through a heap function `UserPtr → UserData`. -/
abbrev UserPtr := Nat

/-- Modelled from the spec: the fields of `UserData` (declared outside this file) read by
`MentionsDropdown::updateFiltered`. -/
structure UserData where
  username : QString
  onlineTill : Int

/-- Modelled from the spec: the fields of `ChatData` (declared outside this file) read by
`MentionsDropdown::updateFiltered`: `participants` lists the keys of the participants hash in iteration order, `lastAuthors` is the stored
vector of last authors. -/
structure ChatData where
  participants : List UserPtr
  lastAuthors : List UserPtr

/-- The type `MentionRows`: a vector of users. -/
abbrev MentionRows := List UserPtr

/-- The type `HashtagRows`: a vector of tags. -/
abbrev HashtagRows := List QString

/-- The type `RecentHashtagPack`: a list of (tag, counter) pairs. -/
abbrev RecentHashtagPack := List (QString × Nat)

/-- Qt's `QString::startsWith(needle, Qt::CaseInsensitive)`: `s` is at least as long as
`needle` and agrees with it character by character after case folding with `fold`. -/
def QString.startsWith (fold : Char → Char) (s needle : QString) : Bool :=
  decide (needle.length ≤ s.length) && ((s.take needle.length).map fold == needle.map fold)

/-- Qt's `QMultiMap::insertMulti(key, value)` on a map kept as its ascending list of entries: the
new entry goes in front of the first entry whose key is not smaller. -/
def QMultiMap.insertMulti (key : Int) (value : UserPtr) :
    List (Int × UserPtr) → List (Int × UserPtr)
  | [] => [(key, value)]
  | e :: rest =>
    if e.1 < key then e :: QMultiMap.insertMulti key value rest
    else (key, value) :: e :: rest

/-- Qt's `QMultiMap::remove(key, value)`: drops every entry with this key and this value. -/
def QMultiMap.remove (key : Int) (value : UserPtr) (m : List (Int × UserPtr)) :
    List (Int × UserPtr) :=
  m.filter (fun e => !(decide (e.1 = key) && decide (e.2 = value)))

namespace MentionsDropdown

/-- The test guarding `continue` in the three loops of `updateFiltered`:
`_filter.size() > 1 && (!name.startsWith(_filter.midRef(1), Qt::CaseInsensitive)
  || name.size() + 1 == _filter.size())`. -/
def skipped (fold : Char → Char) (filter name : QString) : Bool :=
  decide (filter.length > 1) &&
    (!(QString.startsWith fold name (filter.drop 1)) || decide (name.length + 1 = filter.length))

/-- A user is kept by a loop of the `@` branch: the username is not empty and the
`continue` test fails. -/
def keptUser (fold : Char → Char) (users : UserPtr → UserData) (filter : QString)
    (u : UserPtr) : Bool :=
  !(users u).username.isEmpty && !(skipped fold filter (users u).username)

/-- Body of the loop over `_chat->participants`: the user is skipped or inserted into
`ordered` under the key `App::onlineForSort(user->onlineTill, now)`. -/
def participantsStep (fold : Char → Char) (users : UserPtr → UserData)
    (onlineForSort : Int → Int → Int) (filter : QString) (now : Int)
    (ordered : List (Int × UserPtr)) (u : UserPtr) : List (Int × UserPtr) :=
  if (users u).username.isEmpty then ordered
  else if skipped fold filter (users u).username then ordered
  else QMultiMap.insertMulti (onlineForSort (users u).onlineTill now) u ordered

/-- The loop over `_chat->participants` filling `ordered`. -/
def participantsLoop (fold : Char → Char) (users : UserPtr → UserData)
    (onlineForSort : Int → Int → Int) (filter : QString) (now : Int)
    (participants : List UserPtr) (ordered : List (Int × UserPtr)) : List (Int × UserPtr) :=
  participants.foldl (participantsStep fold users onlineForSort filter now) ordered

/-- Body of the loop over `_chat->lastAuthors`: the user is skipped, or pushed to `rows`
and, when `ordered` is not empty, removed from `ordered`. -/
def lastAuthorsStep (fold : Char → Char) (users : UserPtr → UserData)
    (onlineForSort : Int → Int → Int) (filter : QString) (now : Int)
    (st : MentionRows × List (Int × UserPtr)) (u : UserPtr) :
    MentionRows × List (Int × UserPtr) :=
  if (users u).username.isEmpty then st
  else if skipped fold filter (users u).username then st
  else (st.1 ++ [u],
    if !st.2.isEmpty then QMultiMap.remove (onlineForSort (users u).onlineTill now) u st.2
    else st.2)

/-- The loop over `_chat->lastAuthors` filling `rows` and removing from `ordered`. -/
def lastAuthorsLoop (fold : Char → Char) (users : UserPtr → UserData)
    (onlineForSort : Int → Int → Int) (filter : QString) (now : Int)
    (lastAuthors : List UserPtr) (st : MentionRows × List (Int × UserPtr)) :
    MentionRows × List (Int × UserPtr) :=
  lastAuthors.foldl (lastAuthorsStep fold users onlineForSort filter now) st

/-- The lists `rows` and `hrows` built by `MentionsDropdown::updateFiltered` from the
stored `_filter`, before they are written to `_rows` and `_hrows`.  `users` reads a user
pointer, `onlineForSort` is `App::onlineForSort`, `recent` is `cRecentWriteHashtags()`.
`none` stands for `_filter.at(0)` on an empty filter. -/
def updateFiltered (fold : Char → Char) (users : UserPtr → UserData)
    (onlineForSort : Int → Int → Int) (chat : ChatData) (recent : RecentHashtagPack)
    (filter : QString) (now : Int) : Option (MentionRows × HashtagRows) :=
  match filter with
  | [] => none
  | first :: _ =>
    if first = '@' then
      let ordered0 : List (Int × UserPtr) :=
        if chat.participants.isEmpty then []
        else participantsLoop fold users onlineForSort filter now chat.participants []
      let st := lastAuthorsLoop fold users onlineForSort filter now chat.lastAuthors
        ([], ordered0)
      let rows := if !st.2.isEmpty then st.1 ++ st.2.reverse.map Prod.snd else st.1
      some (rows, [])
    else
      let hrows := (recent.filter (fun e => !(skipped fold filter e.1))).map Prod.fst
      some ([], hrows)

/-- The function `MentionsDropdown::showFiltered`: the typed text `start` (sigil included) is
lower-cased with `toLower`, stored as `_filter`, and `updateFiltered` runs on it. -/
def showFiltered (toLower fold : Char → Char) (users : UserPtr → UserData)
    (onlineForSort : Int → Int → Int) (chat : ChatData) (recent : RecentHashtagPack)
    (start : QString) (now : Int) : Option (MentionRows × HashtagRows) :=
  updateFiltered fold users onlineForSort chat recent (start.map toLower) now

end MentionsDropdown

/-- A sample heap of users: `ann`, `al`, `bob`, `ax`, and users without a username. -/
def MentionsDropdown.sampleUsers (u : UserPtr) : UserData :=
  if u = 1 then ⟨['a', 'n', 'n'], 5⟩ else if u = 2 then ⟨['a', 'l'], 9⟩
  else if u = 3 then ⟨['b', 'o', 'b'], 7⟩ else if u = 4 then ⟨['a', 'x'], 7⟩
  else ⟨[], 0⟩

/-! ## Dropdown fade -/

/-- Modelled from the spec: `anim::fvalue`, the animated value behind `a_opacity`
(declared in `animation.h`, outside this file): a current value, the value the running
interpolation started from, and the distance to its target.  `float64` values are exact
rationals. -/
structure anim.fvalue where
  _cur : ℚ
  _from : ℚ
  _delta : ℚ
  deriving DecidableEq

namespace anim

/-- Modelled from the spec: `fvalue::start(to)` starts an interpolation from the current
value towards the target `to`. -/
def fvalue.start (v : fvalue) (target : ℚ) : fvalue :=
  { _cur := v._cur, _from := v._cur, _delta := target - v._cur }

/-- Modelled from the spec: `fvalue::update(dt, func)` sets the current value to the
interpolated one. -/
def fvalue.update (v : fvalue) (dt : ℚ) (func : ℚ → ℚ → ℚ) : fvalue :=
  { v with _cur := v._from + func v._delta dt }

/-- Modelled from the spec: `fvalue::finish()` jumps to the target of the interpolation. -/
def fvalue.finish (v : fvalue) : fvalue :=
  { _cur := v._from + v._delta, _from := v._from + v._delta, _delta := 0 }

/-- Modelled from the spec: `fvalue::current()`. -/
def fvalue.current (v : fvalue) : ℚ := v._cur

/-- Modelled from the spec: the transition `anim::linear`. -/
def linear (delta dt : ℚ) : ℚ := delta * dt

end anim

/-- Modelled from the spec: the part of an `IconedButton` that `Dropdown` touches (the
class lives in other files): its state flags, whether it is hidden, and its opacity. -/
structure IconedButton where
  state : Nat
  hidden : Bool
  opacity : ℚ
  deriving DecidableEq

/-- Modelled from the spec: `Button::clearState()` resets the state flags. -/
def IconedButton.clearState (b : IconedButton) : IconedButton := { b with state := 0 }

/-- Modelled from the spec: `IconedButton::setOpacity(o)`. -/
def IconedButton.setOpacity (b : IconedButton) (o : ℚ) : IconedButton := { b with opacity := o }

/-- The members of `Dropdown` used by the fade: `hidden` is `QWidget::isHidden()`.  The
registration with the animation driver (`anim::start(this)`) lives in the driver; the driver
drops it when `animStep` returns `false`. -/
structure Dropdown where
  _hiding : Bool
  a_opacity : anim.fvalue
  _selected : Int
  _buttons : List IconedButton
  hidden : Bool
  deriving DecidableEq

namespace Dropdown

/-- The function `Dropdown::adjustButtons`: every button takes the current opacity. -/
def adjustButtons (s : Dropdown) : Dropdown :=
  { s with _buttons := s._buttons.map (fun b => b.setOpacity s.a_opacity.current) }

/-- The function `Dropdown::hideStart`: sets `_hiding` and starts the fade towards `0`. -/
def hideStart (s : Dropdown) : Dropdown :=
  { s with _hiding := true, a_opacity := s.a_opacity.start 0 }

/-- The function `Dropdown::hideFinish`: hides the widget, clears every button state and
resets the selection. -/
def hideFinish (s : Dropdown) : Dropdown :=
  { s with hidden := true, _buttons := s._buttons.map IconedButton.clearState,
           _selected := -1 }

/-- The function `Dropdown::showStart`: returns at once when the widget is visible and the
current opacity is `1`; otherwise resets the selection, clears `_hiding`, shows the widget
and starts the fade towards `1`. -/
def showStart (s : Dropdown) : Dropdown :=
  if !s.hidden && decide (s.a_opacity.current = 1) then s
  else { s with _selected := -1, _hiding := false, hidden := false,
                a_opacity := s.a_opacity.start 1 }

/-- The function `Dropdown::animStep(ms)` with `duration` standing for `_st.duration`: the new
state and the returned flag. -/
def animStep (duration : Int) (ms : ℚ) (s : Dropdown) : Dropdown × Bool :=
  let dt : ℚ := ms / (duration : ℚ)
  let r : Dropdown × Bool :=
    if dt ≥ 1 then
      let s1 := { s with a_opacity := s.a_opacity.finish }
      let s2 := if s1._hiding then hideFinish s1 else s1
      (s2, false)
    else
      ({ s with a_opacity := s.a_opacity.update dt anim.linear }, true)
  (adjustButtons r.1, r.2)

/-- A fully shown dropdown with one button in the "over" state. -/
def shown : Dropdown :=
  { _hiding := false, a_opacity := ⟨1, 1, 0⟩, _selected := 0,
    _buttons := [⟨1, false, 1⟩], hidden := false }

end Dropdown

/-- The filter predicate in the words of the specification: with filter text `f`, a name `n`
is kept when `f` has length `1`, or when `n` starts with `f` without its first character
(case-insensitively) and is strictly longer than that typed text. -/
def MentionsDropdown.keptBySpec (fold : Char → Char) (f n : QString) : Bool :=
  decide (f.length = 1) ||
    (QString.startsWith fold n (f.drop 1) && decide ((f.drop 1).length < n.length))

/-! ## Mention list: selection and geometry -/

/-- The members of `MentionsInner` that carry the selection. -/
structure MentionsInner where
  _sel : Int
  _mouseSel : Bool
  _overDelete : Bool
  deriving DecidableEq

namespace MentionsInner

/-- The expression `_rows->isEmpty() ? _hrows->size() : _rows->size()`. -/
def maxSel (rows : MentionRows) (hrows : HashtagRows) : Int :=
  if rows.isEmpty then hrows.length else rows.length

/-- The function `MentionsInner::setSel`: stores the selection (the repaint and the
`mustScrollTo` signal leave the members unchanged). -/
def setSel (s : MentionsInner) (sel : Int) : MentionsInner := { s with _sel := sel }

/-- The function `MentionsInner::clearSel`. -/
def clearSel (s : MentionsInner) : MentionsInner :=
  setSel { s with _mouseSel := false, _overDelete := false } (-1)

/-- The function `MentionsInner::moveSel(direction)`: the new members and the returned
flag. -/
def moveSel (rows : MentionRows) (hrows : HashtagRows) (direction : Int) (s : MentionsInner) :
    MentionsInner × Bool :=
  let s1 := { s with _mouseSel := false }
  let maxSel := maxSel rows hrows
  if s1._sel ≥ maxSel ∨ s1._sel < 0 then
    let s2 := if direction < 0 then setSel s1 (maxSel - 1) else s1
    (s2, decide (s2._sel ≥ 0 ∧ s2._sel < maxSel))
  else
    let s2 :=
      if s1._sel > 0 ∨ direction > 0 then
        setSel s1 (if s1._sel + direction ≥ maxSel then -1 else s1._sel + direction)
      else s1
    (s2, true)

/-- The function `MentionsInner::onUpdateSelected(force)`: `mouseX`, `mouseY` are the cursor
position mapped into the widget, `w` and `h` its width and height, `mentionHeight` is
`st::mentionHeight`.  The division is the truncating division of C++ `int`. -/
def onUpdateSelected (mentionHeight w h : Int) (rows : MentionRows) (hrows : HashtagRows)
    (force : Bool) (mouseX mouseY : Int) (s : MentionsInner) : MentionsInner :=
  let inRect := decide (0 ≤ mouseX ∧ mouseX < w ∧ 0 ≤ mouseY ∧ mouseY < h)
  if (!force && !inRect) || !s._mouseSel then s
  else
    let s1 := { s with _overDelete := rows.isEmpty && decide (mouseX ≥ w - mentionHeight) }
    let sel0 := Int.tdiv mouseY mentionHeight
    let maxSel := maxSel rows hrows
    let sel := if sel0 < 0 ∨ sel0 ≥ maxSel then -1 else sel0
    if sel ≠ s1._sel then setSel s1 sel else s1

end MentionsInner

/-- The members of `MentionsDropdown` and of its children read or written by `recount`:
the row lists, the inner list and its height, the height and top of the dropdown, the
height and scroll position of the scroll area, and the height of `_boundings`. -/
structure MentionsDropdown where
  _rows : MentionRows
  _hrows : HashtagRows
  _inner : MentionsInner
  innerHeight : Int
  height : Int
  y : Int
  scrollHeight : Int
  scrollTop : Int
  boundingsHeight : Int

/-- First step of `recount`: `if (_inner.height() != h) { st += h - _inner.height();
_inner.resize(width(), h); }`, on the pair of the members and the local `st`. -/
def MentionsDropdown.recountInner (h0 : Int) (p : MentionsDropdown × Int) :
    MentionsDropdown × Int :=
  if p.1.innerHeight ≠ h0 then ({ p.1 with innerHeight := h0 }, p.2 + (h0 - p.1.innerHeight))
  else p

/-- The two clamps of `recount`: `if (h > _boundings.height()) h = _boundings.height();
if (h > 5 * st::mentionHeight) h = 5 * st::mentionHeight;`. -/
def MentionsDropdown.recountHeight (mentionHeight boundingsHeight h0 : Int) : Int :=
  let h1 := if h0 > boundingsHeight then boundingsHeight else h0
  if h1 > 5 * mentionHeight then 5 * mentionHeight else h1

/-- The geometry step of `recount`: `setGeometry` and `_scroll.resize` when the height
differs, otherwise `move` when the top differs. -/
def MentionsDropdown.recountGeometry (h : Int) (p : MentionsDropdown × Int) :
    MentionsDropdown × Int :=
  if p.1.height ≠ h then
    ({ p.1 with y := p.1.boundingsHeight - h, height := h, scrollHeight := h },
      p.2 + (p.1.scrollHeight - h))
  else if p.1.y ≠ p.1.boundingsHeight - h then
    ({ p.1 with y := p.1.boundingsHeight - h }, p.2)
  else p

/-- The last step of `recount`: `if (toDown) st = _scroll.scrollTopMax();
if (st != oldst) _scroll.scrollToY(st); if (toDown) _inner.clearSel();`. -/
def MentionsDropdown.recountScroll (scrollTopMax oldst : Int) (toDown : Bool)
    (p : MentionsDropdown × Int) : MentionsDropdown :=
  let st := if toDown then scrollTopMax else p.2
  let d := if st ≠ oldst then { p.1 with scrollTop := st } else p.1
  if toDown then { d with _inner := d._inner.clearSel } else d

/-- The function `MentionsDropdown::recount(toDown)`: `mentionHeight` is `st::mentionHeight`
and `scrollTopMax` the value of `_scroll.scrollTopMax()`; `resize`, `setGeometry`, `move` and
`scrollToY` store the given values. -/
def MentionsDropdown.recount (mentionHeight scrollTopMax : Int) (toDown : Bool)
    (d : MentionsDropdown) : MentionsDropdown :=
  let h0 : Int := MentionsInner.maxSel d._rows d._hrows * mentionHeight
  let p1 := MentionsDropdown.recountInner h0 (d, d.scrollTop)
  let h := MentionsDropdown.recountHeight mentionHeight d.boundingsHeight h0
  let p2 := MentionsDropdown.recountGeometry h p1
  MentionsDropdown.recountScroll scrollTopMax d.scrollTop toDown p2

/-! ## Dropdown keyboard navigation -/

/-- Modelled from the spec: `Button::setOver(over)` sets or clears the "over" flag of the
button state (the class lives in other files; the flag is taken as the lowest bit). -/
def IconedButton.setOver (b : IconedButton) (over : Bool) : IconedButton :=
  { b with state := if over then b.state ||| 1 else (b.state / 2) * 2 }

/-- The keys told apart by `Dropdown::keyPressEvent`. -/
inductive Key where
  | Enter
  | Escape
  | Up
  | Down
  | Other
  deriving DecidableEq

namespace Dropdown

/-- The wrap applied to `newSelected` in `keyPressEvent`:
`if (newSelected < 0) newSelected = _buttons.size() - 1;
else if (newSelected >= _buttons.size()) newSelected = 0;`. -/
def wrapSelected (size : Int) (newSelected : Int) : Int :=
  if newSelected < 0 then size - 1 else if newSelected ≥ size then 0 else newSelected

/-- The access `_buttons.at(i)->isHidden()`; `none` when `i` is out of range. -/
def isHiddenAt (buttons : List IconedButton) (i : Int) : Option Bool :=
  if i < 0 then none else (buttons[i.toNat]?).map (fun b => b.hidden)

/-- The loop `while (_buttons.at(newSelected)->isHidden()) { newSelected += delta; ...wrap...;
if (newSelected == startFrom) return; }`.  The first argument bounds the number of loop
tests.  Results: `none` when the bound is hit or an index is out of range, `some none` when
the loop leaves through `return`, `some (some i)` when it ends with `newSelected = i`. -/
def scanLoop (buttons : List IconedButton) (delta startFrom : Int) :
    Nat → Int → Option (Option Int)
  | 0, _ => none
  | fuel + 1, newSelected =>
    match isHiddenAt buttons newSelected with
    | none => none
    | some false => some (some newSelected)
    | some true =>
      let next := wrapSelected buttons.length (newSelected + delta)
      if next = startFrom then some none else scanLoop buttons delta startFrom fuel next

/-- The start index of the scan in `keyPressEvent`: `_selected + delta`, or the first index
for `Key_Down` and the last one for `Key_Up` when nothing valid is selected, wrapped. -/
def scanStart (size : Int) (down : Bool) (selected : Int) : Int :=
  let none := decide (selected < 0 ∨ selected ≥ size)
  let delta : Int := if down then 1 else -1
  wrapSelected size (if none then (if down then 0 else size - 1) else selected + delta)

/-- Writes `f` to the button at index `i` (as `_buttons[i]->...` does); `none` when `i` is
out of range. -/
def updateButton (buttons : List IconedButton) (i : Int) (f : IconedButton → IconedButton) :
    Option (List IconedButton) :=
  if i < 0 then none
  else match buttons[i.toNat]? with
    | none => none
    | some b => some (buttons.set i.toNat (f b))

/-- The function `Dropdown::keyPressEvent`.  `none` stands for an index out of range or a
scan that does not end within `_buttons.size()` loop tests. -/
def keyPressEvent (key : Key) (s : Dropdown) : Option Dropdown :=
  let size : Int := s._buttons.length
  if (key = Key.Enter) ∧ (s._selected ≥ 0 ∧ s._selected < size) then some s
  else if key = Key.Escape then some (hideStart s)
  else if (key ≠ Key.Up ∧ key ≠ Key.Down) ∨ size < 1 then some s
  else
    let none := decide (s._selected < 0 ∨ s._selected ≥ size)
    let down := decide (key = Key.Down)
    let delta : Int := if down then 1 else -1
    let startFrom := scanStart size down s._selected
    match scanLoop s._buttons delta startFrom s._buttons.length startFrom with
    | Option.none => Option.none
    | some Option.none => some s
    | some (some newSelected) =>
      match (if none then some s._buttons
             else updateButton s._buttons s._selected (fun b => b.setOver false)) with
      | Option.none => Option.none
      | some buttons1 =>
        match updateButton buttons1 newSelected (fun b => b.setOver true) with
        | Option.none => Option.none
        | some buttons2 => some { s with _selected := newSelected, _buttons := buttons2 }

/-- A dropdown with four buttons of which the second and third are hidden. -/
def sampleMenu : Dropdown :=
  { _hiding := false, a_opacity := ⟨1, 1, 0⟩, _selected := 0,
    _buttons := [⟨1, false, 1⟩, ⟨0, true, 1⟩, ⟨0, true, 1⟩, ⟨0, false, 1⟩], hidden := false }

end Dropdown

/-! ## Emoji pan: hit-testing and hover animations -/

/-- Modelled from the spec: the tabs of the emoji pan (`DBIEmojiTab`, declared outside this
file). -/
inductive DBIEmojiTab where
  | dbietRecent
  | dbietPeople
  | dbietNature
  | dbietObjects
  | dbietPlaces
  | dbietSymbols
  | dbietStickers
  deriving DecidableEq

/-- A `DocumentData*`; only the identity of the pointer is used. -/
abbrev DocumentPtr := Nat

/-- Modelled from the spec: the constants and the widget width read by `EmojiPanInner`
(declared outside this file): `EmojiPadPerRow`, `StickerPadPerRow`, the size
`st::emojiPanSize`, the pixel size of `st::stickerPanDelete`, `st::emojiPanDuration`, and
the value of `width()`. -/
structure EmojiPanStyle where
  EmojiPadPerRow : Int
  StickerPadPerRow : Int
  emojiPanWidth : Int
  emojiPanHeight : Int
  deleteWidth : Int
  deleteHeight : Int
  emojiPanDuration : Int
  width : Int

/-- Qt's `QMap::remove(key)` on a map kept as its ascending list of entries. -/
def QMap.remove (key : Int) (m : List (Int × Nat)) : List (Int × Nat) :=
  m.filter (fun e => decide (e.1 ≠ key))

/-- The test `map.find(key) != map.end()`. -/
def QMap.contains (key : Int) (m : List (Int × Nat)) : Bool :=
  m.any (fun e => decide (e.1 = key))

/-- Qt's `QMap::insert(key, value)` on a map kept as its ascending list of entries: the
value of an existing key is replaced. -/
def QMap.insert (key : Int) (value : Nat) : List (Int × Nat) → List (Int × Nat)
  | [] => [(key, value)]
  | e :: rest =>
    if key < e.1 then (key, value) :: e :: rest
    else if key = e.1 then (key, value) :: rest
    else e :: QMap.insert key value rest

/-! ### Arithmetic of `float64` -/

namespace float64

/-- Rounding of a rational to the nearest integer, ties to the even one. -/
def roundNE (q : ℚ) : Int :=
  if q - ⌊q⌋ < 1 / 2 then ⌊q⌋
  else if 1 / 2 < q - ⌊q⌋ then ⌊q⌋ + 1
  else if ⌊q⌋ % 2 = 0 then ⌊q⌋ else ⌊q⌋ + 1

/-- The exponent of the unit in the last place of the binary64 format at `x`: 52 below the
binary exponent of `x`, and `-1074` in the subnormal range. -/
def ulpExp (x : ℚ) : Int := max (Int.log 2 |x|) (-1022) - 52

/-- The value of type `float64` (`double`, IEEE 754 binary64) nearest to `x`, ties to even: the
result of a conversion or of an arithmetic operation whose exact result is `x`.  Values are
kept as rationals; overflow to infinity (from `2 ^ 1024` on) is left out, the operands in this
file are quotients and differences of integers of at most 64 bits. -/
def ofRat (x : ℚ) : ℚ := (roundNE (x / 2 ^ ulpExp x) : ℚ) * 2 ^ ulpExp x

/-- The operator `/` on `float64`, for a divisor that is not zero. -/
def div (a b : ℚ) : ℚ := ofRat (a / b)

/-- The operator `-` on `float64`. -/
def sub (a b : ℚ) : ℚ := ofRat (a - b)

/-- The operator `*` on `float64`. -/
def mul (a b : ℚ) : ℚ := ofRat (a * b)

end float64

/-- The members of `EmojiPanInner` used by hit-testing and by the hover animations. -/
structure EmojiPanInner where
  _tab : DBIEmojiTab
  _emojis : List EmojiPtr
  _stickers : List DocumentPtr
  _isUserGen : List Bool
  _hovers : List ℚ
  _emojiAnimations : List (Int × Nat)
  _selected : Int
  _xSelected : Int
  _pressedSel : Int
  _xPressedSel : Int

namespace EmojiPanInner

/-- The conversion `int32(x)` of a `float64`: truncation towards zero. -/
def truncToInt (x : ℚ) : Int := if 0 ≤ x then ⌊x⌋ else ⌈x⌉

/-- The first part of `EmojiPanInner::updateSelected`: the pair `(selIndex, xSelIndex)` for
the cursor at the widget-local point `(px, py)`.  `none` stands for a division by zero.  On
the sticker tab the operations on `stickerWidth` are rounded `float64` operations (the `int32`
operands convert without rounding). -/
def hitTest (st : EmojiPanStyle) (s : EmojiPanInner) (px py : Int) : Option (Int × Int) :=
  if s._tab = DBIEmojiTab.dbietStickers then
    let stickerWidth : ℚ := float64.div (st.width : ℚ) (st.StickerPadPerRow : ℚ)
    let stickerSize : Int := truncToInt stickerWidth
    if st.StickerPadPerRow = 0 then none
    else if px ≥ 0 ∧ py ≥ 0
        ∧ (px : ℚ) < float64.mul (st.StickerPadPerRow : ℚ) stickerWidth then
      if stickerSize = 0 then none
      else
        let selIndex : Int :=
          Int.tdiv py stickerSize * st.StickerPadPerRow
            + ⌊float64.div (px : ℚ) stickerWidth⌋
        if selIndex ≥ s._stickers.length then some (-1, -1)
        else
          let inx : Int :=
            truncToInt (float64.sub (px : ℚ)
              (float64.mul ((Int.tmod selIndex st.StickerPadPerRow : Int) : ℚ) stickerWidth))
          let iny : Int := py - Int.tdiv selIndex st.StickerPadPerRow * stickerSize
          if (inx : ℚ) ≥ float64.sub stickerWidth (st.deleteWidth : ℚ)
              ∧ iny < st.deleteHeight then
            some (selIndex, s._stickers.length + selIndex)
          else some (selIndex, -1)
    else some (-1, -1)
  else if px ≥ 0 ∧ py ≥ 0 ∧ px < st.EmojiPadPerRow * st.emojiPanWidth then
    if st.emojiPanHeight = 0 ∨ st.emojiPanWidth = 0 then none
    else
      let selIndex : Int :=
        Int.tdiv py st.emojiPanHeight * st.EmojiPadPerRow + Int.tdiv px st.emojiPanWidth
      if selIndex ≥ s._emojis.length then some (-1, -1) else some (selIndex, -1)
  else some (-1, -1)

/-- The block run for the old selection: `remove(sel + 1)` and, when the key `-sel - 1` is
not found, `insert(-sel - 1, getms())`. -/
def fadeOut (now : Nat) (sel : Int) (m : List (Int × Nat)) : List (Int × Nat) :=
  let m1 := QMap.remove (sel + 1) m
  if QMap.contains (-sel - 1) m1 then m1 else QMap.insert (-sel - 1) now m1

/-- The block run for the new selection: `remove(-sel - 1)` and, when the key `sel + 1` is
not found, `insert(sel + 1, getms())`. -/
def fadeIn (now : Nat) (sel : Int) (m : List (Int × Nat)) : List (Int × Nat) :=
  let m1 := QMap.remove (-sel - 1) m
  if QMap.contains (sel + 1) m1 then m1 else QMap.insert (sel + 1) now m1

/-- The block `if (selIndex != _selected) { ... }` of `updateSelected` on the animation map
(the same block runs for `xSelIndex` and `_xSelected`). -/
def moveSelection (now : Nat) (old new : Int) (m : List (Int × Nat)) : List (Int × Nat) :=
  if new ≠ old then
    let m1 := if old ≥ 0 then fadeOut now old m else m
    if new ≥ 0 then fadeIn now new m1 else m1
  else m

/-- The second part of `updateSelected`: the animation bookkeeping for the new pair
`(selIndex, xSelIndex)`; `now` is the value of `getms()`. -/
def applySelected (now : Nat) (selIndex xSelIndex : Int) (s : EmojiPanInner) : EmojiPanInner :=
  let m1 := moveSelection now s._selected selIndex s._emojiAnimations
  let m2 := moveSelection now s._xSelected xSelIndex m1
  { s with _selected := selIndex, _xSelected := xSelIndex, _emojiAnimations := m2 }

/-- The function `EmojiPanInner::updateSelected` with the cursor at the widget-local point
`(px, py)`. -/
def updateSelected (st : EmojiPanStyle) (px py : Int) (now : Nat) (s : EmojiPanInner) :
    Option EmojiPanInner :=
  (hitTest st s px py).map (fun r => applySelected now r.1 r.2 s)

/-- The difference `now - i.value()` of two `uint64` values. -/
def elapsed (now start : Nat) : Nat :=
  (now + 18446744073709551616 - start % 18446744073709551616) % 18446744073709551616

/-- The loop of `EmojiPanInner::animStep` over the entries of `_emojiAnimations`, in key
order: the new hover vector and the entries that remain.  `none` stands for a write
`_hovers[qAbs(key) - 1]` outside the vector.  The difference `now - i.value()` is converted to
`float64`, the `int32` duration converts without rounding, and the quotient and `1 - dt` are
rounded `float64` operations. -/
def animLoop (duration : Int) (now : Nat) :
    List (Int × Nat) → List ℚ → Option (List ℚ × List (Int × Nat))
  | [], hovers => some (hovers, [])
  | e :: rest, hovers =>
    let dt : ℚ := float64.div (float64.ofRat (elapsed now e.2 : ℚ)) (duration : ℚ)
    let idx : Int := |e.1| - 1
    if idx < 0 ∨ idx ≥ hovers.length then none
    else if dt ≥ 1 then
      animLoop duration now rest (hovers.set idx.toNat (if e.1 > 0 then 1 else 0))
    else
      (animLoop duration now rest
        (hovers.set idx.toNat (if e.1 > 0 then dt else float64.sub 1 dt))).map
        (fun r => (r.1, e :: r.2))

/-- The function `EmojiPanInner::animStep`: the new members and the returned flag; `now` is
the value of `getms()`. -/
def animStep (st : EmojiPanStyle) (now : Nat) (s : EmojiPanInner) :
    Option (EmojiPanInner × Bool) :=
  (animLoop st.emojiPanDuration now s._emojiAnimations s._hovers).map
    (fun r => ({ s with _hovers := r.1, _emojiAnimations := r.2 }, !r.2.isEmpty))

/-- The function `EmojiPanInner::clearSelection(fast)`: the cursor is moved to the local
point `(-10, -10)`. -/
def clearSelection (st : EmojiPanStyle) (fast : Bool) (now : Nat) (s : EmojiPanInner) :
    Option EmojiPanInner :=
  if fast then
    some { s with
      _hovers :=
        if s._tab = DBIEmojiTab.dbietStickers then List.replicate (s._stickers.length * 2) 0
        else List.replicate s._emojis.length 0,
      _emojiAnimations := [],
      _selected := -1, _pressedSel := -1, _xSelected := -1, _xPressedSel := -1 }
  else updateSelected st (-10) (-10) now s

/-- The function `EmojiPanInner::showEmojiPack(packIndex)`: `pack` is the value of
`emojiPack(packIndex)`, `recent` the value of `cRecentStickers()`, and `(px, py)` the
widget-local position of `QCursor::pos()`.  `none` stands for a division by zero. -/
def showEmojiPack (st : EmojiPanStyle) (packIndex : DBIEmojiTab) (pack : List EmojiPtr)
    (recent : List (DocumentPtr × Int)) (px py : Int) (now : Nat) (s : EmojiPanInner) :
    Option EmojiPanInner :=
  if packIndex = DBIEmojiTab.dbietStickers then
    let stickerSize : Int :=
      truncToInt (float64.div (st.width : ℚ) (st.StickerPadPerRow : ℚ))
    if st.StickerPadPerRow = 0 ∨ (stickerSize = 0 ∧ recent ≠ []) then none
    else
      updateSelected st px py now
        { s with _tab := packIndex, _emojis := [],
                 _stickers := recent.map Prod.fst,
                 _isUserGen := recent.map (fun r => decide (r.2 < 0)),
                 _hovers := List.replicate (recent.length * 2) 0,
                 _emojiAnimations := [], _selected := -1, _pressedSel := -1 }
  else
    updateSelected st px py now
      { s with _tab := packIndex, _emojis := pack, _stickers := [], _isUserGen := [],
               _hovers := List.replicate pack.length 0,
               _emojiAnimations := [], _selected := -1, _pressedSel := -1 }

/-- The function `EmojiPanInner::mousePressEvent` with the cursor at `(px, py)`. -/
def mousePressEvent (st : EmojiPanStyle) (px py : Int) (now : Nat) (s : EmojiPanInner) :
    Option EmojiPanInner :=
  (updateSelected st px py now s).map
    (fun s1 => { s1 with _pressedSel := s1._selected, _xPressedSel := s1._xSelected })

/-- The loop of `mouseReleaseEvent` over `recent`: removes the first entry holding `sticker`;
`none` when there is no such entry. -/
def removeSticker (sticker : DocumentPtr) :
    List (DocumentPtr × Int) → Option (List (DocumentPtr × Int))
  | [] => none
  | e :: rest =>
    if e.1 = sticker then some rest else (removeSticker sticker rest).map (fun r => e :: r)

/-- The function `EmojiPanInner::mouseReleaseEvent` with the event position `(px, py)`: the
new members and the new value of `cRecentStickers()` (`recent` is the old one); `(cx, cy)`
is the widget-local position of `QCursor::pos()` read by `showEmojiPack`.  The branch that
records a selected emoji leaves these members unchanged.  `none` stands for a division by
zero or an index out of range. -/
def mouseReleaseEvent (st : EmojiPanStyle) (recent : List (DocumentPtr × Int))
    (px py cx cy : Int) (now : Nat) (s : EmojiPanInner) :
    Option (EmojiPanInner × List (DocumentPtr × Int)) :=
  match updateSelected st px py now s with
  | none => none
  | some s1 =>
    if s1._xSelected = s1._xPressedSel ∧ s1._xSelected ≥ 0
        ∧ s1._tab = DBIEmojiTab.dbietStickers then
      let i : Int := s1._xSelected - s1._stickers.length
      if i < 0 then none
      else match s1._stickers[i.toNat]? with
        | none => none
        | some sticker =>
          match removeSticker sticker recent with
          | none => some (s1, recent)
          | some recent1 =>
            match showEmojiPack st DBIEmojiTab.dbietStickers [] recent1 cx cy now s1 with
            | none => none
            | some s2 => (updateSelected st cx cy now s2).map (fun s3 => (s3, recent1))
    else some (s1, recent)

/-- The members set by the constructor of `EmojiPanInner`; `tab` is `cEmojiTab()`. -/
def init (tab : DBIEmojiTab) : EmojiPanInner :=
  { _tab := tab, _emojis := [], _stickers := [], _isUserGen := [], _hovers := [],
    _emojiAnimations := [], _selected := -1, _xSelected := -1, _pressedSel := -1,
    _xPressedSel := -1 }

/-- The calls that `C15` ranges over, with the values they read from outside. -/
inductive Op where
  | updateSelected (px py : Int) (now : Nat)
  | animStep (now : Nat)
  | clearSelection (fast : Bool) (now : Nat)
  | showEmojiPack (packIndex : DBIEmojiTab) (pack : List EmojiPtr)
      (recent : List (DocumentPtr × Int)) (px py : Int) (now : Nat)

/-- One call on the members; `none` when the call faults. -/
def step (st : EmojiPanStyle) (s : EmojiPanInner) : Op → Option EmojiPanInner
  | Op.updateSelected px py now => updateSelected st px py now s
  | Op.animStep now => (animStep st now s).map Prod.fst
  | Op.clearSelection fast now => clearSelection st fast now s
  | Op.showEmojiPack packIndex pack recent px py now =>
    showEmojiPack st packIndex pack recent px py now s

/-- A sequence of calls, from left to right. -/
def run (st : EmojiPanStyle) : List Op → EmojiPanInner → Option EmojiPanInner
  | [], s => some s
  | op :: ops, s => (step st s op).bind (run st ops)

/-- No cell has both its fade-in key `i + 1` and its fade-out key `-(i + 1)` in the map. -/
def NoOpposite (m : List (Int × Nat)) : Prop :=
  ∀ i : Nat, ¬ (QMap.contains ((i : Int) + 1) m = true ∧ QMap.contains (-((i : Int) + 1)) m = true)

/-- Sample constants: seven emoji columns of 35 x 35 pixels, five sticker columns in a
widget 250 pixels wide, a delete cross of 10 x 10 pixels, fades of 200 ms. -/
def sampleStyle : EmojiPanStyle :=
  { EmojiPadPerRow := 7, StickerPadPerRow := 5, emojiPanWidth := 35, emojiPanHeight := 35,
    deleteWidth := 10, deleteHeight := 10, emojiPanDuration := 200, width := 250 }

end EmojiPanInner

/-- The value `dt` of `EmojiPanInner::animStep` for the entry `e`:
`float64(now - i.value()) / st::emojiPanDuration`. -/
def EmojiPanInner.fadeProgress (duration : Int) (now : Nat) (e : Int × Nat) : ℚ :=
  float64.div (float64.ofRat (EmojiPanInner.elapsed now e.2 : ℚ)) (duration : ℚ)

/-- The value that `animStep` writes to `_hovers[qAbs(key) - 1]` for the entry `e`. -/
def EmojiPanInner.hoverValue (duration : Int) (now : Nat) (e : Int × Nat) : ℚ :=
  if EmojiPanInner.fadeProgress duration now e ≥ 1 then (if e.1 > 0 then 1 else 0)
  else if e.1 > 0 then EmojiPanInner.fadeProgress duration now e
  else float64.sub 1 (EmojiPanInner.fadeProgress duration now e)

/-- The sticker tab with one recent sticker, as `showEmojiPack(dbietStickers)` leaves it when
the cursor is outside the widget. -/
def EmojiPanInner.stickerPan : EmojiPanInner :=
  { _tab := DBIEmojiTab.dbietStickers, _emojis := [], _stickers := [7], _isUserGen := [true],
    _hovers := [0, 0], _emojiAnimations := [], _selected := -1, _xSelected := -1,
    _pressedSel := -1, _xPressedSel := -1 }

/-- An emoji tab with ten emojis and nothing selected. -/
def EmojiPanInner.emojiPan : EmojiPanInner :=
  { _tab := DBIEmojiTab.dbietPeople, _emojis := [0, 1, 2, 3, 4, 5, 6, 7, 8, 9], _stickers := [],
    _isUserGen := [], _hovers := [0, 0, 0, 0, 0, 0, 0, 0, 0, 0], _emojiAnimations := [],
    _selected := -1, _xSelected := -1, _pressedSel := -1, _xPressedSel := -1 }

/-- An emoji tab with one cell fading out (key `-2`) and one fading in (key `1`). -/
def EmojiPanInner.fadingPan : EmojiPanInner :=
  { EmojiPanInner.emojiPan with _emojiAnimations := [(-2, 0), (1, 100)], _selected := 0 }

/-- A sample sequence of calls: show a pack of three emojis with the cursor over the second
cell, move the cursor to the first cell, then leave the widget. -/
def EmojiPanInner.sampleOps : List EmojiPanInner.Op :=
  [EmojiPanInner.Op.showEmojiPack DBIEmojiTab.dbietPeople [0, 1, 2] [] 40 5 100,
   EmojiPanInner.Op.updateSelected 5 5 150,
   EmojiPanInner.Op.clearSelection false 170]

/-! ## Deleting a recent hashtag -/

namespace MentionsInner

/-- The loop of `MentionsInner::mousePressEvent` over `recent`:
`if (i->first == toRemove) i = recent.erase(i); else ++i;`. -/
def eraseLoop (toRemove : QString) : RecentHashtagPack → RecentHashtagPack
  | [] => []
  | e :: rest => if e.1 = toRemove then eraseLoop toRemove rest else e :: eraseLoop toRemove rest

/-- The function `MentionsInner::mousePressEvent` up to `cSetRecentWriteHashtags(recent)`:
the members after `onUpdateSelected(true)` and the list written back, `none` when nothing is
written (the press is not on a delete cross, or `_hrows->at` is out of range).  `recent` is
`cRecentWriteHashtags()`, `leftButton` tells whether `e->button() == Qt::LeftButton`.  The
calls that follow (`updateFiltered`, `onUpdateSelected`, or `select` in the other branch) do
not write the recent list. -/
def mousePressEvent (mentionHeight w h : Int) (rows : MentionRows) (hrows : HashtagRows)
    (leftButton : Bool) (mouseX mouseY : Int) (recent : RecentHashtagPack)
    (s : MentionsInner) : MentionsInner × Option RecentHashtagPack :=
  let s1 := onUpdateSelected mentionHeight w h rows hrows true mouseX mouseY
    { s with _mouseSel := true }
  if leftButton then
    if s1._overDelete ∧ s1._sel ≥ 0 ∧ s1._sel < hrows.length then
      let i : Int := hrows.length - s1._sel - 1
      if i < 0 then (s1, none)
      else match hrows[i.toNat]? with
        | none => (s1, none)
        | some toRemove => (s1, some (eraseLoop toRemove recent))
    else (s1, none)
  else (s1, none)

end MentionsInner

/-! ## Dropdown layout -/

/-- Modelled from the spec: the fields of `style::dropdown` read by the layout code
(declared outside this file): the four sides of `padding`, `border` and `width`. -/
structure DropdownStyle where
  paddingLeft : Int
  paddingTop : Int
  paddingRight : Int
  paddingBottom : Int
  border : Int
  width : Int

/-- Modelled from the spec: the geometry of an `IconedButton` touched by the layout code (the
class lives in other files): position, size and whether it is hidden; `resize` and `move`
store the given values. -/
structure ButtonGeometry where
  x : Int
  y : Int
  width : Int
  height : Int
  hidden : Bool
  deriving DecidableEq

/-- The members of `Dropdown` used by the layout code: `_width`, `_height` and the geometry of
the buttons in `_buttons`.  The `int32` sizes are taken in `ℤ`: the layout sums are assumed
to stay inside the `int32` range (signed overflow is undefined in C++). -/
structure DropdownLayout where
  _width : Int
  _height : Int
  _buttons : List ButtonGeometry
  deriving DecidableEq

namespace Dropdown

/-- The function `Dropdown::resetButtons` on the layout members (it also sets
`_selected = -1`). -/
def resetButtons (st : DropdownStyle) : DropdownLayout :=
  { _width := max (st.paddingLeft + st.paddingRight) st.width,
    _height := st.paddingTop + st.paddingBottom,
    _buttons := [] }

/-- The function `Dropdown::addButton` on the layout members. -/
def addButton (st : DropdownStyle) (button : ButtonGeometry) (d : DropdownLayout) :
    DropdownLayout :=
  let nw := st.paddingLeft + st.paddingRight + button.width
  let width1 := if nw > d._width then nw else d._width
  let buttons1 :=
    if nw > d._width then
      d._buttons.map (fun b => { b with width := nw - st.paddingLeft - st.paddingRight })
    else d._buttons
  let button1 :=
    if nw > d._width then button
    else { button with width := d._width - st.paddingLeft - st.paddingRight }
  let height1 :=
    if !button1.hidden then
      (if d._height > st.paddingTop + st.paddingBottom then d._height + st.border
        else d._height) + button1.height
    else d._height
  { _width := width1, _height := height1, _buttons := buttons1 ++ [button1] }

/-- The loop of `Dropdown::updateButtons`: every button that is not hidden is moved to
`(padding.left, top)`, resized when its width differs, and advances `top` by its height plus
the border.  Returns the buttons and the final `top`. -/
def updateLoop (st : DropdownStyle) (width : Int) :
    Int → List ButtonGeometry → List ButtonGeometry × Int
  | top, [] => ([], top)
  | top, b :: rest =>
    if !b.hidden then
      let b1 := { b with x := st.paddingLeft, y := top }
      let b2 :=
        if b1.width ≠ width - st.paddingLeft - st.paddingRight then
          { b1 with width := width - st.paddingLeft - st.paddingRight }
        else b1
      let r := updateLoop st width (top + b2.height + st.border) rest
      (b2 :: r.1, r.2)
    else
      let r := updateLoop st width top rest
      (b :: r.1, r.2)

/-- The function `Dropdown::updateButtons` on the layout members. -/
def updateButtons (st : DropdownStyle) (d : DropdownLayout) : DropdownLayout :=
  let starttop := st.paddingTop
  let r := updateLoop st d._width st.paddingTop d._buttons
  { _width := d._width,
    _height := r.2 + st.paddingBottom - (if r.2 > starttop then st.border else 0),
    _buttons := r.1 }

/-- The layout after `resetButtons` followed by `addButton` for each button of `buttons`, in
order. -/
def addAll (st : DropdownStyle) (buttons : List ButtonGeometry) : DropdownLayout :=
  buttons.foldl (fun d b => addButton st b d) (resetButtons st)

/-- The heights of the buttons that are not hidden. -/
def visibleHeights (buttons : List ButtonGeometry) : List Int :=
  (buttons.filter (fun b => !b.hidden)).map (fun b => b.height)

/-- The height in the words of the specification: the vertical padding alone when no button
is visible, otherwise the padding plus the visible heights plus one border between each two
visible buttons. -/
def heightBySpec (st : DropdownStyle) (buttons : List ButtonGeometry) : Int :=
  if visibleHeights buttons = [] then st.paddingTop + st.paddingBottom
  else st.paddingTop + st.paddingBottom + (visibleHeights buttons).sum
    + st.border * ((visibleHeights buttons).length - 1)

/-- A sample style: padding 2 and 3 pixels, border 1 pixel, width 100 pixels. -/
def sampleDropdownStyle : DropdownStyle :=
  { paddingLeft := 2, paddingTop := 3, paddingRight := 2, paddingBottom := 3, border := 1,
    width := 100 }

/-- Three sample buttons, the second hidden, the third wider than the style width. -/
def sampleButtons : List ButtonGeometry :=
  [⟨0, 0, 80, 20, false⟩, ⟨0, 0, 90, 0, true⟩, ⟨0, 0, 120, 25, false⟩]

end Dropdown

/-! ## Lemmas on `float64` rounding -/

namespace float64

theorem roundNE_intCast (m : Int) : roundNE (m : ℚ) = m := by
  unfold roundNE
  simp

theorem floor_le_roundNE (q : ℚ) : ⌊q⌋ ≤ roundNE q := by
  unfold roundNE
  split_ifs <;> omega

theorem roundNE_le_floor_succ (q : ℚ) : roundNE q ≤ ⌊q⌋ + 1 := by
  unfold roundNE
  split_ifs <;> omega

theorem roundNE_mono (p q : ℚ) (h : p ≤ q) : roundNE p ≤ roundNE q := by
  rcases lt_or_eq_of_le (Int.floor_mono h) with hlt | heq
  · calc roundNE p ≤ ⌊p⌋ + 1 := roundNE_le_floor_succ p
      _ ≤ ⌊q⌋ := hlt
      _ ≤ roundNE q := floor_le_roundNE q
  · have hfrac : p - (⌊q⌋ : ℚ) ≤ q - (⌊q⌋ : ℚ) := by linarith
    unfold roundNE
    rw [heq]
    split_ifs <;> first | omega | (exfalso; linarith)

theorem ofRat_le_of_grid (x : ℚ) (m : Int) (h : x ≤ (m : ℚ) * 2 ^ ulpExp x) :
    ofRat x ≤ (m : ℚ) * 2 ^ ulpExp x := by
  have hpos : (0 : ℚ) < 2 ^ ulpExp x := zpow_pos (by norm_num) _
  unfold ofRat
  refine mul_le_mul_of_nonneg_right ?_ (le_of_lt hpos)
  have h1 : x / 2 ^ ulpExp x ≤ (m : ℚ) := (div_le_iff₀ hpos).2 h
  have h2 := roundNE_mono _ _ h1
  rw [roundNE_intCast] at h2
  exact_mod_cast h2

theorem le_ofRat_of_grid (x : ℚ) (m : Int) (h : (m : ℚ) * 2 ^ ulpExp x ≤ x) :
    (m : ℚ) * 2 ^ ulpExp x ≤ ofRat x := by
  have hpos : (0 : ℚ) < 2 ^ ulpExp x := zpow_pos (by norm_num) _
  unfold ofRat
  refine mul_le_mul_of_nonneg_right ?_ (le_of_lt hpos)
  have h1 : (m : ℚ) ≤ x / 2 ^ ulpExp x := (le_div_iff₀ hpos).2 h
  have h2 := roundNE_mono _ _ h1
  rw [roundNE_intCast] at h2
  exact_mod_cast h2

theorem ofRat_nonneg (x : ℚ) (h : 0 ≤ x) : 0 ≤ ofRat x := by
  have := le_ofRat_of_grid x 0 (by simpa using h)
  simpa using this

theorem two_zpow_eq_cast (d : Int) (hd : 0 ≤ d) :
    (2 : ℚ) ^ d = (((2 : Int) ^ d.toNat : Int) : ℚ) := by
  obtain ⟨n, rfl⟩ := Int.eq_ofNat_of_zero_le hd
  simp

theorem ofRat_repr (m k : Int) (hm : |m| < 2 ^ 53) (hk : -1074 ≤ k) :
    ofRat ((m : ℚ) * 2 ^ k) = (m : ℚ) * 2 ^ k := by
  by_cases h0 : m = 0
  · subst h0
    simp [ofRat, roundNE]
  have hkpos : (0 : ℚ) < 2 ^ k := zpow_pos (by norm_num) _
  have habs : |(m : ℚ) * 2 ^ k| = (|m| : Int) * 2 ^ k := by
    rw [abs_mul, abs_of_pos hkpos, Int.cast_abs]
  have hxpos : 0 < |(m : ℚ) * 2 ^ k| := abs_pos.2 (mul_ne_zero (by exact_mod_cast h0) (ne_of_gt hkpos))
  have hlt : |(m : ℚ) * 2 ^ k| < (2 : ℚ) ^ (53 + k) := by
    rw [habs, zpow_add₀ (by norm_num : (2 : ℚ) ≠ 0)]
    refine mul_lt_mul_of_pos_right ?_ hkpos
    exact_mod_cast hm
  have hlog : Int.log 2 |(m : ℚ) * 2 ^ k| < 53 + k := by
    have := (Int.lt_zpow_iff_log_lt (b := 2) (by norm_num) hxpos).1 (by exact_mod_cast hlt)
    exact this
  have he : ulpExp ((m : ℚ) * 2 ^ k) ≤ k := by
    unfold ulpExp
    omega
  unfold ofRat
  generalize ulpExp ((m : ℚ) * 2 ^ k) = e at he
  have hsplit : (2 : ℚ) ^ k = 2 ^ (k - e) * 2 ^ e := by
    rw [← zpow_add₀ (by norm_num : (2 : ℚ) ≠ 0)]
    congr 1
    omega
  have hepos : (0 : ℚ) < 2 ^ e := zpow_pos (by norm_num) _
  have hgrid : (m : ℚ) * 2 ^ k = ((m * 2 ^ (k - e).toNat : Int) : ℚ) * 2 ^ e := by
    rw [hsplit, two_zpow_eq_cast (k - e) (by omega)]
    push_cast
    ring
  have hdiv : (m : ℚ) * 2 ^ k / 2 ^ e = ((m * 2 ^ (k - e).toNat : Int) : ℚ) := by
    rw [hgrid]
    exact mul_div_cancel_right₀ _ (ne_of_gt hepos)
  rw [hdiv, roundNE_intCast, ← hgrid]

theorem ofRat_natCast (n : Nat) (hn : n < 2 ^ 53) : ofRat (n : ℚ) = n := by
  have h := ofRat_repr (n : Int) 0 (by rw [abs_of_nonneg (by omega)]; exact_mod_cast hn)
    (by decide)
  simpa using h

theorem ofRat_mono (x y : ℚ) (hx : 0 ≤ x) (h : x ≤ y) : ofRat x ≤ ofRat y := by
  rcases eq_or_lt_of_le hx with h0 | hxpos
  · rw [← h0]
    have : ofRat 0 = 0 := by simp [ofRat, roundNE]
    rw [this]
    exact ofRat_nonneg y (le_trans hx h)
  have hypos : 0 < y := lt_of_lt_of_le hxpos h
  have hlog : Int.log 2 |x| ≤ Int.log 2 |y| := by
    rw [abs_of_pos hxpos, abs_of_pos hypos]
    exact Int.log_mono_right hxpos h
  have hle : ulpExp x ≤ ulpExp y := by
    unfold ulpExp
    omega
  rcases eq_or_lt_of_le hle with heq | hlt
  · have hpos : (0 : ℚ) < 2 ^ ulpExp y := zpow_pos (by norm_num) _
    unfold ofRat
    rw [heq]
    refine mul_le_mul_of_nonneg_right ?_ (le_of_lt hpos)
    exact_mod_cast roundNE_mono _ _ (div_le_div_of_nonneg_right h (le_of_lt hpos))
  · have hly : ulpExp y = Int.log 2 |y| - 52 := by
      unfold ulpExp at hlt ⊢
      omega
    have hlxy : Int.log 2 |x| + 1 ≤ Int.log 2 |y| := by
      unfold ulpExp at hlt
      omega
    have hex : ulpExp x ≤ Int.log 2 |y| := by
      unfold ulpExp at hlt ⊢
      omega
    have hg1 : x ≤ (2 : ℚ) ^ Int.log 2 |y| := by
      have h1 : x < (2 : ℚ) ^ (Int.log 2 |x| + 1) := by
        have := Int.lt_zpow_succ_log_self (b := 2) (by norm_num) |x|
        rw [abs_of_pos hxpos] at this ⊢
        exact_mod_cast this
      exact le_trans (le_of_lt h1) (zpow_le_zpow_right₀ (by norm_num) hlxy)
    have hg2 : (2 : ℚ) ^ Int.log 2 |y| ≤ y := by
      have := Int.zpow_log_le_self (b := 2) (by norm_num) (abs_pos.2 (ne_of_gt hypos))
      rw [abs_of_pos hypos] at this ⊢
      exact_mod_cast this
    have hgx : (2 : ℚ) ^ Int.log 2 |y|
        = (((2 : Int) ^ (Int.log 2 |y| - ulpExp x).toNat : Int) : ℚ) * 2 ^ ulpExp x := by
      rw [← two_zpow_eq_cast _ (by omega), ← zpow_add₀ (by norm_num : (2 : ℚ) ≠ 0)]
      congr 1
      omega
    have hgy : (2 : ℚ) ^ Int.log 2 |y|
        = (((2 : Int) ^ 52 : Int) : ℚ) * 2 ^ ulpExp y := by
      rw [hly]
      have : (((2 : Int) ^ 52 : Int) : ℚ) = (2 : ℚ) ^ (52 : Int) := by norm_num
      rw [this, ← zpow_add₀ (by norm_num : (2 : ℚ) ≠ 0)]
      congr 1
      omega
    calc ofRat x ≤ (2 : ℚ) ^ Int.log 2 |y| := by
          rw [hgx]
          exact ofRat_le_of_grid x _ (by rw [← hgx]; exact hg1)
      _ ≤ ofRat y := by
          rw [hgy]
          exact le_ofRat_of_grid y _ (by rw [← hgy]; exact hg2)

theorem ofRat_intCast (d : Int) (hd : |d| < 2 ^ 53) : ofRat (d : ℚ) = d := by
  have h := ofRat_repr d 0 hd (by decide)
  simpa using h

theorem ofRat_one : ofRat 1 = 1 := by
  have h := ofRat_repr 1 0 (by decide) (by decide)
  simpa using h

theorem ofRat_below_one : ofRat (1 - 1 / 2 ^ 31) = 1 - 1 / 2 ^ 31 := by
  have h := ofRat_repr (2 ^ 31 - 1) (-31) (by decide) (by decide)
  have he : (((2 ^ 31 - 1 : Int) : ℚ)) * 2 ^ (-31 : Int) = 1 - 1 / 2 ^ 31 := by norm_num
  rw [he] at h
  exact h

theorem ofRat_small : ofRat (1 / 2 ^ 31) = 1 / 2 ^ 31 := by
  have h := ofRat_repr 1 (-31) (by decide) (by decide)
  have he : (((1 : Int) : ℚ)) * 2 ^ (-31 : Int) = 1 / 2 ^ 31 := by norm_num
  rw [he] at h
  exact h

theorem ulpExp_eq (x : ℚ) (l : Int) (hx : 0 < x) (h1 : (2 : ℚ) ^ l ≤ x) (h2 : x < (2 : ℚ) ^ (l + 1))
    (hl : -1022 ≤ l) : ulpExp x = l - 52 := by
  have ha : |x| = x := abs_of_pos hx
  have e1 : l ≤ Int.log 2 x := (Int.zpow_le_iff_le_log (b := 2) (by norm_num) hx).1 (by exact_mod_cast h1)
  have e2 : Int.log 2 x < l + 1 := (Int.lt_zpow_iff_log_lt (b := 2) (by norm_num) hx).1 (by exact_mod_cast h2)
  unfold ulpExp
  rw [ha]
  omega

/-- The model rounds as the hardware does: the `float64` nearest to `1 / 3` is
`0.33333333333333331...`, the quotient `6004799503160661 / 2 ^ 54`. -/
theorem ofRat_third : ofRat (1 / 3) = 6004799503160661 / 18014398509481984 := by
  have he : ulpExp (1 / 3) = -54 := by
    rw [ulpExp_eq (1 / 3) (-2) (by norm_num) (by norm_num) (by norm_num) (by decide)]
    rfl
  have hf : ⌊(1 / 3 : ℚ) / 2 ^ (-54 : Int)⌋ = 6004799503160661 := by
    rw [Int.floor_eq_iff]
    constructor <;> norm_num
  unfold ofRat
  rw [he]
  unfold roundNE
  rw [hf]
  norm_num

/-- For `0 ≤ dt ≤ 1 - 2 ^ (-31)` the rounded difference `1 - dt` lies in `(0, 1]`. -/
theorem sub_one_range (dt : ℚ) (h1 : dt ≤ 1 - 1 / 2 ^ 31) (h0 : 0 ≤ dt) :
    0 < sub 1 dt ∧ sub 1 dt ≤ 1 := by
  unfold sub
  constructor
  · have h := ofRat_mono (1 / 2 ^ 31) (1 - dt) (by norm_num) (by linarith)
    rw [ofRat_small] at h
    exact lt_of_lt_of_le (by norm_num) h
  · have h := ofRat_mono (1 - dt) 1 (by linarith [show (0 : ℚ) < 1 / 2 ^ 31 by norm_num])
      (by linarith)
    rw [ofRat_one] at h
    exact h

end float64

/-! ## Lemmas on the recent-emoji update -/

namespace EmojiPanInner

theorem bubbleUp_split (pre : RecentEmojiPack) (x : EmojiPtr × Nat) (suf : RecentEmojiPack) :
    bubbleUp (pre ++ x :: suf) pre.length
      = pre.rdropWhile (fun y => decide (y.2 ≤ x.2))
        ++ x :: (pre.rtakeWhile (fun y => decide (y.2 ≤ x.2)) ++ suf) := by
  induction pre using List.reverseRecOn generalizing suf with
  | nil => simp [bubbleUp]
  | append_singleton p a ih =>
    have h1 : (p ++ [a] ++ x :: suf)[p.length]? = some a := by
      rw [List.append_assoc, List.getElem?_append_right (le_refl _)]
      simp
    have h2 : (p ++ [a] ++ x :: suf)[p.length + 1]? = some x := by
      rw [List.append_assoc, List.getElem?_append_right (Nat.le_succ _)]
      simp
    have hlen : (p ++ [a]).length = p.length + 1 := by simp
    rw [hlen, bubbleUp, h1, h2, List.rdropWhile_concat, List.rtakeWhile_concat]
    by_cases hgt : a.2 > x.2
    · have hn : ¬ a.2 ≤ x.2 := by omega
      simp [hgt, hn]
    · have hp : a.2 ≤ x.2 := by omega
      have hswap : ((p ++ [a] ++ x :: suf).set p.length x).set (p.length + 1) a
          = p ++ x :: (a :: suf) := by
        simp [List.set_append]
      simp only [hgt, if_false]
      rw [hswap, ih]
      simp [hp]

theorem rdropWhile_append_rtakeWhile {α : Type} (p : α → Bool) (l : List α) :
    l.rdropWhile p ++ l.rtakeWhile p = l := by
  unfold List.rdropWhile List.rtakeWhile
  rw [← List.reverse_append, List.takeWhile_append_dropWhile, List.reverse_reverse]

theorem findEmoji_eq_none (e : EmojiPtr) (l : RecentEmojiPack) :
    findEmoji e l = none ↔ e ∉ l.map Prod.fst := by
  induction l with
  | nil => simp [findEmoji]
  | cons p rest ih =>
    by_cases h : p.1 = e
    · simp [findEmoji, h]
    · have h2 : ¬ e = p.1 := fun h3 => h h3.symm
      simp [findEmoji, h, h2, ih]

theorem findEmoji_split (e : EmojiPtr) (c : Nat) (pre suf : RecentEmojiPack)
    (hpre : e ∉ pre.map Prod.fst) :
    findEmoji e (pre ++ (e, c) :: suf) = some pre.length := by
  induction pre with
  | nil => simp [findEmoji]
  | cons p rest ih =>
    have h1 : ¬ p.1 = e := by
      intro h; apply hpre; simp [← h]
    have h2 : e ∉ rest.map Prod.fst := by
      intro h; apply hpre; simp only [List.map_cons, List.mem_cons]; exact Or.inr h
    simp [findEmoji, h1, ih h2]

theorem exists_first_split (e : EmojiPtr) (l : RecentEmojiPack) (h : e ∈ l.map Prod.fst) :
    ∃ pre c suf, l = pre ++ (e, c) :: suf ∧ e ∉ pre.map Prod.fst := by
  induction l with
  | nil => simp at h
  | cons p rest ih =>
    by_cases hp : p.1 = e
    · exact ⟨[], p.2, rest, by simp [← hp], by simp⟩
    · have h2 : e ∈ rest.map Prod.fst := by
        simp only [List.map_cons, List.mem_cons] at h
        rcases h with h | h
        · exact absurd h.symm hp
        · exact h
      obtain ⟨pre, c, suf, hl, hn⟩ := ih h2
      refine ⟨p :: pre, c, suf, by simp [hl], ?_⟩
      simp only [List.map_cons, List.mem_cons, not_or]
      exact ⟨fun h3 => hp h3.symm, hn⟩

theorem popBackLoop_eq (cap : Nat) (hcap : 1 ≤ cap) (fuel : Nat) (l : RecentEmojiPack)
    (hfuel : l.length < fuel) : popBackLoop cap fuel l = some (l.take (cap - 1)) := by
  induction fuel generalizing l with
  | zero => omega
  | succ n ih =>
    unfold popBackLoop
    by_cases hle : cap ≤ l.length
    · have hne : l ≠ [] := by
        intro h; rw [h] at hle; simp at hle; omega
      have hlen : l.dropLast.length < n := by
        rw [List.length_dropLast]; omega
      rw [if_pos hle, if_neg hne, ih _ hlen, List.dropLast_eq_take, List.take_take]
      congr 2
      omega
    · rw [if_neg hle, List.take_of_length_le (by omega)]

theorem recent_found (cap : Nat) (pre suf : RecentEmojiPack) (e : EmojiPtr) (c : Nat)
    (hpre : e ∉ pre.map Prod.fst) :
    mouseReleaseEvent_recent cap (pre ++ (e, c) :: suf) e
      = some (bubbleUp
          (pre.map (fun p => (p.1, adjust (incrCount c) p.2))
            ++ (e, adjust (incrCount c) (incrCount c))
              :: suf.map (fun p => (p.1, adjust (incrCount c) p.2)))
          pre.length) := by
  have hget : (pre ++ (e, c) :: suf)[pre.length]? = some (e, c) := by
    rw [List.getElem?_append_right (le_refl _)]; simp
  have hset : (pre ++ (e, c) :: suf).set pre.length (e, incrCount c)
      = pre ++ (e, incrCount c) :: suf := by
    simp [List.set_append]
  unfold mouseReleaseEvent_recent
  rw [findEmoji_split e c pre suf hpre]
  simp only [hget, hset]
  by_cases hh : incrCount c > 0x8000
  · simp [hh, adjust, halveAll]
  · simp [hh, adjust]

theorem recent_new (cap : Nat) (hcap : 1 ≤ cap) (l : RecentEmojiPack) (e : EmojiPtr)
    (hnew : e ∉ l.map Prod.fst) :
    mouseReleaseEvent_recent cap l e
      = some (bubbleUp (l.take (cap - 1) ++ [(e, 1)]) (l.take (cap - 1)).length) := by
  unfold mouseReleaseEvent_recent
  rw [(findEmoji_eq_none e l).2 hnew, popBackLoop_eq cap hcap _ l (Nat.lt_succ_self _)]
  simp

theorem bubbleUp_split_at (pre : RecentEmojiPack) (x : EmojiPtr × Nat) (suf : RecentEmojiPack)
    (n : Nat) (hn : n = pre.length) :
    bubbleUp (pre ++ x :: suf) n
      = pre.rdropWhile (fun y => decide (y.2 ≤ x.2))
        ++ x :: (pre.rtakeWhile (fun y => decide (y.2 ≤ x.2)) ++ suf) := by
  subst hn; exact bubbleUp_split pre x suf

theorem bubbleUp_perm (pre : RecentEmojiPack) (x : EmojiPtr × Nat) (suf : RecentEmojiPack)
    (n : Nat) (hn : n = pre.length) :
    (bubbleUp (pre ++ x :: suf) n).Perm (x :: (pre ++ suf)) := by
  rw [bubbleUp_split_at pre x suf n hn]
  have h := rdropWhile_append_rtakeWhile (fun y : EmojiPtr × Nat => decide (y.2 ≤ x.2)) pre
  have h2 : x :: (pre ++ suf) = x :: (pre.rdropWhile (fun y => decide (y.2 ≤ x.2))
      ++ (pre.rtakeWhile (fun y => decide (y.2 ≤ x.2)) ++ suf)) := by
    rw [← List.append_assoc, h]
  rw [h2]
  exact List.perm_middle

theorem bubbleUp_sublist (pre : RecentEmojiPack) (x : EmojiPtr × Nat) (suf : RecentEmojiPack)
    (n : Nat) (hn : n = pre.length) :
    (pre ++ suf).Sublist (bubbleUp (pre ++ x :: suf) n) := by
  rw [bubbleUp_split_at pre x suf n hn]
  have h := rdropWhile_append_rtakeWhile (fun y : EmojiPtr × Nat => decide (y.2 ≤ x.2)) pre
  have h2 : pre ++ suf = pre.rdropWhile (fun y => decide (y.2 ≤ x.2))
      ++ (pre.rtakeWhile (fun y => decide (y.2 ≤ x.2)) ++ suf) := by
    rw [← List.append_assoc, h]
  rw [h2]
  exact List.Sublist.append (List.Sublist.refl _) (List.sublist_cons_self _ _)

theorem usageOrdered_bubbleUp (pre : RecentEmojiPack) (x : EmojiPtr × Nat)
    (suf : RecentEmojiPack) (n : Nat) (hn : n = pre.length)
    (hpre : UsageOrdered pre) (hsuf : UsageOrdered suf)
    (hps : ∀ a ∈ pre, ∀ b ∈ suf, b.2 ≤ a.2) (hxs : ∀ b ∈ suf, b.2 ≤ x.2) :
    UsageOrdered (bubbleUp (pre ++ x :: suf) n) := by
  rw [bubbleUp_split_at pre x suf n hn]
  have hsplit := rdropWhile_append_rtakeWhile (fun y : EmojiPtr × Nat => decide (y.2 ≤ x.2)) pre
  generalize hk : pre.rdropWhile (fun y => decide (y.2 ≤ x.2)) = keep at hsplit ⊢
  generalize hr : pre.rtakeWhile (fun y => decide (y.2 ≤ x.2)) = run at hsplit ⊢
  have hrun : ∀ b ∈ run, b.2 ≤ x.2 := by
    intro b hb
    rw [← hr] at hb
    simpa using List.mem_rtakeWhile_imp hb
  have hkeep : ∀ a ∈ keep, x.2 ≤ a.2 := by
    intro a ha
    have hne : pre.rdropWhile (fun y => decide (y.2 ≤ x.2)) ≠ [] := by
      rw [hk]; exact List.ne_nil_of_mem ha
    have hlast := List.rdropWhile_last_not (fun y : EmojiPtr × Nat => decide (y.2 ≤ x.2)) pre hne
    have hk2 : UsageOrdered keep := by
      have : UsageOrdered (keep ++ run) := by rw [hsplit]; exact hpre
      exact (List.pairwise_append.1 this).1
    have hne2 : keep ≠ [] := List.ne_nil_of_mem ha
    have hlast2 : ¬ (keep.getLast hne2).2 ≤ x.2 := by
      have : (pre.rdropWhile (fun y => decide (y.2 ≤ x.2))).getLast hne = keep.getLast hne2 := by
        simp only [hk]
      rw [this] at hlast
      simpa using hlast
    have hle : (keep.getLast hne2).2 ≤ a.2 := by
      have hdec := List.dropLast_append_getLast hne2
      rw [← hdec] at ha hk2
      rcases List.mem_append.1 ha with h | h
      · exact (List.pairwise_append.1 hk2).2.2 a h _ (by simp)
      · simp at h; rw [h]
    omega
  have hpw : UsageOrdered (keep ++ run) := by rw [hsplit]; exact hpre
  have hmemk : ∀ a ∈ keep, a ∈ pre := by
    intro a ha; rw [← hsplit]; exact List.mem_append_left _ ha
  have hmemr : ∀ a ∈ run, a ∈ pre := by
    intro a ha; rw [← hsplit]; exact List.mem_append_right _ ha
  unfold UsageOrdered at *
  rw [List.pairwise_append]
  refine ⟨(List.pairwise_append.1 hpw).1, ?_, ?_⟩
  · rw [List.pairwise_cons]
    refine ⟨?_, ?_⟩
    · intro b hb
      rcases List.mem_append.1 hb with h | h
      · exact hrun b h
      · exact hxs b h
    · rw [List.pairwise_append]
      exact ⟨(List.pairwise_append.1 hpw).2.1, hsuf, fun a ha b hb => hps a (hmemr a ha) b hb⟩
  · intro a ha b hb
    rcases List.mem_cons.1 hb with h | h
    · rw [h]; exact hkeep a ha
    · rcases List.mem_append.1 h with h | h
      · exact (List.pairwise_append.1 hpw).2.2 a ha b h
      · exact hps a (hmemk a ha) b h

theorem halveCount_mono {a b : Nat} (h : a ≤ b) : halveCount a ≤ halveCount b := by
  unfold halveCount
  split_ifs <;> omega

theorem adjust_mono (c1 : Nat) {a b : Nat} (h : a ≤ b) : adjust c1 a ≤ adjust c1 b := by
  unfold adjust
  split_ifs
  · exact halveCount_mono h
  · exact h

theorem usageOrdered_map_adjust (c1 : Nat) (l : RecentEmojiPack) (h : UsageOrdered l) :
    UsageOrdered (l.map (fun p => (p.1, adjust c1 p.2))) := by
  unfold UsageOrdered at *
  rw [List.pairwise_map]
  exact h.imp (fun hab => adjust_mono c1 hab)

/-- C1: with `cap = EmojiPadPerRow * EmojiPadRowsPerPage ≥ 1`, recording a selection in a
recent list of length at most `cap` returns a list of length at most `cap`; the length is
unchanged when the emoji was already listed and is `min(old length, cap - 1) + 1` when it
was not. -/
theorem C1_recent_capped (cap : Nat) (hcap : 1 ≤ cap) (recent : RecentEmojiPack)
    (hlen : recent.length ≤ cap) (emoji : EmojiPtr) :
    ∃ r, mouseReleaseEvent_recent cap recent emoji = some r ∧ r.length ≤ cap ∧
      (emoji ∈ recent.map Prod.fst → r.length = recent.length) ∧
      (emoji ∉ recent.map Prod.fst → r.length = min recent.length (cap - 1) + 1) := by
  by_cases hmem : emoji ∈ recent.map Prod.fst
  · obtain ⟨pre, c, suf, hl, hpre⟩ := exists_first_split emoji recent hmem
    subst hl
    refine ⟨_, recent_found cap pre suf emoji c hpre, ?_, ?_, fun h => absurd hmem h⟩
    · have h := (bubbleUp_perm (pre.map (fun p => (p.1, adjust (incrCount c) p.2)))
        (emoji, adjust (incrCount c) (incrCount c))
        (suf.map (fun p => (p.1, adjust (incrCount c) p.2))) pre.length (by simp)).length_eq
      rw [h]; simp at hlen ⊢; omega
    · intro _
      have h := (bubbleUp_perm (pre.map (fun p => (p.1, adjust (incrCount c) p.2)))
        (emoji, adjust (incrCount c) (incrCount c))
        (suf.map (fun p => (p.1, adjust (incrCount c) p.2))) pre.length (by simp)).length_eq
      rw [h]; simp; omega
  · have hlen2 : (bubbleUp (recent.take (cap - 1) ++ [(emoji, 1)])
        (recent.take (cap - 1)).length).length = min recent.length (cap - 1) + 1 := by
      rw [(bubbleUp_perm (recent.take (cap - 1)) (emoji, 1) [] _ rfl).length_eq]
      simp [List.length_take, Nat.min_comm]
    refine ⟨_, recent_new cap hcap recent emoji hmem, ?_, fun h => absurd h hmem,
      fun _ => hlen2⟩
    rw [hlen2]; omega

/-- Witness for C1: a full list of three entries with `cap = 3`. -/
theorem C1_recent_capped_witness :
    ∃ r, mouseReleaseEvent_recent 3 [(0, 5), (1, 1), (2, 1)] 7 = some r ∧ r.length ≤ 3 ∧
      (7 ∈ ([(0, 5), (1, 1), (2, 1)] : RecentEmojiPack).map Prod.fst →
        r.length = ([(0, 5), (1, 1), (2, 1)] : RecentEmojiPack).length) ∧
      (7 ∉ ([(0, 5), (1, 1), (2, 1)] : RecentEmojiPack).map Prod.fst →
        r.length = min ([(0, 5), (1, 1), (2, 1)] : RecentEmojiPack).length (3 - 1) + 1) :=
  C1_recent_capped 3 (by decide) [(0, 5), (1, 1), (2, 1)] (by decide) 7

/-- C3: when the list is full (length `cap ≥ 1`), ordered by non-increasing counter, and
the selected emoji is new, the update drops exactly the entry at the last position: the
result is a rearrangement of the new entry together with all entries but the last, the
kept entries stay in their order, and the dropped counter is at most every kept counter. -/
theorem C3_eviction_on_overflow (cap : Nat) (hcap : 1 ≤ cap) (recent : RecentEmojiPack)
    (hlen : recent.length = cap) (hord : UsageOrdered recent) (emoji : EmojiPtr)
    (hnew : emoji ∉ recent.map Prod.fst) :
    ∃ r last, mouseReleaseEvent_recent cap recent emoji = some r ∧
      recent = recent.dropLast ++ [last] ∧
      r.Perm ((emoji, 1) :: recent.dropLast) ∧
      recent.dropLast.Sublist r ∧
      r.length = cap ∧
      ∀ y ∈ recent.dropLast, last.2 ≤ y.2 := by
  have hne : recent ≠ [] := by
    intro h; rw [h] at hlen; simp at hlen; omega
  have htake : recent.take (cap - 1) = recent.dropLast := by
    rw [List.dropLast_eq_take, hlen]
  have hdec := List.dropLast_append_getLast hne
  refine ⟨_, recent.getLast hne, recent_new cap hcap recent emoji hnew, hdec.symm,
    ?_, ?_, ?_, ?_⟩
  · rw [htake]
    simpa using bubbleUp_perm recent.dropLast (emoji, 1) [] _ rfl
  · rw [htake]
    simpa using bubbleUp_sublist recent.dropLast (emoji, 1) [] _ rfl
  · rw [htake, (bubbleUp_perm recent.dropLast (emoji, 1) [] _ rfl).length_eq]
    simp; omega
  · intro y hy
    have h : UsageOrdered (recent.dropLast ++ [recent.getLast hne]) := by rw [hdec]; exact hord
    exact (List.pairwise_append.1 h).2.2 y hy _ (by simp)

/-- Witness for C3: a full, usage-ordered list of three entries with `cap = 3`. -/
theorem C3_eviction_on_overflow_witness :
    ∃ r last, mouseReleaseEvent_recent 3 [(0, 5), (1, 2), (2, 1)] 7 = some r ∧
      ([(0, 5), (1, 2), (2, 1)] : RecentEmojiPack)
        = ([(0, 5), (1, 2), (2, 1)] : RecentEmojiPack).dropLast ++ [last] ∧
      r.Perm ((7, 1) :: ([(0, 5), (1, 2), (2, 1)] : RecentEmojiPack).dropLast) ∧
      ([(0, 5), (1, 2), (2, 1)] : RecentEmojiPack).dropLast.Sublist r ∧
      r.length = 3 ∧
      ∀ y ∈ ([(0, 5), (1, 2), (2, 1)] : RecentEmojiPack).dropLast, last.2 ≤ y.2 :=
  C3_eviction_on_overflow 3 (by decide) [(0, 5), (1, 2), (2, 1)] (by decide) (by decide) 7
    (by decide)

/-- C4: a list whose counters never increase from front to back and lie in `[1, 0x8000]`
is again ordered that way after a selection is recorded, both when the emoji was already
listed (with or without the halving of all counters) and when it is new. -/
theorem C4_usage_order_preserved (cap : Nat) (hcap : 1 ≤ cap) (recent : RecentEmojiPack)
    (hord : UsageOrdered recent) (hrange : ∀ p ∈ recent, 1 ≤ p.2 ∧ p.2 ≤ 0x8000)
    (emoji : EmojiPtr) :
    ∃ r, mouseReleaseEvent_recent cap recent emoji = some r ∧ UsageOrdered r := by
  by_cases hmem : emoji ∈ recent.map Prod.fst
  · obtain ⟨pre, c, suf, hl, hpre⟩ := exists_first_split emoji recent hmem
    subst hl
    refine ⟨_, recent_found cap pre suf emoji c hpre, ?_⟩
    have hc : c ≤ 0x8000 := (hrange (emoji, c) (by simp)).2
    have hinc : incrCount c = c + 1 := by unfold incrCount; omega
    have hparts := List.pairwise_append.1 hord
    have hcons := List.pairwise_cons.1 hparts.2.1
    apply usageOrdered_bubbleUp _ _ _ _ (by simp)
    · exact usageOrdered_map_adjust _ pre hparts.1
    · exact usageOrdered_map_adjust _ suf hcons.2
    · intro a ha b hb
      obtain ⟨a0, ha0, rfl⟩ := List.mem_map.1 ha
      obtain ⟨b0, hb0, rfl⟩ := List.mem_map.1 hb
      exact adjust_mono _ (hparts.2.2 a0 ha0 b0 (List.mem_cons_of_mem _ hb0))
    · intro b hb
      obtain ⟨b0, hb0, rfl⟩ := List.mem_map.1 hb
      have h1 : b0.2 ≤ c := hcons.1 b0 hb0
      exact adjust_mono _ (by rw [hinc]; omega)
  · refine ⟨_, recent_new cap hcap recent emoji hmem, ?_⟩
    have h := usageOrdered_bubbleUp (recent.take (cap - 1)) (emoji, 1) [] _ rfl
      (List.Pairwise.sublist (List.take_sublist _ _) hord) List.Pairwise.nil
      (by simp) (by simp)
    simpa using h

/-- Witness for C4: the halving case, the selected emoji holds the counter `0x8000`. -/
theorem C4_usage_order_preserved_witness :
    ∃ r, mouseReleaseEvent_recent 3 [(0, 0x8000), (1, 3), (2, 1)] 0 = some r ∧
      UsageOrdered r :=
  C4_usage_order_preserved 3 (by decide) [(0, 0x8000), (1, 3), (2, 1)] (by decide)
    (by decide) 0

/-- C5: with `cap ≥ 1`, after a selection is recorded the selected emoji occurs in the
list, and when the emojis of the list were pairwise distinct before they are pairwise
distinct afterwards, so the selected emoji occurs exactly once. -/
theorem C5_selected_recorded (cap : Nat) (hcap : 1 ≤ cap) (recent : RecentEmojiPack)
    (emoji : EmojiPtr) :
    ∃ r, mouseReleaseEvent_recent cap recent emoji = some r ∧
      emoji ∈ r.map Prod.fst ∧
      ((recent.map Prod.fst).Nodup →
        (r.map Prod.fst).Nodup ∧ (r.map Prod.fst).count emoji = 1) := by
  have key : ∃ r, mouseReleaseEvent_recent cap recent emoji = some r ∧
      emoji ∈ r.map Prod.fst ∧ ((recent.map Prod.fst).Nodup → (r.map Prod.fst).Nodup) := by
    by_cases hmem : emoji ∈ recent.map Prod.fst
    · obtain ⟨pre, c, suf, hl, hpre⟩ := exists_first_split emoji recent hmem
      subst hl
      have hperm := (bubbleUp_perm (pre.map (fun p => (p.1, adjust (incrCount c) p.2)))
        (emoji, adjust (incrCount c) (incrCount c))
        (suf.map (fun p => (p.1, adjust (incrCount c) p.2))) pre.length (by simp)).map Prod.fst
      have hfst : ∀ l : RecentEmojiPack,
          (l.map (fun p => (p.1, adjust (incrCount c) p.2))).map Prod.fst = l.map Prod.fst := by
        intro l; simp [List.map_map, Function.comp_def]
      simp only [List.map_cons, List.map_append, hfst] at hperm
      refine ⟨_, recent_found cap pre suf emoji c hpre, ?_, ?_⟩
      · exact hperm.symm.subset (by simp)
      · intro hnd
        apply hperm.symm.nodup
        have h2 : (List.map Prod.fst (pre ++ (emoji, c) :: suf)).Perm
            (emoji :: (List.map Prod.fst pre ++ List.map Prod.fst suf)) := by
          simp only [List.map_append, List.map_cons]
          exact List.perm_middle
        exact h2.nodup hnd
    · have hperm := (bubbleUp_perm (recent.take (cap - 1)) (emoji, 1) [] _ rfl).map Prod.fst
      simp only [List.map_cons, List.append_nil] at hperm
      refine ⟨_, recent_new cap hcap recent emoji hmem, ?_, ?_⟩
      · exact hperm.symm.subset (by simp)
      · intro hnd
        apply hperm.symm.nodup
        rw [List.nodup_cons]
        refine ⟨?_, ?_⟩
        · intro h
          exact hmem ((List.take_sublist _ _).map Prod.fst |>.subset h)
        · exact List.Nodup.sublist ((List.take_sublist _ _).map Prod.fst) hnd
  obtain ⟨r, hr, hin, hnd⟩ := key
  exact ⟨r, hr, hin, fun h => ⟨hnd h, List.count_eq_one_of_mem (hnd h) hin⟩⟩

/-- Witness for C5: an emoji already listed behind a more used one. -/
theorem C5_selected_recorded_witness :
    ∃ r, mouseReleaseEvent_recent 3 [(0, 5), (1, 1)] 1 = some r ∧
      1 ∈ r.map Prod.fst ∧
      ((([(0, 5), (1, 1)] : RecentEmojiPack).map Prod.fst).Nodup →
        (r.map Prod.fst).Nodup ∧ (r.map Prod.fst).count 1 = 1) :=
  C5_selected_recorded 3 (by decide) [(0, 5), (1, 1)] 1

/-- C10: when the selected emoji first occurs behind the entries `pre` with counter
`c ≤ 0x7FFF`, the update sets its counter to `c + 1` and moves it in front of the longest
run of entries directly before it whose counters are at most `c + 1`, stopping behind the
nearest entry with a larger counter; every other entry and the order of the other entries
are unchanged. -/
theorem C10_reused_exact_move (cap : Nat) (pre suf : RecentEmojiPack) (emoji : EmojiPtr)
    (c : Nat) (hfirst : emoji ∉ pre.map Prod.fst) (hc : c ≤ 0x7FFF) :
    ∃ keep run, pre = keep ++ run ∧
      (∀ y ∈ run, y.2 ≤ c + 1) ∧
      (∀ k, keep.getLast? = some k → c + 1 < k.2) ∧
      mouseReleaseEvent_recent cap (pre ++ (emoji, c) :: suf) emoji
        = some (keep ++ (emoji, c + 1) :: (run ++ suf)) := by
  have hinc : incrCount c = c + 1 := by unfold incrCount; omega
  have hadj : ∀ n, adjust (incrCount c) n = n := by
    intro n; unfold adjust; rw [hinc, if_neg (by omega)]
  have hmap : ∀ l : RecentEmojiPack, l.map (fun p => (p.1, adjust (incrCount c) p.2)) = l := by
    intro l; simp [hadj]
  refine ⟨pre.rdropWhile (fun y => decide (y.2 ≤ c + 1)),
    pre.rtakeWhile (fun y => decide (y.2 ≤ c + 1)),
    (rdropWhile_append_rtakeWhile _ pre).symm, ?_, ?_, ?_⟩
  · intro y hy
    simpa using List.mem_rtakeWhile_imp hy
  · intro k hk
    have hne : pre.rdropWhile (fun y => decide (y.2 ≤ c + 1)) ≠ [] := by
      intro h; rw [h] at hk; simp at hk
    have hlast := List.rdropWhile_last_not (fun y : EmojiPtr × Nat => decide (y.2 ≤ c + 1))
      pre hne
    rw [List.getLast?_eq_getLast _ hne] at hk
    rw [Option.some.inj hk] at hlast
    simpa using hlast
  · rw [recent_found cap pre suf emoji c hfirst, hmap, hmap, hadj, hinc,
      bubbleUp_split pre (emoji, c + 1) suf]

/-- Witness for C10: the emoji passes one entry and stops behind the counter `5`. -/
theorem C10_reused_exact_move_witness :
    ∃ keep run, ([(0, 5), (1, 2)] : RecentEmojiPack) = keep ++ run ∧
      (∀ y ∈ run, y.2 ≤ 1 + 1) ∧
      (∀ k, keep.getLast? = some k → 1 + 1 < k.2) ∧
      mouseReleaseEvent_recent 3 ([(0, 5), (1, 2)] ++ (2, 1) :: [(3, 1)]) 2
        = some (keep ++ (2, 1 + 1) :: (run ++ [(3, 1)])) :=
  C10_reused_exact_move 3 [(0, 5), (1, 2)] [(3, 1)] 2 1 (by decide) (by decide)

/-- C2, as stated, fails: in the list `[(0, 5), (1, 1)]` the emoji `1` is already listed,
and after it is selected the first entry is still emoji `0` with counter `5`. -/
theorem C2_promoted_to_front_counterexample :
    (1 ∈ ([(0, 5), (1, 1)] : RecentEmojiPack).map Prod.fst) ∧
      mouseReleaseEvent_recent 42 [(0, 5), (1, 1)] 1 = some [(0, 5), (1, 2)] ∧
      (mouseReleaseEvent_recent 42 [(0, 5), (1, 1)] 1).bind List.head? = some (0, 5) := by
  decide

/-- C2, amended: when the selected emoji first occurs behind the entries `pre` with counter
`c`, the update returns the list in which the emoji, with its new counter, stands directly
behind `keep` and in front of `run`, where `keep ++ run` are the entries of `pre` (counters
halved when the halving is triggered), every entry of `run` has a counter that is at most the
new counter, and the last entry of `keep`, when there is one, has a strictly greater counter.
The emoji is the first entry if and only if no entry of `pre` has a counter strictly greater
than the new counter; otherwise `keep` is not empty and the emoji stays behind its last
entry. -/
theorem C2_promoted_past_smaller (cap : Nat) (pre suf : RecentEmojiPack) (emoji : EmojiPtr)
    (c : Nat) (hfirst : emoji ∉ pre.map Prod.fst) :
    ∃ r keep run,
      mouseReleaseEvent_recent cap (pre ++ (emoji, c) :: suf) emoji = some r ∧
      pre.map (fun p => (p.1, adjust (incrCount c) p.2)) = keep ++ run ∧
      r = keep ++ (emoji, adjust (incrCount c) (incrCount c))
            :: (run ++ suf.map (fun p => (p.1, adjust (incrCount c) p.2))) ∧
      (∀ y ∈ run, y.2 ≤ adjust (incrCount c) (incrCount c)) ∧
      (∀ k, keep.getLast? = some k → adjust (incrCount c) (incrCount c) < k.2) ∧
      (r.head?.map Prod.fst = some emoji ↔
        ∀ y ∈ pre, adjust (incrCount c) y.2 ≤ adjust (incrCount c) (incrCount c)) ∧
      ((∃ y ∈ pre, adjust (incrCount c) (incrCount c) < adjust (incrCount c) y.2) →
        ∃ front k, keep = front ++ [k] ∧ adjust (incrCount c) (incrCount c) < k.2 ∧
          r.head?.map Prod.fst ≠ some emoji) := by
  have hsplit := rdropWhile_append_rtakeWhile
    (fun y : EmojiPtr × Nat => decide (y.2 ≤ adjust (incrCount c) (incrCount c)))
    (pre.map (fun p => (p.1, adjust (incrCount c) p.2)))
  have hlastnot := List.rdropWhile_last_not
    (fun y : EmojiPtr × Nat => decide (y.2 ≤ adjust (incrCount c) (incrCount c)))
    (pre.map (fun p => (p.1, adjust (incrCount c) p.2)))
  have hrun : ∀ y ∈ (pre.map (fun p => (p.1, adjust (incrCount c) p.2))).rtakeWhile
      (fun y : EmojiPtr × Nat => decide (y.2 ≤ adjust (incrCount c) (incrCount c))),
      y.2 ≤ adjust (incrCount c) (incrCount c) := by
    intro y hy
    simpa using List.mem_rtakeWhile_imp hy
  have hnil := List.rdropWhile_eq_nil_iff
    (p := fun y : EmojiPtr × Nat => decide (y.2 ≤ adjust (incrCount c) (incrCount c)))
    (l := pre.map (fun p => (p.1, adjust (incrCount c) p.2)))
  have hpre := List.rdropWhile_prefix
    (fun y : EmojiPtr × Nat => decide (y.2 ≤ adjust (incrCount c) (incrCount c)))
    (pre.map (fun p => (p.1, adjust (incrCount c) p.2)))
  have hres := bubbleUp_split_at (pre.map (fun p => (p.1, adjust (incrCount c) p.2)))
    (emoji, adjust (incrCount c) (incrCount c))
    (suf.map (fun p => (p.1, adjust (incrCount c) p.2))) pre.length (by simp)
  generalize (pre.map (fun p => (p.1, adjust (incrCount c) p.2))).rdropWhile
    (fun y => decide (y.2 ≤ adjust (incrCount c) (incrCount c))) = keep
    at hsplit hlastnot hnil hpre hres
  generalize (pre.map (fun p => (p.1, adjust (incrCount c) p.2))).rtakeWhile
    (fun y => decide (y.2 ≤ adjust (incrCount c) (incrCount c))) = run
    at hsplit hrun hres
  have hall : keep = [] ↔
      ∀ y ∈ pre, adjust (incrCount c) y.2 ≤ adjust (incrCount c) (incrCount c) := by
    rw [hnil]
    constructor
    · intro h y hy
      simpa using h (y.1, adjust (incrCount c) y.2) (List.mem_map.2 ⟨y, hy, rfl⟩)
    · intro h y hy
      obtain ⟨y0, hy0, rfl⟩ := List.mem_map.1 hy
      simpa using h y0 hy0
  have hlast : ∀ k, keep.getLast? = some k → adjust (incrCount c) (incrCount c) < k.2 := by
    intro k hk
    have hne : keep ≠ [] := by
      intro h; rw [h] at hk; simp at hk
    have hl := hlastnot hne
    rw [List.getLast?_eq_getLast _ hne] at hk
    rw [Option.some.inj hk] at hl
    simpa using hl
  have hhead : (keep ++ (emoji, adjust (incrCount c) (incrCount c))
      :: (run ++ suf.map (fun p => (p.1, adjust (incrCount c) p.2)))).head?.map Prod.fst
        = some emoji ↔ keep = [] := by
    cases hkeep : keep with
    | nil => simp
    | cons k rest =>
      have hkmem : k ∈ pre.map (fun p => (p.1, adjust (incrCount c) p.2)) :=
        hpre.subset (by rw [hkeep]; simp)
      obtain ⟨k0, hk0, rfl⟩ := List.mem_map.1 hkmem
      have hne : k0.1 ≠ emoji := by
        intro h; apply hfirst; rw [← h]; exact List.mem_map.2 ⟨k0, hk0, rfl⟩
      simp [hne]
  refine ⟨_, keep, run, (recent_found cap pre suf emoji c hfirst).trans (congrArg some hres),
    hsplit.symm, rfl, hrun, hlast, hhead.trans hall, ?_⟩
  rintro ⟨y, hy, hgt⟩
  have hne : keep ≠ [] := by
    intro h
    have := (hall.1 h) y hy
    omega
  refine ⟨keep.dropLast, keep.getLast hne, (List.dropLast_append_getLast hne).symm,
    hlast _ (List.getLast?_eq_getLast _ hne), ?_⟩
  intro h
  exact hne (hhead.1 h)

/-- Witness for the amended C2: the emoji `2` passes the counter `1` and stays behind the
counter `5`. -/
theorem C2_promoted_past_smaller_witness :
    ∃ r keep run,
      mouseReleaseEvent_recent 42 ([(0, 5), (1, 1)] ++ (2, 1) :: [(3, 1)]) 2 = some r ∧
      ([(0, 5), (1, 1)] : RecentEmojiPack).map (fun p => (p.1, adjust (incrCount 1) p.2))
        = keep ++ run ∧
      r = keep ++ (2, adjust (incrCount 1) (incrCount 1))
            :: (run ++ ([(3, 1)] : RecentEmojiPack).map
                (fun p => (p.1, adjust (incrCount 1) p.2))) ∧
      (∀ y ∈ run, y.2 ≤ adjust (incrCount 1) (incrCount 1)) ∧
      (∀ k, keep.getLast? = some k → adjust (incrCount 1) (incrCount 1) < k.2) ∧
      (r.head?.map Prod.fst = some 2 ↔
        ∀ y ∈ ([(0, 5), (1, 1)] : RecentEmojiPack),
          adjust (incrCount 1) y.2 ≤ adjust (incrCount 1) (incrCount 1)) ∧
      ((∃ y ∈ ([(0, 5), (1, 1)] : RecentEmojiPack),
          adjust (incrCount 1) (incrCount 1) < adjust (incrCount 1) y.2) →
        ∃ front k, keep = front ++ [k] ∧ adjust (incrCount 1) (incrCount 1) < k.2 ∧
          r.head?.map Prod.fst ≠ some 2) :=
  C2_promoted_past_smaller 42 [(0, 5), (1, 1)] [(3, 1)] 2 1 (by decide)

end EmojiPanInner

/-! ## Lemmas on the mention and hashtag filter -/

theorem QMultiMap.insertMulti_perm (k : Int) (v : UserPtr) (m : List (Int × UserPtr)) :
    (QMultiMap.insertMulti k v m).Perm ((k, v) :: m) := by
  induction m with
  | nil => simp [QMultiMap.insertMulti]
  | cons e rest ih =>
    unfold QMultiMap.insertMulti
    split_ifs with h
    · exact (List.Perm.cons e ih).trans (List.Perm.swap _ _ _)
    · exact List.Perm.refl _

theorem QMultiMap.insertMulti_sorted (k : Int) (v : UserPtr) (m : List (Int × UserPtr))
    (hm : m.Pairwise (fun a b => a.1 ≤ b.1)) :
    (QMultiMap.insertMulti k v m).Pairwise (fun a b => a.1 ≤ b.1) := by
  induction m with
  | nil => simp [QMultiMap.insertMulti]
  | cons e rest ih =>
    have hc := List.pairwise_cons.1 hm
    unfold QMultiMap.insertMulti
    split_ifs with h
    · rw [List.pairwise_cons]
      refine ⟨?_, ih hc.2⟩
      intro b hb
      rcases List.mem_cons.1 ((QMultiMap.insertMulti_perm k v rest).subset hb) with hb | hb
      · rw [hb]; exact le_of_lt h
      · exact hc.1 b hb
    · rw [List.pairwise_cons]
      refine ⟨?_, hm⟩
      intro b hb
      rcases List.mem_cons.1 hb with hb | hb
      · rw [hb]; exact not_lt.1 h
      · exact le_trans (not_lt.1 h) (hc.1 b hb)

namespace MentionsDropdown

theorem participantsLoop_spec (fold : Char → Char) (users : UserPtr → UserData)
    (onlineForSort : Int → Int → Int) (filter : QString) (now : Int)
    (ps : List UserPtr) (acc : List (Int × UserPtr))
    (hacc : acc.Pairwise (fun a b => a.1 ≤ b.1)) :
    (participantsLoop fold users onlineForSort filter now ps acc).Pairwise
        (fun a b => a.1 ≤ b.1) ∧
      (participantsLoop fold users onlineForSort filter now ps acc).Perm
        (acc ++ (ps.filter (keptUser fold users filter)).map
          (fun u => (onlineForSort (users u).onlineTill now, u))) := by
  induction ps generalizing acc with
  | nil => simpa [participantsLoop] using hacc
  | cons u rest ih =>
    unfold participantsLoop at ih ⊢
    rw [List.foldl_cons]
    by_cases hk : keptUser fold users filter u = true
    · have hstep : participantsStep fold users onlineForSort filter now acc u
          = QMultiMap.insertMulti (onlineForSort (users u).onlineTill now) u acc := by
        simp only [keptUser, Bool.and_eq_true, Bool.not_eq_true'] at hk
        simp [participantsStep, hk.1, hk.2]
      rw [hstep, List.filter_cons, if_pos hk]
      have h := ih _ (QMultiMap.insertMulti_sorted
        (onlineForSort (users u).onlineTill now) u acc hacc)
      refine ⟨h.1, h.2.trans ?_⟩
      have hp := QMultiMap.insertMulti_perm (onlineForSort (users u).onlineTill now) u acc
      simp only [List.map_cons]
      exact (hp.append_right _).trans (by simpa using List.perm_middle.symm)
    · have hstep : participantsStep fold users onlineForSort filter now acc u = acc := by
        unfold participantsStep
        by_cases he : (users u).username.isEmpty = true
        · simp [he]
        · by_cases hs : skipped fold filter (users u).username = true
          · simp [hs]
          · exfalso; apply hk
            simp only [Bool.not_eq_true] at he hs
            simp [keptUser, he, hs]
      rw [hstep, List.filter_cons, if_neg hk]
      exact ih acc hacc

theorem remove_guard (k : Int) (v : UserPtr) (m : List (Int × UserPtr)) :
    (if (!m.isEmpty) = true then QMultiMap.remove k v m else m) = QMultiMap.remove k v m := by
  cases m with
  | nil => simp [QMultiMap.remove]
  | cons e rest => simp

theorem lastAuthorsLoop_spec (fold : Char → Char) (users : UserPtr → UserData)
    (onlineForSort : Int → Int → Int) (filter : QString) (now : Int)
    (las : List UserPtr) (st : MentionRows × List (Int × UserPtr)) :
    lastAuthorsLoop fold users onlineForSort filter now las st
      = (st.1 ++ las.filter (keptUser fold users filter),
          st.2.filter (fun e => (las.filter (keptUser fold users filter)).all
            (fun u => !(decide (e.1 = onlineForSort (users u).onlineTill now)
              && decide (e.2 = u))))) := by
  induction las generalizing st with
  | nil => simp [lastAuthorsLoop]
  | cons u rest ih =>
    unfold lastAuthorsLoop at ih ⊢
    rw [List.foldl_cons]
    by_cases hk : keptUser fold users filter u = true
    · have hstep : lastAuthorsStep fold users onlineForSort filter now st u
          = (st.1 ++ [u], QMultiMap.remove (onlineForSort (users u).onlineTill now) u st.2) := by
        simp only [keptUser, Bool.and_eq_true, Bool.not_eq_true'] at hk
        unfold lastAuthorsStep
        rw [remove_guard]
        simp [hk.1, hk.2]
      rw [hstep, ih, List.filter_cons, if_pos hk]
      simp only [QMultiMap.remove, List.filter_filter, List.all_cons, List.append_assoc,
        List.singleton_append]
      congr 1
      apply List.filter_congr
      intro e _
      exact Bool.and_comm _ _
    · have hstep : lastAuthorsStep fold users onlineForSort filter now st u = st := by
        unfold lastAuthorsStep
        by_cases he : (users u).username.isEmpty = true
        · simp [he]
        · by_cases hs : skipped fold filter (users u).username = true
          · simp [hs]
          · exfalso; apply hk
            simp only [Bool.not_eq_true] at he hs
            simp [keptUser, he, hs]
      rw [hstep, List.filter_cons, if_neg hk]
      exact ih st

theorem all_ne_eq_not_mem (key : UserPtr → Int) (u : UserPtr) (l : List UserPtr) :
    l.all (fun v => !(decide (key u = key v) && decide (u = v))) = decide (u ∉ l) := by
  induction l with
  | nil => simp
  | cons v rest ih =>
    rw [List.all_cons, ih]
    by_cases h : u = v
    · subst h; simp
    · simp [h]

theorem append_guard (a : MentionRows) (m : List (Int × UserPtr)) :
    (if (!m.isEmpty) = true then a ++ m.reverse.map Prod.snd else a)
      = a ++ m.reverse.map Prod.snd := by
  cases m <;> simp

theorem updateFiltered_at (fold : Char → Char) (users : UserPtr → UserData)
    (onlineForSort : Int → Int → Int) (chat : ChatData) (recent : RecentHashtagPack)
    (rest : QString) (now : Int) :
    ∃ tail, updateFiltered fold users onlineForSort chat recent ('@' :: rest) now
        = some (chat.lastAuthors.filter (keptUser fold users ('@' :: rest)) ++ tail, []) ∧
      tail.Perm (chat.participants.filter (fun u => keptUser fold users ('@' :: rest) u
        && decide (u ∉ chat.lastAuthors.filter (keptUser fold users ('@' :: rest))))) ∧
      tail.Pairwise (fun a b => onlineForSort (users b).onlineTill now
        ≤ onlineForSort (users a).onlineTill now) := by
  have hord0 : (if chat.participants.isEmpty = true then ([] : List (Int × UserPtr))
      else participantsLoop fold users onlineForSort ('@' :: rest) now chat.participants [])
      = participantsLoop fold users onlineForSort ('@' :: rest) now chat.participants [] := by
    cases hp : chat.participants with
    | nil => simp [participantsLoop]
    | cons a l => simp
  have hrows : updateFiltered fold users onlineForSort chat recent ('@' :: rest) now
      = some (chat.lastAuthors.filter (keptUser fold users ('@' :: rest))
          ++ (((participantsLoop fold users onlineForSort ('@' :: rest) now
            chat.participants []).filter (fun e : Int × UserPtr =>
              (chat.lastAuthors.filter (keptUser fold users ('@' :: rest))).all
                (fun u => !(decide (e.1 = onlineForSort (users u).onlineTill now)
                  && decide (e.2 = u))))).reverse.map Prod.snd), []) := by
    unfold updateFiltered
    simp only [↓reduceIte, hord0, lastAuthorsLoop_spec, List.nil_append, append_guard]
  obtain ⟨hsorted, hperm⟩ := participantsLoop_spec fold users onlineForSort ('@' :: rest) now
    chat.participants [] List.Pairwise.nil
  rw [List.nil_append] at hperm
  generalize hord : participantsLoop fold users onlineForSort ('@' :: rest) now
    chat.participants [] = ord0 at hsorted hperm hrows
  generalize hq : (fun e : Int × UserPtr =>
    (chat.lastAuthors.filter (keptUser fold users ('@' :: rest))).all
      (fun u => !(decide (e.1 = onlineForSort (users u).onlineTill now)
        && decide (e.2 = u)))) = q at hrows
  refine ⟨_, hrows, ?_, ?_⟩
  · have h1 : ((ord0.filter q).reverse.map Prod.snd).Perm
        ((((chat.participants.filter (keptUser fold users ('@' :: rest))).map
          (fun u => (onlineForSort (users u).onlineTill now, u))).filter q).map Prod.snd) :=
      ((List.reverse_perm _).trans (hperm.filter q)).map Prod.snd
    refine h1.trans (List.Perm.of_eq ?_)
    rw [List.filter_map, List.map_map, List.filter_filter]
    have hid : (Prod.snd ∘ fun u : UserPtr => (onlineForSort (users u).onlineTill now, u))
        = id := rfl
    rw [hid, List.map_id]
    apply List.filter_congr
    intro u _
    rw [← hq]
    simp only [Function.comp]
    rw [all_ne_eq_not_mem (fun v => onlineForSort (users v).onlineTill now) u, Bool.and_comm]
  · rw [List.pairwise_map, List.pairwise_reverse]
    have hs : (ord0.filter q).Pairwise (fun a b => a.1 ≤ b.1) :=
      List.Pairwise.sublist (List.filter_sublist _) hsorted
    refine List.Pairwise.imp_of_mem ?_ hs
    intro a b ha hb hab
    have hkey : ∀ e ∈ ord0.filter q, e.1 = onlineForSort (users e.2).onlineTill now := by
      intro e he
      have he2 := hperm.subset (List.mem_of_mem_filter he)
      obtain ⟨u, _, rfl⟩ := List.mem_map.1 he2
      rfl
    rw [← hkey a ha, ← hkey b hb]
    exact hab

theorem updateFiltered_hash (fold : Char → Char) (users : UserPtr → UserData)
    (onlineForSort : Int → Int → Int) (chat : ChatData) (recent : RecentHashtagPack)
    (first : Char) (rest : QString) (now : Int) (hfirst : first ≠ '@') :
    updateFiltered fold users onlineForSort chat recent (first :: rest) now
      = some ([], (recent.filter (fun e => !(skipped fold (first :: rest) e.1))).map
          Prod.fst) := by
  unfold updateFiltered
  simp [hfirst]

theorem keptUser_iff (fold : Char → Char) (users : UserPtr → UserData) (sigil : Char)
    (p : QString) (hp : p ≠ []) (u : UserPtr) (hname : (users u).username ≠ []) :
    keptUser fold users (sigil :: p) u = true ↔
      (QString.startsWith fold (users u).username p = true
        ∧ p.length < (users u).username.length) := by
  have hlen : 0 < p.length := List.length_pos.2 hp
  have hne : (users u).username.isEmpty = false := by
    cases h : (users u).username with
    | nil => exact absurd h hname
    | cons a l => rfl
  unfold keptUser skipped
  simp only [hne, List.length_cons, List.drop_succ_cons, List.drop_zero]
  by_cases hs : QString.startsWith fold (users u).username p = true
  · have hle : p.length ≤ (users u).username.length := by
      unfold QString.startsWith at hs
      simp only [Bool.and_eq_true, decide_eq_true_eq] at hs
      exact hs.1
    simp [hs, hp]
    omega
  · simp [hs, hp]

theorem not_skipped_iff (fold : Char → Char) (sigil : Char) (p : QString) (hp : p ≠ [])
    (name : QString) :
    (!(skipped fold (sigil :: p) name)) = true ↔
      (QString.startsWith fold name p = true ∧ p.length < name.length) := by
  have hlen : 0 < p.length := List.length_pos.2 hp
  unfold skipped
  simp only [List.length_cons, List.drop_succ_cons, List.drop_zero]
  by_cases hs : QString.startsWith fold name p = true
  · have hle : p.length ≤ name.length := by
      unfold QString.startsWith at hs
      simp only [Bool.and_eq_true, decide_eq_true_eq] at hs
      exact hs.1
    simp [hs, hp]
    omega
  · simp [hs, hp]

/-- C6, as stated, fails: the recent hashtag `abc` starts with the typed prefix `abc`, and
the user named `abc` starts with it too, yet neither is in the result. -/
theorem C6_prefix_filter_counterexample :
    QString.startsWith Char.toLower ['a', 'b', 'c'] ['a', 'b', 'c'] = true ∧
      showFiltered Char.toLower Char.toLower (fun _ => ⟨['a', 'b', 'c'], 0⟩) (fun o _ => o)
        ⟨[], []⟩ [(['a', 'b', 'c'], 1)] ['#', 'a', 'b', 'c'] 0 = some ([], []) ∧
      showFiltered Char.toLower Char.toLower (fun _ => ⟨['a', 'b', 'c'], 0⟩) (fun o _ => o)
        ⟨[7], [7]⟩ [] ['@', 'a', 'b', 'c'] 0 = some ([], []) := by
  decide

/-- C6, amended: with the stored filter `sigil :: p` and `p` not empty, a participant or
last author with a non-empty username is in the `@` result, and a recent hashtag is in the
result of the other mode, if and only if its name starts with `p` under case-insensitive
comparison and is strictly longer than `p`. -/
theorem C6_prefix_filter_strict (fold : Char → Char) (users : UserPtr → UserData)
    (onlineForSort : Int → Int → Int) (chat : ChatData) (recent : RecentHashtagPack)
    (sigil : Char) (p : QString) (now : Int) (hp : p ≠ []) :
    ∃ rows hrows,
      updateFiltered fold users onlineForSort chat recent (sigil :: p) now
        = some (rows, hrows) ∧
      (sigil = '@' → ∀ u, (u ∈ chat.participants ∨ u ∈ chat.lastAuthors) →
        (users u).username ≠ [] →
        (u ∈ rows ↔ (QString.startsWith fold (users u).username p = true
          ∧ p.length < (users u).username.length))) ∧
      (sigil ≠ '@' → ∀ t ∈ recent.map Prod.fst,
        (t ∈ hrows ↔ (QString.startsWith fold t p = true ∧ p.length < t.length))) := by
  by_cases hsig : sigil = '@'
  · subst hsig
    obtain ⟨tail, hrows, hperm, _⟩ := updateFiltered_at fold users onlineForSort chat recent
      p now
    refine ⟨_, _, hrows, ?_, fun h => absurd rfl h⟩
    intro _ u hu hname
    rw [← keptUser_iff fold users '@' p hp u hname, List.mem_append, hperm.mem_iff]
    simp only [List.mem_filter, Bool.and_eq_true, decide_eq_true_eq]
    constructor
    · rintro (h | h)
      · exact h.2
      · exact h.2.1
    · intro hk
      by_cases hla : u ∈ chat.lastAuthors
      · exact Or.inl ⟨hla, hk⟩
      · rcases hu with hu | hu
        · exact Or.inr ⟨hu, hk, fun h => hla h.1⟩
        · exact absurd hu hla
  · refine ⟨_, _, updateFiltered_hash fold users onlineForSort chat recent sigil p now hsig,
      fun h => absurd h hsig, ?_⟩
    intro _ t ht
    rw [← not_skipped_iff fold sigil p hp t]
    simp only [List.mem_map, List.mem_filter]
    constructor
    · rintro ⟨e, ⟨_, he⟩, rfl⟩
      exact he
    · intro hk
      obtain ⟨e, he, rfl⟩ := List.mem_map.1 ht
      exact ⟨e, ⟨he, hk⟩, rfl⟩

/-- Witness for the amended C6: the filter `#ab` over three recent hashtags. -/
theorem C6_prefix_filter_strict_witness :
    ∃ rows hrows,
      updateFiltered Char.toLower (fun _ => ⟨[], 0⟩) (fun o _ => o) ⟨[], []⟩
        [(['a', 'b'], 1), (['A', 'B', 'c'], 1), (['x'], 2)] ('#' :: ['a', 'b']) 0
        = some (rows, hrows) ∧
      ('#' = '@' → ∀ u, (u ∈ (⟨[], []⟩ : ChatData).participants
          ∨ u ∈ (⟨[], []⟩ : ChatData).lastAuthors) →
        ((fun _ => ⟨[], 0⟩ : UserPtr → UserData) u).username ≠ [] →
        (u ∈ rows ↔ (QString.startsWith Char.toLower
            ((fun _ => ⟨[], 0⟩ : UserPtr → UserData) u).username ['a', 'b'] = true
          ∧ ['a', 'b'].length < ((fun _ => ⟨[], 0⟩ : UserPtr → UserData) u).username.length))) ∧
      ('#' ≠ '@' → ∀ t ∈ ([(['a', 'b'], 1), (['A', 'B', 'c'], 1), (['x'], 2)]
          : RecentHashtagPack).map Prod.fst,
        (t ∈ hrows ↔ (QString.startsWith Char.toLower t ['a', 'b'] = true
          ∧ ['a', 'b'].length < t.length))) :=
  C6_prefix_filter_strict Char.toLower (fun _ => ⟨[], 0⟩) (fun o _ => o) ⟨[], []⟩
    [(['a', 'b'], 1), (['A', 'B', 'c'], 1), (['x'], 2)] '#' ['a', 'b'] 0 (by decide)

/-- C7: in `@` mode the rows built by `updateFiltered` are the last authors kept by the
filter, in stored order, followed by the kept participants that are not among those last
authors, in descending order of `App::onlineForSort(onlineTill, now)`; when the last
authors are pairwise distinct (the participants are the distinct keys of a hash), no user
appears twice. -/
theorem C7_blended_rows (fold : Char → Char) (users : UserPtr → UserData)
    (onlineForSort : Int → Int → Int) (chat : ChatData) (recent : RecentHashtagPack)
    (typed : QString) (now : Int) :
    ∃ tail, updateFiltered fold users onlineForSort chat recent ('@' :: typed) now
        = some (chat.lastAuthors.filter (keptUser fold users ('@' :: typed)) ++ tail, []) ∧
      tail.Perm (chat.participants.filter (fun u => keptUser fold users ('@' :: typed) u
        && decide (u ∉ chat.lastAuthors.filter (keptUser fold users ('@' :: typed))))) ∧
      tail.Pairwise (fun a b => onlineForSort (users b).onlineTill now
        ≤ onlineForSort (users a).onlineTill now) ∧
      (chat.lastAuthors.Nodup → chat.participants.Nodup →
        (chat.lastAuthors.filter (keptUser fold users ('@' :: typed)) ++ tail).Nodup) := by
  obtain ⟨tail, hrows, hperm, hsorted⟩ := updateFiltered_at fold users onlineForSort chat
    recent typed now
  refine ⟨tail, hrows, hperm, hsorted, ?_⟩
  intro hla hps
  rw [List.nodup_append]
  refine ⟨hla.filter _, hperm.symm.nodup (hps.filter _), ?_⟩
  intro u hu1 hu2
  have h := hperm.subset hu2
  simp only [List.mem_filter, Bool.and_eq_true, decide_eq_true_eq] at h
  exact h.2.2 (by simpa [List.mem_filter] using hu1)

/-- Witness for C7: five participants, two of them also last authors, filter `@a`. -/
theorem C7_blended_rows_witness :
    ∃ tail, updateFiltered Char.toLower sampleUsers (fun o _ => o) ⟨[1, 2, 3, 4, 5], [4, 3]⟩ []
        ('@' :: ['a']) 0
        = some ((⟨[1, 2, 3, 4, 5], [4, 3]⟩ : ChatData).lastAuthors.filter
            (keptUser Char.toLower sampleUsers ('@' :: ['a'])) ++ tail, []) ∧
      tail.Perm ((⟨[1, 2, 3, 4, 5], [4, 3]⟩ : ChatData).participants.filter
        (fun u => keptUser Char.toLower sampleUsers ('@' :: ['a']) u
          && decide (u ∉ (⟨[1, 2, 3, 4, 5], [4, 3]⟩ : ChatData).lastAuthors.filter
            (keptUser Char.toLower sampleUsers ('@' :: ['a']))))) ∧
      tail.Pairwise (fun a b => (fun o _ => o) (sampleUsers b).onlineTill (0 : Int)
        ≤ (fun o _ => o) (sampleUsers a).onlineTill (0 : Int)) ∧
      ((⟨[1, 2, 3, 4, 5], [4, 3]⟩ : ChatData).lastAuthors.Nodup →
        (⟨[1, 2, 3, 4, 5], [4, 3]⟩ : ChatData).participants.Nodup →
        ((⟨[1, 2, 3, 4, 5], [4, 3]⟩ : ChatData).lastAuthors.filter
          (keptUser Char.toLower sampleUsers ('@' :: ['a'])) ++ tail).Nodup) :=
  C7_blended_rows Char.toLower sampleUsers (fun o _ => o) ⟨[1, 2, 3, 4, 5], [4, 3]⟩ []
    ['a'] 0

end MentionsDropdown

/-! ## Lemmas on the dropdown fade -/

namespace Dropdown

theorem animStep_finished (duration : Int) (hd : 0 < duration) (ms : ℚ)
    (hms : (duration : ℚ) ≤ ms) (s : Dropdown) :
    animStep duration ms s
      = (adjustButtons (if s._hiding then hideFinish { s with a_opacity := s.a_opacity.finish }
          else { s with a_opacity := s.a_opacity.finish }), false) := by
  have hpos : (0 : ℚ) < (duration : ℚ) := by exact_mod_cast hd
  have hdt : ms / (duration : ℚ) ≥ 1 := (one_le_div hpos).2 hms
  simp only [animStep, hdt, if_true]

theorem animStep_running (duration : Int) (hd : 0 < duration) (ms : ℚ)
    (hms : ms < (duration : ℚ)) (s : Dropdown) :
    animStep duration ms s
      = (adjustButtons
          { s with a_opacity := s.a_opacity.update (ms / (duration : ℚ)) anim.linear },
        true) := by
  have hpos : (0 : ℚ) < (duration : ℚ) := by exact_mod_cast hd
  have hdt : ¬ ms / (duration : ℚ) ≥ 1 := by
    intro h; exact absurd ((one_le_div hpos).1 h) (not_le.2 hms)
  simp only [animStep, hdt, if_false]

/-- C8: for every state and positive duration, after `hideStart` an `animStep(ms)` with
`ms ≥ duration` returns `false` and leaves the opacity at `0`, the widget hidden, every
button state cleared and the selection at `-1`; with `ms < duration` it returns `true` and
does not change whether the widget is hidden. -/
theorem C8_fade_out_completes (s : Dropdown) (duration : Int) (hd : 0 < duration) (ms : ℚ) :
    ((duration : ℚ) ≤ ms →
      (animStep duration ms (hideStart s)).2 = false ∧
      (animStep duration ms (hideStart s)).1.a_opacity.current = 0 ∧
      (animStep duration ms (hideStart s)).1.hidden = true ∧
      (∀ b ∈ (animStep duration ms (hideStart s)).1._buttons, b.state = 0) ∧
      (animStep duration ms (hideStart s)).1._selected = -1) ∧
    (ms < (duration : ℚ) →
      (animStep duration ms (hideStart s)).2 = true ∧
      (animStep duration ms (hideStart s)).1.hidden = s.hidden) := by
  constructor
  · intro hms
    rw [animStep_finished duration hd ms hms]
    refine ⟨rfl, ?_, ?_, ?_, ?_⟩
    · simp [hideStart, hideFinish, adjustButtons, anim.fvalue.finish, anim.fvalue.start,
        anim.fvalue.current]
    · simp [hideStart, hideFinish, adjustButtons]
    · intro b hb
      simp only [hideStart, hideFinish, adjustButtons, if_true, List.map_map,
        List.mem_map] at hb
      obtain ⟨b0, _, rfl⟩ := hb
      rfl
    · simp [hideStart, hideFinish, adjustButtons]
  · intro hms
    rw [animStep_running duration hd ms hms]
    exact ⟨rfl, rfl⟩

/-- Witness for C8: the fully shown dropdown, duration `150`, step at `150`. -/
theorem C8_fade_out_completes_witness :
    (((150 : Int) : ℚ) ≤ 150 →
      (animStep 150 150 (hideStart shown)).2 = false ∧
      (animStep 150 150 (hideStart shown)).1.a_opacity.current = 0 ∧
      (animStep 150 150 (hideStart shown)).1.hidden = true ∧
      (∀ b ∈ (animStep 150 150 (hideStart shown)).1._buttons, b.state = 0) ∧
      (animStep 150 150 (hideStart shown)).1._selected = -1) ∧
    ((150 : ℚ) < ((150 : Int) : ℚ) →
      (animStep 150 150 (hideStart shown)).2 = true ∧
      (animStep 150 150 (hideStart shown)).1.hidden = shown.hidden) :=
  C8_fade_out_completes shown 150 (by decide) 150

/-- C9 fails on the code: from the fully shown dropdown, `hideStart` followed at once by
`showStart` leaves `_hiding` set, because `showStart` returns early while the widget is
visible and the current opacity is still `1`; the next finishing `animStep` then hides the
widget with opacity `0`. -/
theorem C9_showStart_after_hideStart_still_hiding :
    (showStart (hideStart shown))._hiding = true ∧
      (animStep 150 150 (showStart (hideStart shown))).1.hidden = true ∧
      (animStep 150 150 (showStart (hideStart shown))).1.a_opacity.current = 0 := by
  refine ⟨?_, ?_, ?_⟩
  · simp [showStart, hideStart, shown, anim.fvalue.start, anim.fvalue.current]
  · norm_num [animStep, adjustButtons, hideFinish, showStart, hideStart, shown,
      anim.fvalue.start, anim.fvalue.current, anim.fvalue.finish]
  · norm_num [animStep, adjustButtons, hideFinish, showStart, hideStart, shown,
      anim.fvalue.start, anim.fvalue.current, anim.fvalue.finish]

end Dropdown

/-! ## Further lemmas on the recent-emoji update -/

namespace EmojiPanInner

theorem adjust_range (c1 n : Nat) (h1 : 1 ≤ n) (h2 : n ≤ 0x8001)
    (h3 : c1 > 0x8000 ∨ n ≤ 0x8000) : 1 ≤ adjust c1 n ∧ adjust c1 n ≤ 0x8000 := by
  unfold adjust halveCount
  split_ifs <;> omega

/-- C20: when all counters lie in `[1, 0x8000]` (and `cap ≥ 1`), all counters of the list
written back lie in `[1, 0x8000]`; when the incremented counter exceeds `0x8000` the result
consists of the entries of the list, the selected one incremented, with every counter `c`
replaced by `c / 2` if `c > 1` and by `1` otherwise; a new emoji enters with counter `1`. -/
theorem C20_counters_bounded (cap : Nat) (hcap : 1 ≤ cap) (recent : RecentEmojiPack)
    (hrange : ∀ p ∈ recent, 1 ≤ p.2 ∧ p.2 ≤ 0x8000) (emoji : EmojiPtr) :
    ∃ r, mouseReleaseEvent_recent cap recent emoji = some r ∧
      (∀ p ∈ r, 1 ≤ p.2 ∧ p.2 ≤ 0x8000) ∧
      (∀ pre c suf, recent = pre ++ (emoji, c) :: suf → emoji ∉ pre.map Prod.fst →
        c + 1 > 0x8000 →
        r.Perm ((pre ++ (emoji, c + 1) :: suf).map
          (fun p => (p.1, if p.2 > 1 then p.2 / 2 else 1)))) ∧
      (emoji ∉ recent.map Prod.fst → (emoji, 1) ∈ r) := by
  by_cases hmem : emoji ∈ recent.map Prod.fst
  · obtain ⟨pre, c, suf, hl, hpre⟩ := exists_first_split emoji recent hmem
    subst hl
    have hc : c ≤ 0x8000 := (hrange (emoji, c) (by simp)).2
    have hc1 : 1 ≤ c := (hrange (emoji, c) (by simp)).1
    have hinc : incrCount c = c + 1 := by unfold incrCount; omega
    have hperm := bubbleUp_perm (pre.map (fun p => (p.1, adjust (incrCount c) p.2)))
        (emoji, adjust (incrCount c) (incrCount c))
        (suf.map (fun p => (p.1, adjust (incrCount c) p.2))) pre.length (by simp)
    refine ⟨_, recent_found cap pre suf emoji c hpre, ?_, ?_, fun h => absurd hmem h⟩
    · intro p hp
      have hp2 := hperm.subset hp
      rcases List.mem_cons.1 hp2 with h | h
      · rw [h]
        exact adjust_range _ _ (by omega) (by omega) (by rw [hinc]; omega)
      · have hother : ∀ q ∈ pre ++ suf, 1 ≤ q.2 ∧ q.2 ≤ 0x8000 := by
          intro q hq
          apply hrange
          rcases List.mem_append.1 hq with hq | hq
          · exact List.mem_append_left _ hq
          · exact List.mem_append_right _ (List.mem_cons_of_mem _ hq)
        rw [← List.map_append] at h
        obtain ⟨q, hq, rfl⟩ := List.mem_map.1 h
        have hq2 := hother q hq
        exact adjust_range _ _ hq2.1 (by omega) (Or.inr hq2.2)
    · intro pre2 c2 suf2 hl2 hpre2 hbig
      have hfound2 := recent_found cap pre2 suf2 emoji c2 hpre2
      rw [← hl2, recent_found cap pre suf emoji c hpre] at hfound2
      rw [Option.some.inj hfound2]
      have hc2 : c2 ≤ 0x8000 := by
        have h := hrange (emoji, c2) (by rw [hl2]; simp)
        exact h.2
      have hinc2 : incrCount c2 = c2 + 1 := by unfold incrCount; omega
      have hadj : ∀ n, adjust (c2 + 1) n = if n > 1 then n / 2 else 1 := by
        intro n
        unfold adjust halveCount
        rw [if_pos hbig]
      have hperm2 := bubbleUp_perm (pre2.map (fun p => (p.1, adjust (incrCount c2) p.2)))
        (emoji, adjust (incrCount c2) (incrCount c2))
        (suf2.map (fun p => (p.1, adjust (incrCount c2) p.2))) pre2.length (by simp)
      refine hperm2.trans ?_
      simp only [hinc2, hadj, List.map_append, List.map_cons]
      exact List.perm_middle.symm
  · have hperm := bubbleUp_perm (recent.take (cap - 1)) (emoji, 1) [] _ rfl
    refine ⟨_, recent_new cap hcap recent emoji hmem, ?_, ?_, ?_⟩
    · intro p hp
      rcases List.mem_cons.1 (hperm.subset hp) with h | h
      · rw [h]; simp
      · rw [List.append_nil] at h
        exact hrange p (List.mem_of_mem_take h)
    · intro pre c suf hl hpre _
      exfalso; apply hmem; rw [hl]; simp
    · intro _
      exact hperm.symm.subset (by simp)

/-- Witness for C20: selecting the emoji that holds the counter `0x8000`. -/
theorem C20_counters_bounded_witness :
    ∃ r, mouseReleaseEvent_recent 3 [(0, 0x8000), (1, 3), (2, 1)] 0 = some r ∧
      (∀ p ∈ r, 1 ≤ p.2 ∧ p.2 ≤ 0x8000) ∧
      (∀ pre c suf, ([(0, 0x8000), (1, 3), (2, 1)] : RecentEmojiPack)
          = pre ++ (0, c) :: suf → 0 ∉ pre.map Prod.fst →
        c + 1 > 0x8000 →
        r.Perm ((pre ++ (0, c + 1) :: suf).map
          (fun p => (p.1, if p.2 > 1 then p.2 / 2 else 1)))) ∧
      (0 ∉ ([(0, 0x8000), (1, 3), (2, 1)] : RecentEmojiPack).map Prod.fst → (0, 1) ∈ r) :=
  C20_counters_bounded 3 (by decide) [(0, 0x8000), (1, 3), (2, 1)] (by decide) 0

end EmojiPanInner

/-! ## Further lemmas on the mention and hashtag filter -/

namespace MentionsDropdown

theorem not_skipped_eq_keptBySpec (fold : Char → Char) (first : Char) (rest n : QString) :
    (!(skipped fold (first :: rest) n)) = keptBySpec fold (first :: rest) n := by
  unfold skipped keptBySpec
  simp only [List.length_cons, List.drop_succ_cons, List.drop_zero]
  by_cases hs : QString.startsWith fold n rest = true
  · have hle : rest.length ≤ n.length := by
      unfold QString.startsWith at hs
      simp only [Bool.and_eq_true, decide_eq_true_eq] at hs
      exact hs.1
    simp only [hs]
    by_cases h1 : rest.length = 0
    · simp [h1]
    · by_cases h2 : n.length = rest.length
      · have h0 : 0 < rest.length := by omega
        simp [h1, h2, h0]
      · have h3 : rest.length < n.length := by omega
        simp [h1, h2, h3]
  · simp only [Bool.not_eq_true] at hs
    by_cases h1 : rest.length = 0
    · simp [h1, hs]
    · have h4 : rest.length + 1 > 1 := by omega
      simp [h1, hs, h4]

/-- C11: with a non-empty filter text, the `continue` test of `updateFiltered` keeps a name
exactly when the filter has length `1` or the name starts with the filter without its first
character (case-insensitively) and is strictly longer than it; in `@` mode the rows are the
participants and last authors with a non-empty username that are kept, and in the other
mode the result is the recent-hashtag list filtered by this predicate, in the same order. -/
theorem C11_exact_filter_predicate (fold : Char → Char) (users : UserPtr → UserData)
    (onlineForSort : Int → Int → Int) (chat : ChatData) (recent : RecentHashtagPack)
    (first : Char) (rest : QString) (now : Int) :
    (∀ n, (!(skipped fold (first :: rest) n)) = keptBySpec fold (first :: rest) n) ∧
    (first = '@' → ∃ rows,
      updateFiltered fold users onlineForSort chat recent (first :: rest) now
        = some (rows, []) ∧
      ∀ u, (u ∈ rows ↔ ((u ∈ chat.participants ∨ u ∈ chat.lastAuthors) ∧
        (users u).username ≠ [] ∧
        keptBySpec fold (first :: rest) (users u).username = true))) ∧
    (first ≠ '@' →
      updateFiltered fold users onlineForSort chat recent (first :: rest) now
        = some ([], (recent.map Prod.fst).filter (keptBySpec fold (first :: rest)))) := by
  refine ⟨not_skipped_eq_keptBySpec fold first rest, ?_, ?_⟩
  · intro hfirst
    subst hfirst
    obtain ⟨tail, hrows, hperm, _⟩ := updateFiltered_at fold users onlineForSort chat recent
      rest now
    refine ⟨_, hrows, ?_⟩
    intro u
    have hkept : keptUser fold users ('@' :: rest) u = true ↔
        ((users u).username ≠ [] ∧ keptBySpec fold ('@' :: rest) (users u).username = true) := by
      unfold keptUser
      rw [← not_skipped_eq_keptBySpec, Bool.and_eq_true]
      cases (users u).username with
      | nil => simp
      | cons a l => simp
    rw [List.mem_append, hperm.mem_iff]
    simp only [List.mem_filter, Bool.and_eq_true, decide_eq_true_eq, hkept]
    constructor
    · rintro (h | h)
      · exact ⟨Or.inr h.1, h.2⟩
      · exact ⟨Or.inl h.1, h.2.1⟩
    · rintro ⟨hc, hk⟩
      by_cases hla : u ∈ chat.lastAuthors
      · exact Or.inl ⟨hla, hk⟩
      · rcases hc with hc | hc
        · exact Or.inr ⟨hc, hk, fun h => hla h.1⟩
        · exact absurd hc hla
  · intro hfirst
    rw [updateFiltered_hash fold users onlineForSort chat recent first rest now hfirst,
      List.filter_map]
    congr 3
    apply List.filter_congr
    intro e _
    exact not_skipped_eq_keptBySpec fold first rest e.1

end MentionsDropdown

/-! ## Lemmas on the mention list -/

namespace MentionsInner

/-- C13 fails on the code: with one row of height `30` and the cursor one pixel above the
list (`y = -1`), the truncating division gives row `0`, so the first row is selected
although the cursor lies in no row. -/
theorem C13_cursor_above_selects_first_row :
    (onUpdateSelected 30 200 30 [7] [] true 10 (-1) ⟨-1, true, false⟩)._sel = 0 ∧
      ¬ (0 ≤ (-1 : Int) ∧ (-1 : Int) < 1 * 30) := by
  decide

/-- C19: with `n` rows and selection `s` inside `[0, n)`, `moveSel(-1)` moves to `s - 1` or
stays at `0`, `moveSel(+1)` moves to `s + 1` or to `-1` past the last row, and both return
`true`; with `s` outside `[0, n)`, `moveSel(-1)` selects `n - 1` and returns `true` exactly
when `n > 0`, and `moveSel(+1)` leaves the selection and returns `false`. -/
theorem C19_moveSel (rows : MentionRows) (hrows : HashtagRows) (s : MentionsInner) :
    ((0 ≤ s._sel ∧ s._sel < maxSel rows hrows) →
      ((moveSel rows hrows (-1) s).2 = true ∧
        (moveSel rows hrows (-1) s).1._sel = (if s._sel > 0 then s._sel - 1 else 0)) ∧
      ((moveSel rows hrows 1 s).2 = true ∧
        (moveSel rows hrows 1 s).1._sel
          = (if s._sel + 1 < maxSel rows hrows then s._sel + 1 else -1))) ∧
    (¬ (0 ≤ s._sel ∧ s._sel < maxSel rows hrows) →
      ((moveSel rows hrows (-1) s).1._sel = maxSel rows hrows - 1 ∧
        ((moveSel rows hrows (-1) s).2 = true ↔ maxSel rows hrows > 0)) ∧
      ((moveSel rows hrows 1 s).1._sel = s._sel ∧ (moveSel rows hrows 1 s).2 = false)) := by
  simp only [moveSel, setSel]
  generalize maxSel rows hrows = n
  have hneg : (-1 : Int) < 0 := by decide
  have hpos : ¬ (1 : Int) < 0 := by decide
  have hpos2 : (1 : Int) > 0 := by decide
  have hneg2 : ¬ (-1 : Int) > 0 := by decide
  constructor
  · rintro ⟨h0, hn⟩
    have hc : ¬ (s._sel ≥ n ∨ s._sel < 0) := by omega
    simp only [hc, if_false, hpos2, hneg2, or_true, or_false, if_true, true_and]
    constructor
    · by_cases hp : s._sel > 0
      · have h1 : ¬ s._sel + -1 ≥ n := by omega
        simp only [hp, if_true, h1, if_false]
        omega
      · simp only [hp, if_false]
        omega
    · by_cases h2 : s._sel + 1 < n
      · have h3 : ¬ s._sel + 1 ≥ n := by omega
        simp only [h2, h3, if_true, if_false]
      · have h3 : s._sel + 1 ≥ n := by omega
        simp only [h2, h3, if_true, if_false]
  · intro hout
    have hc : s._sel ≥ n ∨ s._sel < 0 := by omega
    simp only [hc, if_true, hneg, hpos, if_false, decide_eq_true_eq, decide_eq_false_iff_not,
      true_and]
    refine ⟨?_, ?_⟩
    · omega
    · omega

end MentionsInner

namespace MentionsDropdown

theorem recountInner_fields (h0 : Int) (p : MentionsDropdown × Int) :
    (recountInner h0 p).1.innerHeight = h0 ∧
      (recountInner h0 p).1.boundingsHeight = p.1.boundingsHeight := by
  unfold recountInner
  split_ifs with h
  · exact ⟨rfl, rfl⟩
  · exact ⟨not_not.1 h, rfl⟩

theorem recountGeometry_fields (h : Int) (p : MentionsDropdown × Int) :
    (recountGeometry h p).1.innerHeight = p.1.innerHeight ∧
      (recountGeometry h p).1.height = h ∧
      (recountGeometry h p).1.y = p.1.boundingsHeight - h := by
  unfold recountGeometry
  split_ifs with h1 h2
  · exact ⟨rfl, rfl, rfl⟩
  · exact ⟨rfl, not_not.1 h1, rfl⟩
  · exact ⟨rfl, not_not.1 h1, not_not.1 h2⟩

theorem recountScroll_fields (scrollTopMax oldst : Int) (toDown : Bool)
    (p : MentionsDropdown × Int) :
    (recountScroll scrollTopMax oldst toDown p).innerHeight = p.1.innerHeight ∧
      (recountScroll scrollTopMax oldst toDown p).height = p.1.height ∧
      (recountScroll scrollTopMax oldst toDown p).y = p.1.y := by
  unfold recountScroll
  dsimp only
  split_ifs <;> exact ⟨rfl, rfl, rfl⟩

theorem recountHeight_eq (mentionHeight boundingsHeight h0 : Int) :
    recountHeight mentionHeight boundingsHeight h0
      = min (min h0 boundingsHeight) (5 * mentionHeight) := by
  unfold recountHeight
  dsimp only
  split_ifs <;> omega

/-- C16: after `recount` the inner list is `n * mentionHeight` high for `n` rows, the
dropdown is `min(n * mentionHeight, boundings.height, 5 * mentionHeight)` high, and its top
is `boundings.height` minus that height. -/
theorem C16_recount_geometry (mentionHeight scrollTopMax : Int) (toDown : Bool)
    (d : MentionsDropdown) :
    (recount mentionHeight scrollTopMax toDown d).innerHeight
        = MentionsInner.maxSel d._rows d._hrows * mentionHeight ∧
      (recount mentionHeight scrollTopMax toDown d).height
        = min (min (MentionsInner.maxSel d._rows d._hrows * mentionHeight) d.boundingsHeight)
            (5 * mentionHeight) ∧
      (recount mentionHeight scrollTopMax toDown d).y
        = d.boundingsHeight - (recount mentionHeight scrollTopMax toDown d).height := by
  unfold recount
  dsimp only
  generalize MentionsInner.maxSel d._rows d._hrows * mentionHeight = h0
  have h1 := recountInner_fields h0 (d, d.scrollTop)
  have h2 := recountGeometry_fields (recountHeight mentionHeight d.boundingsHeight h0)
    (recountInner h0 (d, d.scrollTop))
  have h3 := recountScroll_fields scrollTopMax d.scrollTop toDown
    (recountGeometry (recountHeight mentionHeight d.boundingsHeight h0)
      (recountInner h0 (d, d.scrollTop)))
  rw [h3.1, h3.2.1, h3.2.2, h2.1, h2.2.1, h2.2.2, h1.1, h1.2, recountHeight_eq]
  exact ⟨rfl, rfl, rfl⟩

end MentionsDropdown

/-! ## Lemmas on the dropdown keyboard navigation -/

namespace Dropdown

theorem scanPos_down (start size j : Int) (h0 : 0 ≤ start) (h1 : start < size)
    (hj0 : 0 ≤ j) (hj : j ≤ size) :
    (start + 1 * j) % size = if start + j < size then start + j else start + j - size := by
  rw [one_mul]
  split_ifs with h
  · exact Int.emod_eq_of_lt (by omega) h
  · have h2 : start + j = (start + j - size) + 1 * size := by ring
    rw [h2, Int.add_mul_emod_self, ← h2]
    exact Int.emod_eq_of_lt (by omega) (by omega)

theorem scanPos_up (start size j : Int) (h0 : 0 ≤ start) (h1 : start < size)
    (hj0 : 0 ≤ j) (hj : j ≤ size) :
    (start + (-1) * j) % size = if 0 ≤ start - j then start - j else start - j + size := by
  have h3 : start + (-1) * j = start - j := by ring
  rw [h3]
  split_ifs with h
  · exact Int.emod_eq_of_lt h (by omega)
  · have h2 : start - j = (start - j + size) + (-1) * size := by ring
    rw [h2, Int.add_mul_emod_self, ← h2]
    exact Int.emod_eq_of_lt (by omega) (by omega)

theorem scanPos_facts (start size delta j : Int) (hd : delta = 1 ∨ delta = -1)
    (h0 : 0 ≤ start) (h1 : start < size) (hj0 : 0 ≤ j) (hj : j < size) :
    0 ≤ (start + delta * j) % size ∧ (start + delta * j) % size < size ∧
      wrapSelected size ((start + delta * j) % size + delta)
        = (start + delta * (j + 1)) % size ∧
      (0 < j → (start + delta * j) % size ≠ start) ∧
      (j + 1 = size → (start + delta * (j + 1)) % size = start) := by
  rcases hd with hd | hd
  · subst hd
    rw [scanPos_down start size j h0 h1 hj0 (by omega),
      scanPos_down start size (j + 1) h0 h1 (by omega) (by omega)]
    unfold wrapSelected
    refine ⟨?_, ?_, ?_, ?_, ?_⟩ <;> split_ifs <;> omega
  · subst hd
    rw [scanPos_up start size j h0 h1 hj0 (by omega),
      scanPos_up start size (j + 1) h0 h1 (by omega) (by omega)]
    unfold wrapSelected
    refine ⟨?_, ?_, ?_, ?_, ?_⟩ <;> split_ifs <;> omega

theorem isHiddenAt_of_range (buttons : List IconedButton) (i : Int) (h0 : 0 ≤ i)
    (h1 : i < buttons.length) :
    ∃ b, buttons[i.toNat]? = some b ∧ isHiddenAt buttons i = some b.hidden := by
  have hlt : i.toNat < buttons.length := by omega
  refine ⟨buttons[i.toNat], List.getElem?_eq_getElem hlt, ?_⟩
  unfold isHiddenAt
  rw [if_neg (by omega), List.getElem?_eq_getElem hlt]
  rfl

theorem scanLoop_found (buttons : List IconedButton) (delta start : Int)
    (hd : delta = 1 ∨ delta = -1) (h0 : 0 ≤ start) (h1 : start < buttons.length)
    (j : Nat) (hj : (j : Int) < buttons.length)
    (hvis : isHiddenAt buttons ((start + delta * j) % buttons.length) = some false)
    (fuel k : Nat) (hk : k ≤ j) (hfuel : j - k < fuel)
    (hhid : ∀ i : Nat, k ≤ i → i < j →
      isHiddenAt buttons ((start + delta * i) % buttons.length) = some true) :
    scanLoop buttons delta start fuel ((start + delta * k) % buttons.length)
      = some (some ((start + delta * j) % buttons.length)) := by
  induction fuel generalizing k with
  | zero => omega
  | succ n ih =>
    unfold scanLoop
    by_cases hkj : k = j
    · subst hkj
      rw [hvis]
    · have hlt : k < j := by omega
      have hf := scanPos_facts start buttons.length delta k hd h0 h1 (by omega) (by omega)
      have hf2 := scanPos_facts start buttons.length delta (k + 1) hd h0 h1 (by omega)
        (by omega)
      rw [hhid k (le_refl _) hlt]
      simp only []
      rw [hf.2.2.1]
      have hne : (start + delta * ((k : Int) + 1)) % (buttons.length : Int) ≠ start :=
        hf2.2.2.2.1 (by omega)
      rw [if_neg hne]
      have hcast : ((k : Int) + 1) = ((k + 1 : Nat) : Int) := by push_cast; ring
      rw [hcast]
      exact ih (k + 1) (by omega) (by omega)
        (fun i hi1 hi2 => hhid i (by omega) hi2)

theorem scanLoop_all_hidden (buttons : List IconedButton) (delta start : Int)
    (hd : delta = 1 ∨ delta = -1) (h0 : 0 ≤ start) (h1 : start < buttons.length)
    (fuel k : Nat) (hk : k < buttons.length) (hfuel : buttons.length - k ≤ fuel)
    (hhid : ∀ i : Nat, k ≤ i → i < buttons.length →
      isHiddenAt buttons ((start + delta * i) % buttons.length) = some true) :
    scanLoop buttons delta start fuel ((start + delta * k) % buttons.length) = some none := by
  induction fuel generalizing k with
  | zero => omega
  | succ n ih =>
    unfold scanLoop
    have hf := scanPos_facts start buttons.length delta k hd h0 h1 (by omega) (by omega)
    rw [hhid k (le_refl _) hk]
    simp only []
    rw [hf.2.2.1]
    by_cases hlast : k + 1 = buttons.length
    · have hst := hf.2.2.2.2 (by omega)
      rw [if_pos hst]
    · have hf2 := scanPos_facts start buttons.length delta (k + 1) hd h0 h1 (by omega)
        (by omega)
      have hne : (start + delta * ((k : Int) + 1)) % (buttons.length : Int) ≠ start :=
        hf2.2.2.2.1 (by omega)
      rw [if_neg hne]
      have hcast : ((k : Int) + 1) = ((k + 1 : Nat) : Int) := by push_cast; ring
      rw [hcast]
      exact ih (k + 1) (by omega) (by omega) (fun i hi1 hi2 => hhid i (by omega) hi2)

theorem scanStart_range (size : Int) (hsize : 1 ≤ size) (down : Bool) (selected : Int) :
    0 ≤ scanStart size down selected ∧ scanStart size down selected < size := by
  unfold scanStart wrapSelected
  cases down <;> simp only [] <;> split_ifs <;> simp_all <;> omega

theorem scanStart_eq (size : Int) (hsize : 1 ≤ size) (down : Bool) (selected : Int) :
    scanStart size down selected
      = if selected < 0 ∨ selected ≥ size then (if down then 0 else size - 1)
        else (selected + (if down then 1 else -1)) % size := by
  by_cases hnone : selected < 0 ∨ selected ≥ size
  · rw [if_pos hnone]
    unfold scanStart wrapSelected
    cases down <;> simp [hnone]
  · rw [if_neg hnone]
    have h0 : 0 ≤ selected := by omega
    have h1 : selected < size := by omega
    cases down
    · have h := scanPos_up selected size 1 h0 h1 (by omega) hsize
      simp only [mul_one] at h
      simp only [Bool.false_eq_true, if_false]
      rw [h]
      unfold scanStart wrapSelected
      simp only [hnone, decide_False, Bool.false_eq_true, if_false]
      split_ifs <;> omega
    · have h := scanPos_down selected size 1 h0 h1 (by omega) hsize
      simp only [mul_one] at h
      simp only [if_true]
      rw [h]
      unfold scanStart wrapSelected
      simp only [hnone, decide_False, Bool.false_eq_true, if_false, if_true]
      split_ifs <;> omega

theorem scanPos_surjective (start size delta m : Int) (hd : delta = 1 ∨ delta = -1)
    (h0 : 0 ≤ start) (h1 : start < size) (hm0 : 0 ≤ m) (hm : m < size) :
    ∃ j : Nat, (j : Int) < size ∧ (start + delta * j) % size = m := by
  rcases hd with hd | hd
  · subst hd
    by_cases hge : start ≤ m
    · refine ⟨(m - start).toNat, by omega, ?_⟩
      rw [scanPos_down start size _ h0 h1 (by omega) (by omega)]
      split_ifs <;> omega
    · refine ⟨(m - start + size).toNat, by omega, ?_⟩
      rw [scanPos_down start size _ h0 h1 (by omega) (by omega)]
      split_ifs <;> omega
  · subst hd
    by_cases hge : m ≤ start
    · refine ⟨(start - m).toNat, by omega, ?_⟩
      rw [scanPos_up start size _ h0 h1 (by omega) (by omega)]
      split_ifs <;> omega
    · refine ⟨(start - m + size).toNat, by omega, ?_⟩
      rw [scanPos_up start size _ h0 h1 (by omega) (by omega)]
      split_ifs <;> omega

theorem updateButton_some (buttons : List IconedButton) (i : Int)
    (f : IconedButton → IconedButton) (h0 : 0 ≤ i) (h1 : i < buttons.length) :
    ∃ r, updateButton buttons i f = some r ∧ r.length = buttons.length := by
  have hlt : i.toNat < buttons.length := by omega
  refine ⟨buttons.set i.toNat (f buttons[i.toNat]), ?_, by simp⟩
  unfold updateButton
  rw [if_neg (by omega), List.getElem?_eq_getElem hlt]

theorem keyPressEvent_arrow (s : Dropdown) (down : Bool) (hne : s._buttons ≠ []) :
    keyPressEvent (if down then Key.Down else Key.Up) s
      = match scanLoop s._buttons (if down then 1 else -1)
          (scanStart s._buttons.length down s._selected) s._buttons.length
          (scanStart s._buttons.length down s._selected) with
        | Option.none => Option.none
        | some Option.none => some s
        | some (some newSelected) =>
          match (if decide (s._selected < 0 ∨ s._selected ≥ s._buttons.length) then
                  some s._buttons
                else updateButton s._buttons s._selected (fun b => b.setOver false)) with
          | Option.none => Option.none
          | some buttons1 =>
            match updateButton buttons1 newSelected (fun b => b.setOver true) with
            | Option.none => Option.none
            | some buttons2 => some { s with _selected := newSelected, _buttons := buttons2 } := by
  have hlen : ¬ ((s._buttons.length : Int) < 1) := by
    have := List.length_pos.2 hne
    omega
  cases down <;> simp [keyPressEvent, hlen]

/-- C18: for a non-empty button list, `Key_Down` or `Key_Up` is handled within
`_buttons.size()` loop tests and with every index in range; the scan starts at the old
selection plus delta (wrapped), or at index `0` for Down and the last index for Up when
nothing valid was selected; the new selection is the first non-hidden button met when
stepping cyclically from there, and when every button is hidden the selection is unchanged. -/
theorem C18_arrow_navigation (s : Dropdown) (down : Bool) (hne : s._buttons ≠ []) :
    ∃ s', keyPressEvent (if down then Key.Down else Key.Up) s = some s' ∧
      (scanStart s._buttons.length down s._selected
        = if s._selected < 0 ∨ s._selected ≥ s._buttons.length then
            (if down then 0 else (s._buttons.length : Int) - 1)
          else (s._selected + (if down then 1 else -1)) % (s._buttons.length : Int)) ∧
      ((∀ b ∈ s._buttons, b.hidden = true) → s'._selected = s._selected) ∧
      ((∃ b ∈ s._buttons, b.hidden = false) →
        ∃ j : Nat, j < s._buttons.length ∧
          s'._selected = (scanStart s._buttons.length down s._selected
            + (if down then 1 else -1) * j) % (s._buttons.length : Int) ∧
          isHiddenAt s._buttons s'._selected = some false ∧
          ∀ i : Nat, i < j →
            isHiddenAt s._buttons ((scanStart s._buttons.length down s._selected
              + (if down then 1 else -1) * i) % (s._buttons.length : Int)) = some true) := by
  have hpos : 0 < s._buttons.length := List.length_pos.2 hne
  have hsize : (1 : Int) ≤ (s._buttons.length : Int) := by omega
  have hd : (if down then (1 : Int) else -1) = 1 ∨ (if down then (1 : Int) else -1) = -1 := by
    cases down <;> simp
  obtain ⟨hs0, hs1⟩ := scanStart_range s._buttons.length hsize down s._selected
  have hstart := scanStart_eq s._buttons.length hsize down s._selected
  rw [keyPressEvent_arrow s down hne]
  generalize scanStart s._buttons.length down s._selected = start at hs0 hs1 hstart ⊢
  generalize (if down then (1 : Int) else -1) = delta at hd hstart ⊢
  have hP0 : (start + delta * ((0 : Nat) : Int)) % (s._buttons.length : Int) = start := by
    simp only [Nat.cast_zero, mul_zero, add_zero]
    exact Int.emod_eq_of_lt hs0 hs1
  have hrange : ∀ i : Nat, i < s._buttons.length →
      ∃ b, b ∈ s._buttons ∧
        isHiddenAt s._buttons ((start + delta * i) % (s._buttons.length : Int))
          = some b.hidden := by
    intro i hi
    have hf := scanPos_facts start s._buttons.length delta i hd hs0 hs1 (by omega) (by omega)
    obtain ⟨b, hb1, hb2⟩ := isHiddenAt_of_range s._buttons _ hf.1 hf.2.1
    exact ⟨b, List.getElem?_mem hb1, hb2⟩
  by_cases hvis : ∃ b ∈ s._buttons, b.hidden = false
  · obtain ⟨b, hb, hbv⟩ := hvis
    obtain ⟨m, hm, hmb⟩ := List.getElem_of_mem hb
    obtain ⟨j0, hj0, hj0m⟩ := scanPos_surjective start s._buttons.length delta m hd hs0 hs1
      (by omega) (by omega)
    have hex : ∃ j : Nat, j < s._buttons.length ∧
        isHiddenAt s._buttons ((start + delta * j) % (s._buttons.length : Int))
          = some false := by
      refine ⟨j0, by omega, ?_⟩
      rw [hj0m]
      obtain ⟨b2, hb2, hb3⟩ := isHiddenAt_of_range s._buttons m (by omega) (by omega)
      rw [hb3]
      have hb4 : s._buttons[(m : Int).toNat]? = some b := by
        rw [Int.toNat_ofNat, List.getElem?_eq_getElem hm, hmb]
      rw [hb4] at hb2
      rw [← Option.some.inj hb2, hbv]
    classical
    have hjspec := Nat.find_spec hex
    have hjmin := fun i (hi : i < Nat.find hex) => Nat.find_min hex hi
    generalize Nat.find hex = j at hjspec hjmin
    have hhid : ∀ i : Nat, i < j →
        isHiddenAt s._buttons ((start + delta * i) % (s._buttons.length : Int))
          = some true := by
      intro i hi
      obtain ⟨b2, _, hb2⟩ := hrange i (by omega)
      have hn := hjmin i hi
      rw [hb2] at hn ⊢
      cases hh : b2.hidden with
      | true => rfl
      | false => exact absurd ⟨by omega, by rw [hh]⟩ hn
    have hscan := scanLoop_found s._buttons delta start hd hs0 hs1 j (by omega) hjspec.2
      s._buttons.length 0 (Nat.zero_le _) (by omega) (fun i _ hi => hhid i hi)
    rw [hP0] at hscan
    rw [hscan]
    have hf := scanPos_facts start s._buttons.length delta j hd hs0 hs1 (by omega) (by omega)
    have hb1 : ∃ buttons1, (if decide (s._selected < 0 ∨ s._selected ≥ s._buttons.length) then
          some s._buttons
        else updateButton s._buttons s._selected (fun b => b.setOver false)) = some buttons1 ∧
        buttons1.length = s._buttons.length := by
      by_cases hnone : s._selected < 0 ∨ s._selected ≥ s._buttons.length
      · exact ⟨s._buttons, by simp [hnone], rfl⟩
      · obtain ⟨r, hr1, hr2⟩ := updateButton_some s._buttons s._selected
          (fun b => b.setOver false) (by omega) (by omega)
        exact ⟨r, by simp [hnone, hr1], hr2⟩
    obtain ⟨buttons1, hb1e, hb1l⟩ := hb1
    obtain ⟨buttons2, hb2e, _⟩ := updateButton_some buttons1
      ((start + delta * j) % (s._buttons.length : Int)) (fun b => b.setOver true) hf.1
      (by rw [hb1l]; exact hf.2.1)
    simp only [hb1e, hb2e]
    refine ⟨_, rfl, hstart, ?_, ?_⟩
    · intro hall
      rw [hall b hb] at hbv
      exact absurd hbv (by decide)
    · intro _
      exact ⟨j, hjspec.1, rfl, hjspec.2, hhid⟩
  · have hall : ∀ b ∈ s._buttons, b.hidden = true := by
      intro b hb
      cases hh : b.hidden with
      | true => rfl
      | false => exact absurd ⟨b, hb, hh⟩ hvis
    have hscan := scanLoop_all_hidden s._buttons delta start hd hs0 hs1 s._buttons.length 0
      hpos (by omega) (fun i _ hi => by
        obtain ⟨b, hb, hb2⟩ := hrange i hi
        rw [hb2, hall b hb])
    rw [hP0] at hscan
    rw [hscan]
    exact ⟨s, rfl, hstart, fun _ => rfl, fun h => absurd h hvis⟩

/-- Witness for C18: `Key_Down` on a menu of four buttons whose two middle ones are hidden. -/
theorem C18_arrow_navigation_witness :
    ∃ s', keyPressEvent (if true then Key.Down else Key.Up) sampleMenu = some s' ∧
      (scanStart sampleMenu._buttons.length true sampleMenu._selected
        = if sampleMenu._selected < 0 ∨ sampleMenu._selected ≥ sampleMenu._buttons.length then
            (if true then 0 else (sampleMenu._buttons.length : Int) - 1)
          else (sampleMenu._selected + (if true then 1 else -1))
            % (sampleMenu._buttons.length : Int)) ∧
      ((∀ b ∈ sampleMenu._buttons, b.hidden = true) → s'._selected = sampleMenu._selected) ∧
      ((∃ b ∈ sampleMenu._buttons, b.hidden = false) →
        ∃ j : Nat, j < sampleMenu._buttons.length ∧
          s'._selected = (scanStart sampleMenu._buttons.length true sampleMenu._selected
            + (if true then 1 else -1) * j) % (sampleMenu._buttons.length : Int) ∧
          isHiddenAt sampleMenu._buttons s'._selected = some false ∧
          ∀ i : Nat, i < j →
            isHiddenAt sampleMenu._buttons
              ((scanStart sampleMenu._buttons.length true sampleMenu._selected
                + (if true then 1 else -1) * i) % (sampleMenu._buttons.length : Int))
              = some true) :=
  C18_arrow_navigation sampleMenu true (by simp [sampleMenu])

end Dropdown

/-! ## Lemmas on the emoji pan -/

namespace EmojiPanInner

theorem updateSelected_of_hitTest (st : EmojiPanStyle) (s : EmojiPanInner) (px py : Int)
    (now : Nat) (r : Int × Int) (hr : hitTest st s px py = some r) :
    updateSelected st px py now s = some (applySelected now r.1 r.2 s) := by
  unfold updateSelected
  rw [hr]
  rfl

theorem updateSelected_selected (st : EmojiPanStyle) (s s' : EmojiPanInner) (px py : Int)
    (now : Nat) (r : Int × Int) (hr : hitTest st s px py = some r)
    (hs : updateSelected st px py now s = some s') : s'._selected = r.1 := by
  unfold updateSelected at hs
  rw [hr] at hs
  simp only [Option.map_some'] at hs
  rw [← Option.some.inj hs]
  rfl

theorem hitTest_emoji (st : EmojiPanStyle) (s : EmojiPanInner)
    (htab : s._tab ≠ DBIEmojiTab.dbietStickers) (hW : 0 < st.emojiPanWidth)
    (hH : 0 < st.emojiPanHeight) (px py : Int) :
    hitTest st s px py
      = some (if px ≥ 0 ∧ py ≥ 0 ∧ px < st.EmojiPadPerRow * st.emojiPanWidth then
          (if py / st.emojiPanHeight * st.EmojiPadPerRow + px / st.emojiPanWidth
              ≥ s._emojis.length then (-1, -1)
            else (py / st.emojiPanHeight * st.EmojiPadPerRow + px / st.emojiPanWidth, -1))
        else (-1, -1)) := by
  unfold hitTest
  rw [if_neg htab]
  by_cases hin : px ≥ 0 ∧ py ≥ 0 ∧ px < st.EmojiPadPerRow * st.emojiPanWidth
  · have hz : ¬ (st.emojiPanHeight = 0 ∨ st.emojiPanWidth = 0) := by omega
    rw [if_pos hin, if_pos hin, if_neg hz]
    simp only []
    rw [Int.tdiv_eq_ediv hin.2.1 (le_of_lt hH), Int.tdiv_eq_ediv hin.1 (le_of_lt hW)]
    split_ifs <;> rfl
  · rw [if_neg hin, if_neg hin]

/-- C12: on an emoji tab with cells of `W x H` pixels (`W, H > 0`) in `EmojiPadPerRow > 0`
columns, every point inside the cell where `paintEvent` draws emoji `k` (column
`k mod perRow`, row `k div perRow`) makes `updateSelected` select `k`; every point with
`x < 0`, `y < 0`, `x ≥ perRow * W` or with a cell index not below the number of emojis gives
`-1`; so the selection is always `-1` or a valid index. -/
theorem C12_hit_test_inverts_paint (st : EmojiPanStyle) (s : EmojiPanInner) (now : Nat)
    (htab : s._tab ≠ DBIEmojiTab.dbietStickers) (hW : 0 < st.emojiPanWidth)
    (hH : 0 < st.emojiPanHeight) (hper : 0 < st.EmojiPadPerRow) :
    (∀ (k : Nat) (x y : Int), k < s._emojis.length →
      ((k : Int) % st.EmojiPadPerRow) * st.emojiPanWidth ≤ x →
      x < ((k : Int) % st.EmojiPadPerRow + 1) * st.emojiPanWidth →
      ((k : Int) / st.EmojiPadPerRow) * st.emojiPanHeight ≤ y →
      y < ((k : Int) / st.EmojiPadPerRow + 1) * st.emojiPanHeight →
      ∃ s', updateSelected st x y now s = some s' ∧ s'._selected = k) ∧
    (∀ x y : Int, (x < 0 ∨ y < 0 ∨ x ≥ st.EmojiPadPerRow * st.emojiPanWidth ∨
        y / st.emojiPanHeight * st.EmojiPadPerRow + x / st.emojiPanWidth ≥ s._emojis.length) →
      ∃ s', updateSelected st x y now s = some s' ∧ s'._selected = -1) ∧
    (∀ x y : Int, ∃ s', updateSelected st x y now s = some s' ∧
      (s'._selected = -1 ∨ (0 ≤ s'._selected ∧ s'._selected < s._emojis.length))) := by
  have hsome : ∀ x y : Int, ∃ s' r, hitTest st s x y = some r ∧
      updateSelected st x y now s = some s' := by
    intro x y
    have hr := hitTest_emoji st s htab hW hH x y
    exact ⟨_, _, hr, updateSelected_of_hitTest st s x y now _ hr⟩
  refine ⟨?_, ?_, ?_⟩
  · intro k x y hk hx0 hx1 hy0 hy1
    obtain ⟨s', r, hr, hs⟩ := hsome x y
    refine ⟨s', hs, ?_⟩
    rw [updateSelected_selected st s s' x y now r hr hs]
    rw [hitTest_emoji st s htab hW hH x y] at hr
    rw [← Option.some.inj hr]
    have hcol0 : 0 ≤ (k : Int) % st.EmojiPadPerRow := Int.emod_nonneg _ (by omega)
    have hcol1 : (k : Int) % st.EmojiPadPerRow < st.EmojiPadPerRow := Int.emod_lt_of_pos _ hper
    have hrow0 : 0 ≤ (k : Int) / st.EmojiPadPerRow := Int.ediv_nonneg (by omega) (by omega)
    have hxdiv : x / st.emojiPanWidth = (k : Int) % st.EmojiPadPerRow := by
      apply le_antisymm
      · exact Int.lt_add_one_iff.1 ((Int.ediv_lt_iff_lt_mul hW).2 hx1)
      · exact (Int.le_ediv_iff_mul_le hW).2 hx0
    have hydiv : y / st.emojiPanHeight = (k : Int) / st.EmojiPadPerRow := by
      apply le_antisymm
      · exact Int.lt_add_one_iff.1 ((Int.ediv_lt_iff_lt_mul hH).2 hy1)
      · exact (Int.le_ediv_iff_mul_le hH).2 hy0
    have hx : x ≥ 0 := le_trans (mul_nonneg hcol0 (le_of_lt hW)) hx0
    have hy : y ≥ 0 := le_trans (mul_nonneg hrow0 (le_of_lt hH)) hy0
    have hxlt : x < st.EmojiPadPerRow * st.emojiPanWidth :=
      lt_of_lt_of_le hx1 (mul_le_mul_of_nonneg_right (by omega) (le_of_lt hW))
    have hidx : y / st.emojiPanHeight * st.EmojiPadPerRow + x / st.emojiPanWidth = k := by
      rw [hxdiv, hydiv]
      exact Int.ediv_add_emod' _ _
    rw [if_pos ⟨hx, hy, hxlt⟩, hidx, if_neg (by omega)]
  · intro x y hout
    obtain ⟨s', r, hr, hs⟩ := hsome x y
    refine ⟨s', hs, ?_⟩
    rw [updateSelected_selected st s s' x y now r hr hs]
    rw [hitTest_emoji st s htab hW hH x y] at hr
    rw [← Option.some.inj hr]
    by_cases hin : x ≥ 0 ∧ y ≥ 0 ∧ x < st.EmojiPadPerRow * st.emojiPanWidth
    · have hge : y / st.emojiPanHeight * st.EmojiPadPerRow + x / st.emojiPanWidth
          ≥ s._emojis.length := by
        rcases hout with h | h | h | h
        · omega
        · omega
        · omega
        · exact h
      rw [if_pos hin, if_pos hge]
    · rw [if_neg hin]
  · intro x y
    obtain ⟨s', r, hr, hs⟩ := hsome x y
    refine ⟨s', hs, ?_⟩
    rw [updateSelected_selected st s s' x y now r hr hs]
    rw [hitTest_emoji st s htab hW hH x y] at hr
    rw [← Option.some.inj hr]
    by_cases hin : x ≥ 0 ∧ y ≥ 0 ∧ x < st.EmojiPadPerRow * st.emojiPanWidth
    · rw [if_pos hin]
      by_cases hge : y / st.emojiPanHeight * st.EmojiPadPerRow + x / st.emojiPanWidth
          ≥ s._emojis.length
      · rw [if_pos hge]; exact Or.inl rfl
      · rw [if_neg hge]
        refine Or.inr ⟨?_, by simp only []; omega⟩
        have h1 : 0 ≤ y / st.emojiPanHeight := Int.ediv_nonneg hin.2.1 (le_of_lt hH)
        have h2 : 0 ≤ x / st.emojiPanWidth := Int.ediv_nonneg hin.1 (le_of_lt hW)
        exact add_nonneg (mul_nonneg h1 (le_of_lt hper)) h2
    · rw [if_neg hin]; exact Or.inl rfl

end EmojiPanInner

theorem QMap.contains_cons (j : Int) (e : Int × Nat) (m : List (Int × Nat)) :
    QMap.contains j (e :: m) = (decide (j = e.1) || QMap.contains j m) := by
  unfold QMap.contains
  rw [List.any_cons]
  congr 1
  exact decide_eq_decide.2 eq_comm

theorem QMap.contains_remove (j k : Int) (m : List (Int × Nat)) :
    QMap.contains j (QMap.remove k m) = (decide (j ≠ k) && QMap.contains j m) := by
  rw [Bool.eq_iff_iff]
  simp only [QMap.contains, QMap.remove, List.any_eq_true, List.mem_filter, Bool.and_eq_true,
    decide_eq_true_eq]
  constructor
  · rintro ⟨e, ⟨he, hne⟩, rfl⟩
    exact ⟨hne, e, he, rfl⟩
  · rintro ⟨hne, e, he, rfl⟩
    exact ⟨e, ⟨he, hne⟩, rfl⟩

theorem QMap.contains_insert (j k : Int) (v : Nat) (m : List (Int × Nat)) :
    QMap.contains j (QMap.insert k v m) = (decide (j = k) || QMap.contains j m) := by
  induction m with
  | nil => rw [QMap.insert, QMap.contains_cons]
  | cons e rest ih =>
    unfold QMap.insert
    split_ifs with h1 h2
    · rw [QMap.contains_cons]
    · rw [QMap.contains_cons, QMap.contains_cons, ← h2, ← Bool.or_assoc, Bool.or_self]
    · rw [QMap.contains_cons, QMap.contains_cons, ih, Bool.or_left_comm]

namespace EmojiPanInner

theorem NoOpposite_nil : NoOpposite [] := by
  intro i h
  simp [QMap.contains] at h

theorem NoOpposite_remove (k : Int) (m : List (Int × Nat)) (h : NoOpposite m) :
    NoOpposite (QMap.remove k m) := by
  intro i hi
  rw [QMap.contains_remove, QMap.contains_remove] at hi
  simp only [Bool.and_eq_true] at hi
  exact h i ⟨hi.1.2, hi.2.2⟩

theorem NoOpposite_insert (k : Int) (v : Nat) (m : List (Int × Nat)) (h : NoOpposite m)
    (hk : QMap.contains (-k) m = false) : NoOpposite (QMap.insert k v m) := by
  intro i hi
  rw [QMap.contains_insert, QMap.contains_insert] at hi
  simp only [Bool.or_eq_true, decide_eq_true_eq] at hi
  rcases hi with ⟨h1 | h1, h2 | h2⟩
  · omega
  · have hk2 : -k = -((i : Int) + 1) := by omega
    rw [hk2, h2] at hk
    exact absurd hk (by decide)
  · have hk2 : -k = (i : Int) + 1 := by omega
    rw [hk2, h1] at hk
    exact absurd hk (by decide)
  · exact h i ⟨h1, h2⟩

theorem fadeOut_spec (now : Nat) (sel : Int) (m : List (Int × Nat)) (h : NoOpposite m) :
    NoOpposite (fadeOut now sel m) ∧
      (0 ≤ sel → QMap.contains (sel + 1) (fadeOut now sel m) = false) := by
  have hrem : QMap.contains (sel + 1) (QMap.remove (sel + 1) m) = false := by
    rw [QMap.contains_remove]; simp
  unfold fadeOut
  dsimp only
  split_ifs with hc
  · exact ⟨NoOpposite_remove _ m h, fun _ => hrem⟩
  · refine ⟨NoOpposite_insert _ _ _ (NoOpposite_remove _ m h) ?_, ?_⟩
    · have hneg : -(-sel - 1) = sel + 1 := by ring
      rw [hneg]; exact hrem
    · intro hsel
      rw [QMap.contains_insert, hrem]
      have hne : ¬ sel + 1 = -sel - 1 := by omega
      simp [hne]

theorem fadeIn_spec (now : Nat) (sel : Int) (m : List (Int × Nat)) (h : NoOpposite m) :
    NoOpposite (fadeIn now sel m) ∧
      (0 ≤ sel → QMap.contains (-sel - 1) (fadeIn now sel m) = false) := by
  have hrem : QMap.contains (-sel - 1) (QMap.remove (-sel - 1) m) = false := by
    rw [QMap.contains_remove]; simp
  unfold fadeIn
  dsimp only
  split_ifs with hc
  · exact ⟨NoOpposite_remove _ m h, fun _ => hrem⟩
  · refine ⟨NoOpposite_insert _ _ _ (NoOpposite_remove _ m h) ?_, ?_⟩
    · have hneg : -(sel + 1) = -sel - 1 := by ring
      rw [hneg]; exact hrem
    · intro hsel
      rw [QMap.contains_insert, hrem]
      have hne : ¬ -sel - 1 = sel + 1 := by omega
      simp [hne]

theorem fadeOut_removes (now : Nat) (sel : Int) (m : List (Int × Nat)) (hsel : 0 ≤ sel) :
    QMap.contains (sel + 1) (fadeOut now sel m) = false := by
  have hrem : QMap.contains (sel + 1) (QMap.remove (sel + 1) m) = false := by
    rw [QMap.contains_remove]; simp
  unfold fadeOut
  dsimp only
  split_ifs with hc
  · exact hrem
  · rw [QMap.contains_insert, hrem]
    have hne : ¬ sel + 1 = -sel - 1 := by omega
    simp [hne]

theorem fadeIn_removes (now : Nat) (sel : Int) (m : List (Int × Nat)) (hsel : 0 ≤ sel) :
    QMap.contains (-sel - 1) (fadeIn now sel m) = false := by
  have hrem : QMap.contains (-sel - 1) (QMap.remove (-sel - 1) m) = false := by
    rw [QMap.contains_remove]; simp
  unfold fadeIn
  dsimp only
  split_ifs with hc
  · exact hrem
  · rw [QMap.contains_insert, hrem]
    have hne : ¬ -sel - 1 = sel + 1 := by omega
    simp [hne]

theorem NoOpposite_moveSelection (now : Nat) (old new : Int) (m : List (Int × Nat))
    (h : NoOpposite m) : NoOpposite (moveSelection now old new m) := by
  unfold moveSelection
  dsimp only
  by_cases hne : new ≠ old
  · rw [if_pos hne]
    have h1 : NoOpposite (if old ≥ 0 then fadeOut now old m else m) := by
      split_ifs
      · exact (fadeOut_spec now old m h).1
      · exact h
    by_cases hnew : new ≥ 0
    · rw [if_pos hnew]
      exact (fadeIn_spec now new _ h1).1
    · rw [if_neg hnew]
      exact h1
  · rw [if_neg hne]
    exact h

theorem NoOpposite_updateSelected (st : EmojiPanStyle) (px py : Int) (now : Nat)
    (s s' : EmojiPanInner) (h : NoOpposite s._emojiAnimations)
    (hs : updateSelected st px py now s = some s') : NoOpposite s'._emojiAnimations := by
  cases hr : hitTest st s px py with
  | none => simp [updateSelected, hr] at hs
  | some r =>
    rw [updateSelected_of_hitTest st s px py now r hr] at hs
    rw [← Option.some.inj hs]
    exact NoOpposite_moveSelection now _ _ _ (NoOpposite_moveSelection now _ _ _ h)

theorem animLoop_cons (duration : Int) (now : Nat) (e : Int × Nat) (rest : List (Int × Nat))
    (hovers : List ℚ) :
    animLoop duration now (e :: rest) hovers
      = if |e.1| - 1 < 0 ∨ |e.1| - 1 ≥ hovers.length then none
        else if fadeProgress duration now e ≥ 1 then
          animLoop duration now rest
            (hovers.set (|e.1| - 1).toNat (if e.1 > 0 then 1 else 0))
        else
          (animLoop duration now rest (hovers.set (|e.1| - 1).toNat
            (if e.1 > 0 then fadeProgress duration now e
              else float64.sub 1 (fadeProgress duration now e)))).map
            (fun r => (r.1, e :: r.2)) := by
  rw [animLoop]
  rfl

theorem animLoop_sublist (duration : Int) (now : Nat) (m : List (Int × Nat)) (hovers : List ℚ)
    (r : List ℚ × List (Int × Nat)) (h : animLoop duration now m hovers = some r) :
    r.2.Sublist m := by
  induction m generalizing hovers r with
  | nil =>
    simp only [animLoop] at h
    rw [← Option.some.inj h]
  | cons e rest ih =>
    rw [animLoop_cons] at h
    by_cases h1 : |e.1| - 1 < 0 ∨ |e.1| - 1 ≥ hovers.length
    · rw [if_pos h1] at h
      exact absurd h (by simp)
    · rw [if_neg h1] at h
      by_cases h2 : fadeProgress duration now e ≥ 1
      · rw [if_pos h2] at h
        exact (ih _ r h).cons e
      · rw [if_neg h2] at h
        obtain ⟨r1, hr1, hr2⟩ := Option.map_eq_some'.1 h
        rw [← hr2]
        exact (ih _ r1 hr1).cons₂ e

theorem NoOpposite_sublist (m m' : List (Int × Nat)) (hsub : m'.Sublist m)
    (h : NoOpposite m) : NoOpposite m' := by
  have hmono : ∀ j, QMap.contains j m' = true → QMap.contains j m = true := by
    intro j hj
    unfold QMap.contains at hj ⊢
    rw [List.any_eq_true] at hj ⊢
    obtain ⟨e, he, hej⟩ := hj
    exact ⟨e, hsub.subset he, hej⟩
  intro i hi
  exact h i ⟨hmono _ hi.1, hmono _ hi.2⟩

theorem NoOpposite_step (st : EmojiPanStyle) (op : Op) (s s' : EmojiPanInner)
    (h : NoOpposite s._emojiAnimations) (hs : step st s op = some s') :
    NoOpposite s'._emojiAnimations := by
  cases op with
  | updateSelected px py now => exact NoOpposite_updateSelected st px py now s s' h hs
  | animStep now =>
    simp only [step, animStep, Option.map_map] at hs
    cases hr : animLoop st.emojiPanDuration now s._emojiAnimations s._hovers with
    | none => rw [hr] at hs; simp at hs
    | some r =>
      rw [hr] at hs
      simp only [Option.map_some', Function.comp] at hs
      rw [← Option.some.inj hs]
      exact NoOpposite_sublist _ _ (animLoop_sublist _ _ _ _ r hr) h
  | clearSelection fast now =>
    simp only [step, clearSelection] at hs
    cases fast with
    | true =>
      simp only [if_true] at hs
      rw [← Option.some.inj hs]
      exact NoOpposite_nil
    | false =>
      simp only [Bool.false_eq_true, if_false] at hs
      exact NoOpposite_updateSelected st _ _ now s s' h hs
  | showEmojiPack packIndex pack recent px py now =>
    simp only [step, showEmojiPack] at hs
    split_ifs at hs
    · exact NoOpposite_updateSelected st px py now _ s' NoOpposite_nil hs
    · exact NoOpposite_updateSelected st px py now _ s' NoOpposite_nil hs

theorem NoOpposite_run (st : EmojiPanStyle) (ops : List Op) (s s' : EmojiPanInner)
    (h : NoOpposite s._emojiAnimations) (hs : run st ops s = some s') :
    NoOpposite s'._emojiAnimations := by
  induction ops generalizing s with
  | nil =>
    simp only [run] at hs
    rw [← Option.some.inj hs]
    exact h
  | cons op ops ih =>
    simp only [run] at hs
    cases h1 : step st s op with
    | none => rw [h1] at hs; simp at hs
    | some s1 =>
      rw [h1] at hs
      simp only [Option.some_bind] at hs
      exact ih s1 (NoOpposite_step st op s s1 h h1) hs

/-- C15: in every state reached from the constructor through `updateSelected`, `animStep`,
`clearSelection` and `showEmojiPack`, no cell has both its fade-in key `i + 1` and its
fade-out key `-(i + 1)` in the animation map; and the two blocks of `updateSelected` leave the
map without the key opposite to the one they insert. -/
theorem C15_no_opposite_keys (st : EmojiPanStyle) (tab : DBIEmojiTab) (ops : List Op)
    (s : EmojiPanInner) (hs : run st ops (init tab) = some s) :
    NoOpposite s._emojiAnimations ∧
      ∀ (m : List (Int × Nat)) (now : Nat) (sel : Int), 0 ≤ sel →
        QMap.contains (sel + 1) (fadeOut now sel m) = false ∧
        QMap.contains (-sel - 1) (fadeIn now sel m) = false :=
  ⟨NoOpposite_run st ops (init tab) s NoOpposite_nil hs,
    fun m now sel hsel => ⟨fadeOut_removes now sel m hsel, fadeIn_removes now sel m hsel⟩⟩

theorem elapsed_eq (now start : Nat) (h1 : start ≤ now) (h2 : now < 18446744073709551616) :
    elapsed now start = now - start := by
  unfold elapsed
  omega

theorem animLoop_cons_value (duration : Int) (now : Nat) (e : Int × Nat)
    (rest : List (Int × Nat)) (hovers : List ℚ) :
    animLoop duration now (e :: rest) hovers
      = if |e.1| - 1 < 0 ∨ |e.1| - 1 ≥ hovers.length then none
        else if fadeProgress duration now e ≥ 1 then
          animLoop duration now rest
            (hovers.set (|e.1| - 1).toNat (hoverValue duration now e))
        else
          (animLoop duration now rest
            (hovers.set (|e.1| - 1).toNat (hoverValue duration now e))).map
            (fun r => (r.1, e :: r.2)) := by
  rw [animLoop_cons]
  unfold hoverValue
  by_cases h1 : |e.1| - 1 < 0 ∨ |e.1| - 1 ≥ hovers.length
  · rw [if_pos h1, if_pos h1]
  · rw [if_neg h1, if_neg h1]
    by_cases h2 : fadeProgress duration now e ≥ 1
    · rw [if_pos h2, if_pos h2, if_pos h2]
    · rw [if_neg h2, if_neg h2, if_neg h2]

theorem animLoop_spec (duration : Int) (now : Nat) (m : List (Int × Nat)) (hovers : List ℚ)
    (hrange : ∀ e ∈ m, 1 ≤ |e.1| ∧ |e.1| ≤ hovers.length)
    (hcells : (m.map (fun e => |e.1|)).Nodup) :
    ∃ hovers', animLoop duration now m hovers
        = some (hovers', m.filter (fun e => decide (¬ fadeProgress duration now e ≥ 1))) ∧
      hovers'.length = hovers.length ∧
      (∀ e ∈ m, hovers'[(|e.1| - 1).toNat]? = some (hoverValue duration now e)) ∧
      (∀ i : Nat, (∀ e ∈ m, (|e.1| - 1).toNat ≠ i) → hovers'[i]? = hovers[i]?) := by
  induction m generalizing hovers with
  | nil => exact ⟨hovers, by simp [animLoop], rfl, by simp, fun _ _ => rfl⟩
  | cons e rest ih =>
    have he := hrange e (List.mem_cons_self _ _)
    have hin : ¬ (|e.1| - 1 < 0 ∨ |e.1| - 1 ≥ hovers.length) := by omega
    have hidx : (|e.1| - 1).toNat < hovers.length := by omega
    rw [List.map_cons, List.nodup_cons] at hcells
    have hrest : ∀ a ∈ rest, 1 ≤ |a.1| ∧ |a.1| ≤
        ((hovers.set (|e.1| - 1).toNat (hoverValue duration now e)).length : Int) := by
      intro a ha
      rw [List.length_set]
      exact hrange a (List.mem_cons_of_mem _ ha)
    obtain ⟨hovers', hloop, hlen, hval, hframe⟩ := ih
      (hovers.set (|e.1| - 1).toNat (hoverValue duration now e)) hrest hcells.2
    have hne : ∀ a ∈ rest, (|a.1| - 1).toNat ≠ (|e.1| - 1).toNat := by
      intro a ha heq
      have h1 := (hrange a (List.mem_cons_of_mem _ ha)).1
      apply hcells.1
      rw [List.mem_map]
      exact ⟨a, ha, by omega⟩
    have hself : hovers'[(|e.1| - 1).toNat]? = some (hoverValue duration now e) := by
      rw [hframe _ hne, List.getElem?_set_self hidx]
    have hvalAll : ∀ a ∈ e :: rest,
        hovers'[(|a.1| - 1).toNat]? = some (hoverValue duration now a) := by
      intro a ha
      rcases List.mem_cons.1 ha with h | h
      · rw [h]; exact hself
      · exact hval a h
    have hframeAll : ∀ i : Nat, (∀ a ∈ e :: rest, (|a.1| - 1).toNat ≠ i) →
        hovers'[i]? = hovers[i]? := by
      intro i hi
      rw [hframe i (fun a ha => hi a (List.mem_cons_of_mem _ ha)),
        List.getElem?_set_ne (hi e (List.mem_cons_self _ _))]
    refine ⟨hovers', ?_, by rw [hlen, List.length_set], hvalAll, hframeAll⟩
    rw [animLoop_cons_value, if_neg hin]
    by_cases h2 : fadeProgress duration now e ≥ 1
    · rw [if_pos h2, hloop, List.filter_cons_of_neg (by simpa using h2)]
    · rw [if_neg h2, hloop, List.filter_cons_of_pos (by simpa using h2)]
      rfl

theorem fadeProgress_ge_one (duration : Int) (now : Nat) (e : Int × Nat)
    (hd : 0 < duration) (hint : duration < 2 ^ 31)
    (h : duration ≤ (elapsed now e.2 : Int)) : fadeProgress duration now e ≥ 1 := by
  have hdq : (0 : ℚ) < (duration : ℚ) := by exact_mod_cast hd
  have hle : (duration : ℚ) ≤ (elapsed now e.2 : ℚ) := by exact_mod_cast h
  have h1 := float64.ofRat_mono _ _ (le_of_lt hdq) hle
  rw [float64.ofRat_intCast duration (by rw [abs_of_pos hd]; omega)] at h1
  have h2 : (1 : ℚ) ≤ float64.ofRat (elapsed now e.2 : ℚ) / (duration : ℚ) :=
    (one_le_div hdq).2 h1
  have h3 := float64.ofRat_mono _ _ (by norm_num) h2
  rw [float64.ofRat_one] at h3
  exact h3

theorem fadeProgress_lt_one (duration : Int) (now : Nat) (e : Int × Nat)
    (hd : 0 < duration) (hint : duration < 2 ^ 31)
    (h : (elapsed now e.2 : Int) < duration) :
    0 ≤ fadeProgress duration now e ∧ fadeProgress duration now e ≤ 1 - 1 / 2 ^ 31 := by
  have hdq : (0 : ℚ) < (duration : ℚ) := by exact_mod_cast hd
  have hn : float64.ofRat (elapsed now e.2 : ℚ) = (elapsed now e.2 : ℚ) :=
    float64.ofRat_natCast _ (by omega)
  have hq0 : (0 : ℚ) ≤ (elapsed now e.2 : ℚ) / (duration : ℚ) :=
    div_nonneg (Nat.cast_nonneg _) (le_of_lt hdq)
  have hle : (elapsed now e.2 : ℚ) + 1 ≤ (duration : ℚ) := by exact_mod_cast h
  have hd31 : (duration : ℚ) ≤ 2 ^ 31 := by exact_mod_cast le_of_lt hint
  have hq1 : (elapsed now e.2 : ℚ) / (duration : ℚ) ≤ 1 - 1 / 2 ^ 31 := by
    rw [div_le_iff₀ hdq]
    nlinarith
  unfold fadeProgress float64.div
  rw [hn]
  refine ⟨float64.ofRat_nonneg _ hq0, ?_⟩
  have h2 := float64.ofRat_mono _ _ hq0 hq1
  rw [float64.ofRat_below_one] at h2
  exact h2

/-- A fade of 300 ms looked at after 100 ms: `dt` is the `float64` nearest to `1 / 3`, not
`1 / 3` itself. -/
theorem fadeProgress_third :
    fadeProgress 300 100 (1, 0) = 6004799503160661 / 18014398509481984 := by
  have hel : elapsed 100 0 = 100 := by decide
  have hn := float64.ofRat_natCast 100 (by decide)
  have hq : ((100 : Nat) : ℚ) / ((300 : Int) : ℚ) = 1 / 3 := by norm_num
  unfold fadeProgress float64.div
  rw [hel, hn, hq, float64.ofRat_third]

/-- C14: with a positive `int32` duration, start times not after `now`, keys inside the hover
vector and pairwise distinct cells, `animStep` returns `true` exactly when an entry remains.
For an entry with key `k` and start time `t`, `dt` is the `float64` quotient of `now - t` by
the duration, and `dt ≥ 1` holds exactly when `now - t` has reached the duration.  When
`dt ≥ 1` the hover value of cell `|k| - 1` is `1` for `k > 0` and `0` for `k < 0` and the entry
is removed; otherwise the hover value is `dt` for `k > 0` (in `[0, 1)`) and the `float64`
difference `1 - dt` for `k < 0` (in `(0, 1]`) and the entry is kept. -/
theorem C14_hover_fade_step (st : EmojiPanStyle) (s : EmojiPanInner) (now : Nat)
    (hdur : 0 < st.emojiPanDuration) (hint : st.emojiPanDuration < 2 ^ 31)
    (hnow : now < 18446744073709551616)
    (htime : ∀ e ∈ s._emojiAnimations, e.2 ≤ now)
    (hrange : ∀ e ∈ s._emojiAnimations, 1 ≤ |e.1| ∧ |e.1| ≤ s._hovers.length)
    (hcells : (s._emojiAnimations.map (fun e => |e.1|)).Nodup) :
    ∃ s' r, animStep st now s = some (s', r) ∧
      (r = true ↔ s'._emojiAnimations ≠ []) ∧
      ∀ e ∈ s._emojiAnimations,
        fadeProgress st.emojiPanDuration now e
          = float64.div (float64.ofRat ((now - e.2 : Nat) : ℚ)) (st.emojiPanDuration : ℚ) ∧
        (fadeProgress st.emojiPanDuration now e ≥ 1
          ↔ st.emojiPanDuration ≤ ((now - e.2 : Nat) : Int)) ∧
        (fadeProgress st.emojiPanDuration now e ≥ 1 →
          s'._hovers[(|e.1| - 1).toNat]? = some (if e.1 > 0 then 1 else 0) ∧
          e ∉ s'._emojiAnimations) ∧
        (fadeProgress st.emojiPanDuration now e < 1 →
          s'._hovers[(|e.1| - 1).toNat]?
            = some (if e.1 > 0 then fadeProgress st.emojiPanDuration now e
                else float64.sub 1 (fadeProgress st.emojiPanDuration now e)) ∧
          e ∈ s'._emojiAnimations ∧
          0 ≤ fadeProgress st.emojiPanDuration now e ∧
          0 < float64.sub 1 (fadeProgress st.emojiPanDuration now e) ∧
          float64.sub 1 (fadeProgress st.emojiPanDuration now e) ≤ 1) := by
  obtain ⟨hovers', hloop, _, hval, _⟩ := animLoop_spec st.emojiPanDuration now
    s._emojiAnimations s._hovers hrange hcells
  refine ⟨_, _, by rw [animStep, hloop]; rfl, ?_, ?_⟩
  · simp only []
    cases s._emojiAnimations.filter
        (fun e => decide (¬ fadeProgress st.emojiPanDuration now e ≥ 1)) with
    | nil => simp
    | cons a l => simp
  · intro e he
    have hel : elapsed now e.2 = now - e.2 := elapsed_eq now e.2 (htime e he) hnow
    have hv := hval e he
    have hiff : fadeProgress st.emojiPanDuration now e ≥ 1
        ↔ st.emojiPanDuration ≤ ((now - e.2 : Nat) : Int) := by
      rw [← hel]
      constructor
      · intro hge
        by_contra hlt
        have := (fadeProgress_lt_one st.emojiPanDuration now e hdur hint (not_le.1 hlt)).2
        have h31 : (0 : ℚ) < 1 / 2 ^ 31 := by norm_num
        linarith
      · exact fadeProgress_ge_one st.emojiPanDuration now e hdur hint
    simp only []
    refine ⟨by unfold fadeProgress; rw [hel], hiff, ?_, ?_⟩
    · intro hge
      refine ⟨?_, ?_⟩
      · rw [hv, hoverValue, if_pos hge]
      · intro hmem
        have := (List.mem_filter.1 hmem).2
        simp only [decide_eq_true_eq] at this
        exact this hge
    · intro hlt
      have hlt2 : ¬ fadeProgress st.emojiPanDuration now e ≥ 1 := not_le.2 hlt
      have hlt3 : (elapsed now e.2 : Int) < st.emojiPanDuration := by
        rw [hel]
        exact not_le.1 (fun h => hlt2 (hiff.2 h))
      obtain ⟨h0, h1⟩ := fadeProgress_lt_one st.emojiPanDuration now e hdur hint hlt3
      obtain ⟨h2, h3⟩ := float64.sub_one_range _ h1 h0
      refine ⟨?_, ?_, h0, h2, h3⟩
      · rw [hv, hoverValue, if_neg hlt2]
      · exact List.mem_filter.2 ⟨he, by simpa using hlt2⟩

theorem sample_stickerWidth :
    float64.div (sampleStyle.width : ℚ) (sampleStyle.StickerPadPerRow : ℚ) = 50 := by
  have h := float64.ofRat_natCast 50 (by decide)
  have he : ((sampleStyle.width : ℚ) / (sampleStyle.StickerPadPerRow : ℚ)) = ((50 : Nat) : ℚ) := by
    norm_num [sampleStyle]
  unfold float64.div
  rw [he, h]
  norm_num

theorem sample_row_width : float64.mul 5 50 = 250 := by
  have h := float64.ofRat_natCast 250 (by decide)
  have he : (5 : ℚ) * 50 = ((250 : Nat) : ℚ) := by norm_num
  unfold float64.mul
  rw [he, h]
  norm_num

theorem sample_column : ⌊float64.div 45 50⌋ = 0 := by
  have h0 := float64.ofRat_nonneg (45 / 50) (by norm_num)
  have h1 := float64.ofRat_mono (45 / 50) (15 / 16) (by norm_num) (by norm_num)
  have h2 := float64.ofRat_repr 15 (-4) (by decide) (by decide)
  have he : (((15 : Int) : ℚ)) * 2 ^ (-4 : Int) = 15 / 16 := by norm_num
  rw [he] at h2
  rw [h2] at h1
  unfold float64.div
  rw [Int.floor_eq_iff]
  constructor
  · simpa using h0
  · have : (15 : ℚ) / 16 < 1 := by norm_num
    simp only [Int.cast_zero, zero_add]
    linarith

theorem sample_column_offset : float64.mul 0 50 = 0 := by
  have h := float64.ofRat_natCast 0 (by decide)
  unfold float64.mul
  simpa using h

theorem sample_inx : float64.sub 45 0 = 45 := by
  have h := float64.ofRat_natCast 45 (by decide)
  unfold float64.sub
  simpa using h

theorem sample_cross_left : float64.sub 50 10 = 40 := by
  have h := float64.ofRat_natCast 40 (by decide)
  have he : (50 : ℚ) - 10 = ((40 : Nat) : ℚ) := by norm_num
  unfold float64.sub
  rw [he, h]
  norm_num

theorem hitTest_sticker_cross (s : EmojiPanInner) (htab : s._tab = DBIEmojiTab.dbietStickers)
    (hlen : s._stickers.length = 1) : hitTest sampleStyle s 45 5 = some (0, 1) := by
  have hdiv : Int.tdiv 5 50 = 0 := by decide
  unfold hitTest
  rw [if_pos htab, sample_stickerWidth]
  norm_num [sampleStyle, truncToInt, hlen, hdiv, sample_row_width, sample_column,
    sample_column_offset, sample_inx, sample_cross_left]

theorem hitTest_sticker_empty (s : EmojiPanInner) (htab : s._tab = DBIEmojiTab.dbietStickers)
    (hlen : s._stickers.length = 0) : hitTest sampleStyle s 45 5 = some (-1, -1) := by
  have hdiv : Int.tdiv 5 50 = 0 := by decide
  unfold hitTest
  rw [if_pos htab, sample_stickerWidth]
  norm_num [sampleStyle, truncToInt, hlen, hdiv, sample_row_width, sample_column,
    sample_column_offset, sample_inx, sample_cross_left]

theorem press_on_cross :
    mousePressEvent sampleStyle 45 5 100 stickerPan
      = some { stickerPan with _selected := 0, _xSelected := 1, _pressedSel := 0,
                               _xPressedSel := 1, _emojiAnimations := [(1, 100), (2, 100)] } := by
  unfold mousePressEvent
  rw [updateSelected_of_hitTest sampleStyle stickerPan 45 5 100 (0, 1)
    (hitTest_sticker_cross stickerPan rfl rfl)]
  rfl

theorem showEmojiPack_stickers_empty (s : EmojiPanInner) (now : Nat) :
    showEmojiPack sampleStyle DBIEmojiTab.dbietStickers [] [] 45 5 now s
      = updateSelected sampleStyle 45 5 now
          { s with _tab := DBIEmojiTab.dbietStickers, _emojis := [], _stickers := [],
                   _isUserGen := [], _hovers := [], _emojiAnimations := [],
                   _selected := -1, _pressedSel := -1 } := by
  unfold showEmojiPack
  norm_num [sampleStyle, truncToInt]

theorem release_on_cross :
    mouseReleaseEvent sampleStyle [(7, -1)] 45 5 45 5 200
        { stickerPan with _selected := 0, _xSelected := 1, _pressedSel := 0,
                          _xPressedSel := 1, _emojiAnimations := [(1, 100), (2, 100)] }
      = some ({ _tab := DBIEmojiTab.dbietStickers, _emojis := [], _stickers := [],
                _isUserGen := [], _hovers := [], _emojiAnimations := [(-2, 200)],
                _selected := -1, _xSelected := -1, _pressedSel := -1, _xPressedSel := 1 },
              []) := by
  simp [mouseReleaseEvent, updateSelected, hitTest_sticker_cross, hitTest_sticker_empty,
    showEmojiPack_stickers_empty, applySelected, moveSelection, fadeOut, fadeIn, QMap.remove,
    QMap.contains, QMap.insert, removeSticker, stickerPan]

theorem show_stickerPan :
    showEmojiPack sampleStyle DBIEmojiTab.dbietStickers [] [(7, -1)] (-10) (-10) 0
      (init DBIEmojiTab.dbietStickers) = some stickerPan := by
  have hw : truncToInt
      (float64.div (sampleStyle.width : ℚ) (sampleStyle.StickerPadPerRow : ℚ)) = 50 := by
    rw [sample_stickerWidth]; norm_num [truncToInt]
  unfold showEmojiPack
  rw [hw]
  simp [updateSelected, hitTest, sampleStyle, init, stickerPan, applySelected, moveSelection]

/-- C17 fails on the code: on the sticker tab with one recent sticker, pressing and releasing
on its delete cross runs `showEmojiPack`, which empties `_hovers` but keeps `_xSelected = 1`;
the following `updateSelected` inserts the fade-out key `-2` for that stale index, so the map
holds a key with `|k| = 2` over an empty hover vector and `animStep` writes out of range. -/
theorem C17_stale_delete_key_out_of_range :
    showEmojiPack sampleStyle DBIEmojiTab.dbietStickers [] [(7, -1)] (-10) (-10) 0
        (init DBIEmojiTab.dbietStickers) = some stickerPan ∧
      (mousePressEvent sampleStyle 45 5 100 stickerPan).bind
          (mouseReleaseEvent sampleStyle [(7, -1)] 45 5 45 5 200)
        = some ({ _tab := DBIEmojiTab.dbietStickers, _emojis := [], _stickers := [],
                  _isUserGen := [], _hovers := [], _emojiAnimations := [(-2, 200)],
                  _selected := -1, _xSelected := -1, _pressedSel := -1, _xPressedSel := 1 },
                []) ∧
      animStep sampleStyle 300
          { _tab := DBIEmojiTab.dbietStickers, _emojis := [], _stickers := [],
            _isUserGen := [], _hovers := [], _emojiAnimations := [(-2, 200)],
            _selected := -1, _xSelected := -1, _pressedSel := -1, _xPressedSel := 1 }
        = none := by
  refine ⟨show_stickerPan, ?_, ?_⟩
  · rw [press_on_cross, Option.some_bind, release_on_cross]
  · simp [animStep, animLoop]

/-- Witness for C12: the point `(40, 5)` lies in the cell of emoji `1`. -/
theorem C12_hit_test_inverts_paint_witness :
    ∃ s', updateSelected sampleStyle 40 5 0 emojiPan = some s' ∧ s'._selected = ((1 : Nat) : Int) :=
  (C12_hit_test_inverts_paint sampleStyle emojiPan 0 (by decide) (by decide) (by decide)
    (by decide)).1 1 40 5 (by decide) (by decide) (by decide) (by decide) (by decide)

/-- Witness for C14: at `now = 150` with fades of 200 ms, a fade-out started at `0` and a
fade-in started at `100`. -/
theorem C14_hover_fade_step_witness :
    ∃ s' r, animStep sampleStyle 150 fadingPan = some (s', r) ∧
      (r = true ↔ s'._emojiAnimations ≠ []) :=
  (C14_hover_fade_step sampleStyle fadingPan 150 (by decide) (by decide) (by decide)
    (by decide) (by simp [fadingPan, emojiPan]) (by simp [fadingPan, emojiPan])).imp
    (fun _ h => h.imp (fun _ h2 => ⟨h2.1, h2.2.1⟩))

/-- Witness for C15: the sample sequence of calls from the constructor state. -/
theorem C15_no_opposite_keys_witness :
    ∃ s, run sampleStyle sampleOps (init DBIEmojiTab.dbietRecent) = some s ∧
      NoOpposite s._emojiAnimations := by
  have h : run sampleStyle sampleOps (init DBIEmojiTab.dbietRecent)
      = some { _tab := DBIEmojiTab.dbietPeople, _emojis := [0, 1, 2], _stickers := [],
               _isUserGen := [], _hovers := [0, 0, 0],
               _emojiAnimations := [(-2, 150), (-1, 170)], _selected := -1,
               _xSelected := -1, _pressedSel := -1, _xPressedSel := -1 } := by
    rfl
  exact ⟨_, h, (C15_no_opposite_keys sampleStyle DBIEmojiTab.dbietRecent sampleOps _ h).1⟩

end EmojiPanInner

/-! ## Lemmas on deleting a recent hashtag -/

namespace MentionsInner

theorem eraseLoop_eq_filter (toRemove : QString) (recent : RecentHashtagPack) :
    eraseLoop toRemove recent = recent.filter (fun e => decide (e.1 ≠ toRemove)) := by
  induction recent with
  | nil => rfl
  | cons e rest ih =>
    unfold eraseLoop
    by_cases h : e.1 = toRemove
    · rw [if_pos h, ih, List.filter_cons_of_neg (by simpa using h)]
    · rw [if_neg h, ih, List.filter_cons_of_pos (by simpa using h)]

/-- C22: when the left button is pressed on the delete cross of a hashtag row (after
`onUpdateSelected(true)` the cross is hit and the selection is a row of `_hrows`), the list
written back is the original recent list without the entries whose tag equals the tag of that
row, and no entry of it carries that tag; the other entries keep tag, counter and order. -/
theorem C22_delete_recent_hashtag (mentionHeight w h : Int) (rows : MentionRows)
    (hrows : HashtagRows) (mouseX mouseY : Int) (recent : RecentHashtagPack)
    (s : MentionsInner)
    (hover : (onUpdateSelected mentionHeight w h rows hrows true mouseX mouseY
      { s with _mouseSel := true })._overDelete = true)
    (hsel0 : 0 ≤ (onUpdateSelected mentionHeight w h rows hrows true mouseX mouseY
      { s with _mouseSel := true })._sel)
    (hsel1 : (onUpdateSelected mentionHeight w h rows hrows true mouseX mouseY
      { s with _mouseSel := true })._sel < hrows.length) :
    ∃ toRemove written,
      hrows[(hrows.length - (onUpdateSelected mentionHeight w h rows hrows true mouseX mouseY
        { s with _mouseSel := true })._sel - 1).toNat]? = some toRemove ∧
      (mousePressEvent mentionHeight w h rows hrows true mouseX mouseY recent s).2
        = some written ∧
      written = recent.filter (fun e => decide (e.1 ≠ toRemove)) ∧
      ∀ e ∈ written, e.1 ≠ toRemove := by
  generalize hs1 : onUpdateSelected mentionHeight w h rows hrows true mouseX mouseY
    { s with _mouseSel := true } = s1 at hover hsel0 hsel1
  have hidx : (hrows.length - s1._sel - 1 : Int).toNat < hrows.length := by omega
  refine ⟨hrows[(hrows.length - s1._sel - 1 : Int).toNat], _, List.getElem?_eq_getElem hidx,
    ?_, eraseLoop_eq_filter _ recent, ?_⟩
  · unfold mousePressEvent
    simp only [hs1, if_true]
    rw [if_pos ⟨hover, hsel0, hsel1⟩, if_neg (by omega), List.getElem?_eq_getElem hidx]
  · intro e he
    rw [eraseLoop_eq_filter] at he
    simpa using (List.mem_filter.1 he).2

/-- Witness for C22: the rows show `b` above `a`; the press is on the cross of the first
row, which shows the tag `b`. -/
theorem C22_delete_recent_hashtag_witness :
    ∃ toRemove written,
      ([['a'], ['b']] : HashtagRows)[((([['a'], ['b']] : HashtagRows).length : Int)
        - (onUpdateSelected 30 200 60 [] [['a'], ['b']] true 190 5
          { (⟨-1, false, false⟩ : MentionsInner) with _mouseSel := true })._sel - 1).toNat]?
        = some toRemove ∧
      (mousePressEvent 30 200 60 [] [['a'], ['b']] true 190 5
        [(['a'], 1), (['b'], 2), (['c'], 1), (['b'], 1)] ⟨-1, false, false⟩).2 = some written ∧
      written = ([(['a'], 1), (['b'], 2), (['c'], 1), (['b'], 1)] : RecentHashtagPack).filter
        (fun e => decide (e.1 ≠ toRemove)) ∧
      ∀ e ∈ written, e.1 ≠ toRemove :=
  C22_delete_recent_hashtag 30 200 60 [] [['a'], ['b']] 190 5
    [(['a'], 1), (['b'], 2), (['c'], 1), (['b'], 1)] ⟨-1, false, false⟩
    (by decide) (by decide) (by decide)

end MentionsInner

/-! ## Lemmas on the dropdown layout -/

namespace Dropdown

theorem sum_pos_of_all_pos (l : List Int) (hall : ∀ x ∈ l, 0 < x) (hne : l ≠ []) :
    0 < l.sum := by
  induction l with
  | nil => exact absurd rfl hne
  | cons a rest ih =>
    rw [List.sum_cons]
    have ha : 0 < a := hall a (List.mem_cons_self _ _)
    by_cases hr : rest = []
    · rw [hr]; simpa using ha
    · have := ih (fun x hx => hall x (List.mem_cons_of_mem _ hx)) hr
      omega

theorem spec_step (pad border : Int) (hborder : 0 ≤ border) (vh : List Int)
    (hall : ∀ x ∈ vh, 0 < x) (h : Int) (H : Int)
    (hH : H = if vh = [] then pad else pad + vh.sum + border * ((vh.length : Int) - 1)) :
    (if H > pad then H + border else H) + h
      = if vh ++ [h] = [] then pad
        else pad + (vh ++ [h]).sum + border * (((vh ++ [h]).length : Int) - 1) := by
  have hne : vh ++ [h] ≠ [] := by simp
  rw [if_neg hne, List.sum_append, List.length_append]
  by_cases hv : vh = []
  · subst hv
    simp at hH
    subst hH
    simp
  · rw [if_neg hv] at hH
    have hsum := sum_pos_of_all_pos vh hall hv
    have hlen : (1 : Int) ≤ (vh.length : Int) := by
      have := List.length_pos.2 hv
      omega
    have hb : 0 ≤ border * ((vh.length : Int) - 1) := mul_nonneg hborder (by omega)
    have hgt : H > pad := by omega
    rw [if_pos hgt, hH]
    simp only [List.sum_cons, List.sum_nil, List.length_cons, List.length_nil, Nat.cast_add,
      Nat.cast_one, Nat.cast_zero]
    ring

theorem visibleHeights_append (l1 l2 : List ButtonGeometry) :
    visibleHeights (l1 ++ l2) = visibleHeights l1 ++ visibleHeights l2 := by
  unfold visibleHeights
  rw [List.filter_append, List.map_append]

theorem visibleHeights_setWidth (l : List ButtonGeometry) (w : Int) :
    visibleHeights (l.map (fun b => { b with width := w })) = visibleHeights l := by
  unfold visibleHeights
  induction l with
  | nil => rfl
  | cons b rest ih =>
    cases hb : b.hidden <;> simp [List.filter_cons, hb, ih]

theorem addAll_append (st : DropdownStyle) (buttons : List ButtonGeometry)
    (b : ButtonGeometry) :
    addAll st (buttons ++ [b]) = addButton st b (addAll st buttons) := by
  unfold addAll
  rw [List.foldl_append]
  rfl

theorem addButton_visibleHeights (st : DropdownStyle) (b : ButtonGeometry)
    (d : DropdownLayout) :
    visibleHeights (addButton st b d)._buttons
      = visibleHeights d._buttons ++ visibleHeights [b] := by
  unfold addButton
  dsimp only
  rw [visibleHeights_append]
  by_cases hw : st.paddingLeft + st.paddingRight + b.width > d._width
  · rw [if_pos hw, if_pos hw, visibleHeights_setWidth]
  · rw [if_neg hw, if_neg hw]
    congr 1
    exact visibleHeights_setWidth [b] _

theorem addButton_widths (st : DropdownStyle) (b : ButtonGeometry) (d : DropdownLayout)
    (hd : ∀ x ∈ d._buttons, x.width = d._width - st.paddingLeft - st.paddingRight) :
    ∀ x ∈ (addButton st b d)._buttons,
      x.width = (addButton st b d)._width - st.paddingLeft - st.paddingRight := by
  unfold addButton
  dsimp only
  by_cases hw : st.paddingLeft + st.paddingRight + b.width > d._width
  · simp only [if_pos hw]
    intro x hx
    rcases List.mem_append.1 hx with h | h
    · obtain ⟨x0, _, rfl⟩ := List.mem_map.1 h
      rfl
    · rw [List.mem_singleton] at h
      rw [h]; omega
  · simp only [if_neg hw]
    intro x hx
    rcases List.mem_append.1 hx with h | h
    · exact hd x h
    · rw [List.mem_singleton] at h
      rw [h]

theorem addButton_height (st : DropdownStyle) (b : ButtonGeometry) (d : DropdownLayout) :
    (addButton st b d)._height
      = if b.hidden = true then d._height
        else (if d._height > st.paddingTop + st.paddingBottom then d._height + st.border
          else d._height) + b.height := by
  unfold addButton
  dsimp only
  by_cases hw : st.paddingLeft + st.paddingRight + b.width > d._width
  · simp only [if_pos hw]
    cases b.hidden <;> simp
  · simp only [if_neg hw]
    cases b.hidden <;> simp

theorem visibleHeights_pos (buttons : List ButtonGeometry)
    (hpos : ∀ b ∈ buttons, b.hidden = false → 0 < b.height) :
    ∀ x ∈ visibleHeights buttons, 0 < x := by
  intro x hx
  unfold visibleHeights at hx
  obtain ⟨b, hb, rfl⟩ := List.mem_map.1 hx
  obtain ⟨hb1, hb2⟩ := List.mem_filter.1 hb
  exact hpos b hb1 (by simpa using hb2)

theorem addAll_spec (st : DropdownStyle) (hborder : 0 ≤ st.border)
    (buttons : List ButtonGeometry)
    (hpos : ∀ b ∈ buttons, b.hidden = false → 0 < b.height) :
    visibleHeights (addAll st buttons)._buttons = visibleHeights buttons ∧
      (addAll st buttons)._height = heightBySpec st buttons ∧
      ∀ x ∈ (addAll st buttons)._buttons,
        x.width = (addAll st buttons)._width - st.paddingLeft - st.paddingRight := by
  induction buttons using List.reverseRecOn with
  | nil =>
    refine ⟨rfl, rfl, ?_⟩
    intro x hx
    simp [addAll, resetButtons] at hx
  | append_singleton bs b ih =>
    have hpos1 : ∀ x ∈ bs, x.hidden = false → 0 < x.height :=
      fun x hx => hpos x (List.mem_append_left _ hx)
    obtain ⟨ih1, ih2, ih3⟩ := ih hpos1
    rw [addAll_append]
    refine ⟨?_, ?_, addButton_widths st b _ ih3⟩
    · rw [addButton_visibleHeights, ih1, visibleHeights_append]
    · rw [addButton_height, ih2]
      unfold heightBySpec
      rw [visibleHeights_append]
      cases hb : b.hidden with
      | true =>
        have hv : visibleHeights [b] = [] := by simp [visibleHeights, hb]
        rw [if_pos rfl, hv, List.append_nil]
      | false =>
        have hv : visibleHeights [b] = [b.height] := by simp [visibleHeights, hb]
        rw [if_neg (by decide), hv]
        exact spec_step (st.paddingTop + st.paddingBottom) st.border hborder
          (visibleHeights bs) (visibleHeights_pos bs hpos1) b.height _ rfl

theorem updateLoop_top (st : DropdownStyle) (width top : Int) (buttons : List ButtonGeometry) :
    (updateLoop st width top buttons).2
      = top + (visibleHeights buttons).sum
        + st.border * ((visibleHeights buttons).length : Int) := by
  induction buttons generalizing top with
  | nil => simp [updateLoop, visibleHeights]
  | cons b rest ih =>
    unfold updateLoop
    cases hb : b.hidden with
    | true =>
      have hv : visibleHeights (b :: rest) = visibleHeights rest := by
        simp [visibleHeights, List.filter_cons, hb]
      simp only [Bool.not_true, Bool.false_eq_true, if_false]
      rw [ih, hv]
    | false =>
      have hv : visibleHeights (b :: rest) = b.height :: visibleHeights rest := by
        simp [visibleHeights, List.filter_cons, hb]
      simp only [Bool.not_false, if_true]
      rw [ih, hv, List.sum_cons, List.length_cons]
      split_ifs <;> (push_cast; ring)

theorem updateLoop_widths (st : DropdownStyle) (width top : Int)
    (buttons : List ButtonGeometry)
    (hw : ∀ x ∈ buttons, x.width = width - st.paddingLeft - st.paddingRight) :
    ∀ x ∈ (updateLoop st width top buttons).1,
      x.width = width - st.paddingLeft - st.paddingRight := by
  induction buttons generalizing top with
  | nil => simp [updateLoop]
  | cons b rest ih =>
    have hb := hw b (List.mem_cons_self _ _)
    have hrest : ∀ x ∈ rest, x.width = width - st.paddingLeft - st.paddingRight :=
      fun x hx => hw x (List.mem_cons_of_mem _ hx)
    unfold updateLoop
    cases hh : b.hidden with
    | true =>
      simp only [Bool.not_true, Bool.false_eq_true, if_false]
      intro x hx
      rcases List.mem_cons.1 hx with h | h
      · rw [h]; exact hb
      · exact ih _ hrest x h
    | false =>
      simp only [Bool.not_false, if_true]
      intro x hx
      rcases List.mem_cons.1 hx with h | h
      · rw [h]
        split_ifs with h1
        · rfl
        · exact hb
      · exact ih _ hrest x h

theorem visibleHeights_of_same (l1 l2 : List ButtonGeometry)
    (h : l1.map (fun b => (b.height, b.hidden)) = l2.map (fun b => (b.height, b.hidden))) :
    visibleHeights l1 = visibleHeights l2 := by
  have key : ∀ l : List ButtonGeometry, visibleHeights l
      = ((l.map (fun b => (b.height, b.hidden))).filter (fun p => !p.2)).map (fun p => p.1) := by
    intro l
    induction l with
    | nil => rfl
    | cons b rest ih =>
      unfold visibleHeights at ih ⊢
      cases hb : b.hidden <;> simp [List.filter_cons, hb, ih]
  rw [key, key, h]

theorem addButton_same (st : DropdownStyle) (b : ButtonGeometry) (d : DropdownLayout) :
    (addButton st b d)._buttons.map (fun x => (x.height, x.hidden))
      = d._buttons.map (fun x => (x.height, x.hidden)) ++ [(b.height, b.hidden)] := by
  unfold addButton
  by_cases h : st.paddingLeft + st.paddingRight + b.width > d._width
  · simp [h, Function.comp_def]
  · simp [h]

theorem addAll_same (st : DropdownStyle) (buttons : List ButtonGeometry) :
    (addAll st buttons)._buttons.map (fun x => (x.height, x.hidden))
      = buttons.map (fun x => (x.height, x.hidden)) := by
  induction buttons using List.reverseRecOn with
  | nil => rfl
  | append_singleton bs b ih => rw [addAll_append, addButton_same, ih]; simp

theorem updateLoop_same (st : DropdownStyle) (width top : Int) (buttons : List ButtonGeometry) :
    (updateLoop st width top buttons).1.map (fun x => (x.height, x.hidden))
      = buttons.map (fun x => (x.height, x.hidden)) := by
  induction buttons generalizing top with
  | nil => simp [updateLoop]
  | cons b rest ih =>
    unfold updateLoop
    cases hb : b.hidden with
    | true =>
      simp only [Bool.not_true, Bool.false_eq_true, if_false, List.map_cons, ih, hb]
    | false =>
      simp only [Bool.not_false, if_true, List.map_cons, ih, hb]
      split_ifs <;> rfl

theorem updateLoop_visible (st : DropdownStyle) (width top : Int)
    (buttons : List ButtonGeometry) :
    ∀ x ∈ (updateLoop st width top buttons).1, x.hidden = false →
      x.width = width - st.paddingLeft - st.paddingRight ∧ x.x = st.paddingLeft := by
  induction buttons generalizing top with
  | nil => simp [updateLoop]
  | cons b rest ih =>
    unfold updateLoop
    cases hh : b.hidden with
    | true =>
      simp only [Bool.not_true, Bool.false_eq_true, if_false]
      intro x hx hxv
      rcases List.mem_cons.1 hx with h | h
      · rw [h, hh] at hxv; exact absurd hxv (by decide)
      · exact ih _ x h hxv
    | false =>
      simp only [Bool.not_false, if_true]
      intro x hx hxv
      rcases List.mem_cons.1 hx with h | h
      · rw [h]
        split_ifs with h1
        · exact ⟨rfl, rfl⟩
        · exact ⟨not_not.1 h1, rfl⟩
      · exact ih _ x h hxv

theorem updateButtons_height (st : DropdownStyle) (hborder : 0 ≤ st.border)
    (d : DropdownLayout) (hpos : ∀ b ∈ d._buttons, b.hidden = false → 0 < b.height) :
    (updateButtons st d)._height = heightBySpec st d._buttons := by
  unfold updateButtons heightBySpec
  dsimp only
  rw [updateLoop_top]
  have hall := visibleHeights_pos d._buttons hpos
  by_cases hv : visibleHeights d._buttons = []
  · rw [if_pos hv, hv]
    simp
  · rw [if_neg hv]
    have hsum := sum_pos_of_all_pos _ hall hv
    have hb : 0 ≤ st.border * ((visibleHeights d._buttons).length : Int) :=
      mul_nonneg hborder (Nat.cast_nonneg _)
    rw [if_pos (by omega)]
    ring

/-- C21: for `border ≥ 0` and a sequence of buttons in which every button that is not hidden
has positive height, the layout after `resetButtons` and `addButton` for each button holds the
same buttons (heights and visibility), every one `_width - padding.left - padding.right` wide,
and its `_height` is the padding plus the visible heights plus one border between visible
buttons (the padding alone when none is visible).  `updateButtons`, run on any layout of the same
buttons, whatever its `_width`, its stale `_height` and the positions and widths of its buttons,
computes that same height, keeps `_width` and the buttons, and leaves every button that is not
hidden at `x = padding.left` with width `_width - padding.left - padding.right`; run on the
layout that `addButton` built it leaves every button that wide. -/
theorem C21_incremental_equals_batch (st : DropdownStyle) (buttons : List ButtonGeometry)
    (hborder : 0 ≤ st.border)
    (hpos : ∀ b ∈ buttons, b.hidden = false → 0 < b.height) :
    (addAll st buttons)._buttons.map (fun b => (b.height, b.hidden))
        = buttons.map (fun b => (b.height, b.hidden)) ∧
      (addAll st buttons)._height = heightBySpec st buttons ∧
      (∀ b ∈ (addAll st buttons)._buttons,
        b.width = (addAll st buttons)._width - st.paddingLeft - st.paddingRight) ∧
      (∀ d : DropdownLayout,
        d._buttons.map (fun b => (b.height, b.hidden))
            = buttons.map (fun b => (b.height, b.hidden)) →
          (updateButtons st d)._height = (addAll st buttons)._height ∧
          (updateButtons st d)._height = heightBySpec st buttons ∧
          (updateButtons st d)._width = d._width ∧
          (updateButtons st d)._buttons.map (fun b => (b.height, b.hidden))
            = buttons.map (fun b => (b.height, b.hidden)) ∧
          ∀ b ∈ (updateButtons st d)._buttons, b.hidden = false →
            b.width = d._width - st.paddingLeft - st.paddingRight ∧ b.x = st.paddingLeft) ∧
      (∀ b ∈ (updateButtons st (addAll st buttons))._buttons,
        b.width = (updateButtons st (addAll st buttons))._width
          - st.paddingLeft - st.paddingRight) := by
  obtain ⟨_, h2, h3⟩ := addAll_spec st hborder buttons hpos
  refine ⟨addAll_same st buttons, h2, h3, ?_, updateLoop_widths st _ _ _ h3⟩
  intro d hd
  have hvis : visibleHeights d._buttons = visibleHeights buttons :=
    visibleHeights_of_same _ _ hd
  have hposd : ∀ b ∈ d._buttons, b.hidden = false → 0 < b.height := by
    intro b hb hbv
    have hmem : b.height ∈ visibleHeights d._buttons := by
      unfold visibleHeights
      exact List.mem_map.2 ⟨b, List.mem_filter.2 ⟨hb, by simp [hbv]⟩, rfl⟩
    rw [hvis] at hmem
    exact visibleHeights_pos buttons hpos _ hmem
  have hheight : (updateButtons st d)._height = heightBySpec st buttons := by
    rw [updateButtons_height st hborder d hposd]
    unfold heightBySpec
    rw [hvis]
  refine ⟨by rw [hheight, h2], hheight, rfl, ?_, updateLoop_visible st _ _ _⟩
  exact (updateLoop_same st _ _ _).trans hd

/-- Witness for C21: three sample buttons, the second hidden, the third wider than the style
width; `updateButtons` is run on a layout of the same buttons with a stale height. -/
theorem C21_incremental_equals_batch_witness :
    (addAll sampleDropdownStyle sampleButtons)._height = 52 ∧
      (updateButtons sampleDropdownStyle
        { _width := 124, _height := 0, _buttons := sampleButtons })._height = 52 :=
  have h := C21_incremental_equals_batch sampleDropdownStyle sampleButtons (by decide)
    (by decide)
  ⟨h.2.1.trans (by decide),
    (h.2.2.2.1 { _width := 124, _height := 0, _buttons := sampleButtons } rfl).2.1.trans
      (by decide)⟩

end Dropdown
